import Mathlib

/-!
# LibOPT: agents, search spaces and the GP expression-tree engine

A shallow embedding of `src/common.c`.

Conventions of the embedding.

* A C `double` is an element of an abstract type `α`.  Comparisons use a linear
  order on `α` (NaN is outside the model), `calloc` needs a zero, and arithmetic
  is the exact arithmetic of a field (rounding is outside the model).
* A C `int` is an `Int`; a loop counter is a `Nat`.
* A `double *` that the code may leave `NULL` is an `Option (List α)`; an array
  that every constructor allocates is a `List α`.
* A function that can dereference `NULL`, index outside a block or call
  `exit(-1)` returns `Except Fault _`.
* `free` has no counterpart: the embedding tracks values, not the heap.
-/

namespace LibOPT

/-! ## Faults, arrays and loops -/

/-- Run-time failures of the C program that the embedding keeps track of. -/
inductive Fault where
  /-- A load or store through a `NULL` pointer. -/
  | nullDeref
  /-- A load or store outside the block an array owns. -/
  | outOfBounds
  /-- The program called `exit(-1)`. -/
  | fatalExit
  /-- The recursion budget of the embedding ran out (no C counterpart). -/
  | outOfFuel
  deriving DecidableEq, Repr

/-- Load `xs[j]`. -/
def rd {β : Type} (xs : List β) (j : Nat) : Except Fault β :=
  match xs[j]? with
  | some v => .ok v
  | none => .error .outOfBounds

/-- Store `xs[j] = v`. -/
def wr {β : Type} (xs : List β) (j : Nat) (v : β) : Except Fault (List β) :=
  if j < xs.length then .ok (xs.set j v) else .error .outOfBounds

/-- Load `xs[i]` for an `int` index. -/
def rdI {β : Type} (xs : List β) (i : Int) : Except Fault β :=
  if i < 0 then .error .outOfBounds else rd xs i.toNat

/-- Load `p[j]` through a pointer that may be `NULL`. -/
def rdP {β : Type} (p : Option (List β)) (j : Nat) : Except Fault β :=
  match p with
  | none => .error .nullDeref
  | some xs => rd xs j

/-- Store `p[j] = v` through a pointer that may be `NULL`. -/
def wrP {β : Type} (p : Option (List β)) (j : Nat) (v : β) :
    Except Fault (Option (List β)) :=
  match p with
  | none => .error .nullDeref
  | some xs =>
    match wr xs j v with
    | .ok ys => .ok (some ys)
    | .error e => .error e

/-- The loop `for (i = start; i < start + count; i++) body`, on a state `σ`. -/
def forLoop {σ : Type} (body : Nat → σ → Except Fault σ) :
    (count : Nat) → (i : Nat) → σ → Except Fault σ
  | 0, _, st => .ok st
  | count + 1, i, st =>
    match body i st with
    | .ok st1 => forLoop body count (i + 1) st1
    | .error e => .error e

/-- The call `calloc(n, sizeof(double))` for an `int` count: a zeroed block of
`n` cells; a negative count converts to a huge `size_t` and yields `NULL`. -/
def calloc {α : Type} [Zero α] (n : Int) : Option (List α) :=
  if n < 0 then none else some (List.replicate n.toNat 0)

/-! ## Data model -/

/-- Modelled from the spec: the `Agent` record (its `struct` declaration is in
the missing header `common.h`); the fields are the ones `common.c` uses. -/
structure Agent (α : Type) where
  /-- Number of decision variables. -/
  n : Int
  /-- Decision vector. -/
  x : List α
  /-- Velocity, `NULL` for the tree technique. -/
  v : Option (List α)
  /-- Personal best position, `NULL` unless particle swarm. -/
  xl : Option (List α)
  /-- Current fitness. -/
  fit : α
  /-- Previous fitness. -/
  pfit : α
  deriving DecidableEq, Repr

/-- Modelled from the spec: the node status tags `TERMINAL`, `FUNCTION` and
`CONSTANT` (their `#define` lines are in the missing header). -/
inductive Status where
  | TERMINAL
  | FUNCTION
  | CONSTANT
  deriving DecidableEq, Repr

/-- A `Node *`: `null` is the `NULL` pointer, `mk` a node that owns its two
subtrees.  The `parent` back-reference is navigational only and is not
represented. -/
inductive Node where
  | null : Node
  | mk (id : Int) (status : Status) (left_son : Int) (elem : String)
      (left right : Node) : Node
  deriving DecidableEq, Repr

/-- Modelled from the spec: the `SearchSpace` record (declared in the missing
header), restricted to the fields `common.c` reads or writes outside the
configuration-file loader. -/
structure SearchSpace (α : Type) where
  /-- Number of agents (or trees). -/
  m : Int
  /-- Number of decision variables. -/
  n : Int
  /-- Array of agent pointers. -/
  a : List (Option (Agent α))
  /-- Global best position, allocated for the vector techniques only. -/
  g : Option (List α)
  /-- Global best fitness. -/
  gfit : α
  /-- Lower bounds. -/
  LB : List α
  /-- Upper bounds. -/
  UB : List α
  /-- Trees of the GP population. -/
  T : List Node
  min_depth : Int
  max_depth : Int
  n_terminals : Int
  n_constants : Int
  n_functions : Int
  /-- Names of the terminal symbols. -/
  terminal : List String
  /-- Table of constants. -/
  constant : List α
  /-- Names of the function symbols. -/
  function : List String
  deriving Repr

/-- Load the agent `s->a[i]` and follow the pointer. -/
def rdAgent {α : Type} (a : List (Option (Agent α))) (i : Int) :
    Except Fault (Agent α) :=
  match rdI a i with
  | .ok (some ag) => .ok ag
  | .ok none => .error .nullDeref
  | .error e => .error e

/-! ## Expression trees: evaluation -/

/-- Modelled from the spec: the elementwise primitives `f_SUM_` ... `f_LOG_`
of the missing `function.h`, taken as parameters.  Each receives the child
result pointers and the dimension and returns a result pointer. -/
structure Primitives (α : Type) where
  f_SUM_ : Option (List α) → Option (List α) → Int → Option (List α)
  f_SUB_ : Option (List α) → Option (List α) → Int → Option (List α)
  f_MUL_ : Option (List α) → Option (List α) → Int → Option (List α)
  f_DIV_ : Option (List α) → Option (List α) → Int → Option (List α)
  f_EXP_ : Option (List α) → Int → Option (List α)
  f_SQRT_ : Option (List α) → Int → Option (List α)
  f_LOG_ : Option (List α) → Int → Option (List α)

/-- The operator dispatch of `RunTree` (the chain of `strcmp` tests). -/
def applyFunction {α : Type} (P : Primitives α) (elem : String)
    (x y : Option (List α)) (n : Int) : Option (List α) :=
  if elem = "SUM" then P.f_SUM_ x y n
  else if elem = "SUB" then P.f_SUB_ x y n
  else if elem = "MUL" then P.f_MUL_ x y n
  else if elem = "DIV" then P.f_DIV_ x y n
  else if elem = "EXP" then
    (if x.isSome then P.f_EXP_ x n else P.f_EXP_ y n)
  else if elem = "SQRT" then
    (if x.isSome then P.f_SQRT_ x n else P.f_SQRT_ y n)
  else if elem = "LOG" then
    (if x.isSome then P.f_LOG_ x n else P.f_LOG_ y n)
  else none

/-- The function `RunTree`: both subtrees are run first; a leaf then fills
`out` cell by cell, a function node dispatches on its name. -/
def RunTree {α : Type} [Zero α] (P : Primitives α) (s : SearchSpace α) :
    Node → Except Fault (Option (List α))
  | .null => .ok none
  | .mk id status _ elem left right =>
    match RunTree P s left with
    | .error e => .error e
    | .ok x =>
      match RunTree P s right with
      | .error e => .error e
      | .ok y =>
        if status = .TERMINAL ∨ status = .CONSTANT then
          if status = .CONSTANT then
            forLoop (fun i out =>
                match rdI s.constant id with
                | .ok c => wrP out i c
                | .error e => .error e)
              s.n.toNat 0 (calloc s.n)
          else
            forLoop (fun i out =>
                match rdAgent s.a id with
                | .ok ag =>
                  match rd ag.x i with
                  | .ok c => wrP out i c
                  | .error e => .error e
                | .error e => .error e)
              s.n.toNat 0 none
        else .ok (applyFunction P elem x y s.n)

/-! ## Agents -/

/-- Modelled from the spec: the technique identifiers `_PSO_`, `_BA_`, `_FPA_`,
`_FA_`, `_GA_` and `_GP_` (their `#define` lines are in the missing header).
They label the cases of one `switch`, hence are pairwise distinct. -/
structure OptIds where
  _PSO_ : Int
  _BA_ : Int
  _FPA_ : Int
  _FA_ : Int
  _GA_ : Int
  _GP_ : Int
  distinct : [_PSO_, _BA_, _FPA_, _FA_, _GA_, _GP_].Nodup

/-- The function `CreateAgent`; `DBL_MAX` is the constant of `float.h`. -/
def CreateAgent {α : Type} [Zero α] (ids : OptIds) (DBL_MAX : α)
    (n opt_id : Int) : Option (Agent α) :=
  if n < 1 ∨ opt_id < 1 then none
  else if opt_id = ids._PSO_ ∨ opt_id = ids._BA_ ∨ opt_id = ids._FPA_ ∨
      opt_id = ids._FA_ ∨ opt_id = ids._GA_ ∨ opt_id = ids._GP_ then
    some
      { n := n
        x := List.replicate n.toNat 0
        v := if opt_id ≠ ids._GP_ then calloc n else none
        xl := if opt_id = ids._PSO_ then calloc n else none
        fit := DBL_MAX
        pfit := DBL_MAX }
  else none

/-- One iteration of the loop of `CheckAgentLimits`, on the array `a->x`. -/
def checkLimitsBody {α : Type} [LinearOrder α] (s : SearchSpace α) (j : Nat)
    (x : List α) : Except Fault (List α) :=
  match rd x j with
  | .error e => .error e
  | .ok xj =>
    match rd s.LB j with
    | .error e => .error e
    | .ok lb =>
      if xj < lb then wr x j lb
      else
        match rd s.UB j with
        | .error e => .error e
        | .ok ub => if xj > ub then wr x j ub else .ok x

/-- The function `CheckAgentLimits` (both pointers are present, so the
`exit(-1)` guard does not fire). -/
def CheckAgentLimits {α : Type} [LinearOrder α] (s : SearchSpace α)
    (a : Agent α) : Except Fault (Agent α) :=
  match forLoop (checkLimitsBody s) a.n.toNat 0 a.x with
  | .ok x1 => .ok { a with x := x1 }
  | .error e => .error e

/-! ## Population evaluation -/

/-- The loop `for (j = 0; j < n; j++) dst[j] = src[j]`. -/
def copyInto {α : Type} (n : Nat) (dst : Option (List α)) (src : List α) :
    Except Fault (Option (List α)) :=
  forLoop (fun j d =>
      match rd src j with
      | .ok c => wrP d j c
      | .error e => .error e)
    n 0 dst

/-- The global-best update shared by both cases of `EvaluateSearchSpace`:
`if (a[i]->fit < gfit) { gfit = a[i]->fit; g[j] = a[i]->x[j] for all j }`. -/
def updateGlobal {α : Type} [LinearOrder α] (s : SearchSpace α) (ag : Agent α) :
    Except Fault (SearchSpace α) :=
  if ag.fit < s.gfit then
    match copyInto s.n.toNat s.g ag.x with
    | .ok g1 => .ok { s with gfit := ag.fit, g := g1 }
    | .error e => .error e
  else .ok s

/-- Loop body of the case `_BA_`, `_FPA_`, `_FA_`, `_GA_` of
`EvaluateSearchSpace`, for agent `i`. -/
def evalBodyVector {α : Type} [LinearOrder α] (Evaluate : Agent α → α) (i : Nat)
    (s : SearchSpace α) : Except Fault (SearchSpace α) :=
  match rdAgent s.a i with
  | .error e => .error e
  | .ok ag =>
    let f := Evaluate ag
    let ag1 := if f < ag.fit then { ag with fit := f } else ag
    updateGlobal { s with a := s.a.set i (some ag1) } ag1

/-- Loop body of the case `_PSO_` of `EvaluateSearchSpace`, for agent `i`. -/
def evalBodyPSO {α : Type} [LinearOrder α] (Evaluate : Agent α → α) (i : Nat)
    (s : SearchSpace α) : Except Fault (SearchSpace α) :=
  match rdAgent s.a i with
  | .error e => .error e
  | .ok ag =>
    let f := Evaluate ag
    if f < ag.fit then
      match copyInto s.n.toNat ag.xl ag.x with
      | .error e => .error e
      | .ok xl1 =>
        let ag1 := { ag with fit := f, xl := xl1 }
        updateGlobal { s with a := s.a.set i (some ag1) } ag1
    else updateGlobal s ag

/-- The function `EvaluateSearchSpace`.  The fitness callback is a function of
the agent; the variadic argument list it also receives is rewound before every
call and is part of the closure. -/
def EvaluateSearchSpace {α : Type} [LinearOrder α] (ids : OptIds)
    (s : SearchSpace α) (opt_id : Int) (Evaluate : Agent α → α) :
    Except Fault (SearchSpace α) :=
  if opt_id = ids._BA_ ∨ opt_id = ids._FPA_ ∨ opt_id = ids._FA_ ∨
      opt_id = ids._GA_ then
    forLoop (evalBodyVector Evaluate) s.m.toNat 0 s
  else if opt_id = ids._PSO_ then
    forLoop (evalBodyPSO Evaluate) s.m.toNat 0 s
  else .ok s

/-! ## Expression trees: random construction -/

/-- The function `CreateNode`.  A symbol name is a `String`, so the `NULL`
guard on `value` does not fire; every new node is a left node without
children. -/
def CreateNode (value : String) (node_id : Int) (status : Status) : Node :=
  .mk node_id status 1 value .null .null

/-- Modelled from the spec: the operator identifier `_SUM_` (the `#define`
lines of `_SUM_` ... `_ABS_` are in the missing header); the identifiers index
`N_ARGS_FUNCTION` in the order its comment lists the operators. -/
def _SUM_ : Int := 0

/-- Modelled from the spec: operator identifier, see `_SUM_`. -/
def _SUB_ : Int := 1

/-- Modelled from the spec: operator identifier, see `_SUM_`. -/
def _MUL_ : Int := 2

/-- Modelled from the spec: operator identifier, see `_SUM_`. -/
def _DIV_ : Int := 3

/-- Modelled from the spec: operator identifier, see `_SUM_`. -/
def _EXP_ : Int := 4

/-- Modelled from the spec: operator identifier, see `_SUM_`. -/
def _SQRT_ : Int := 5

/-- Modelled from the spec: operator identifier, see `_SUM_`. -/
def _LOG_ : Int := 6

/-- Modelled from the spec: operator identifier, see `_SUM_`. -/
def _ABS_ : Int := 7

/-- The function `getFUNCTIONid`; an unknown name ends the program with
`exit(-1)`. -/
def getFUNCTIONid (s : String) : Except Fault Int :=
  if s = "SUM" then .ok _SUM_
  else if s = "SUB" then .ok _SUB_
  else if s = "MUL" then .ok _MUL_
  else if s = "DIV" then .ok _DIV_
  else if s = "EXP" then .ok _EXP_
  else if s = "SQRT" then .ok _SQRT_
  else if s = "LOG" then .ok _LOG_
  else if s = "ABS" then .ok _ABS_
  else .error .fatalExit

/-- The table `N_ARGS_FUNCTION`. -/
def N_ARGS_FUNCTION : List Int := [2, 2, 2, 2, 1, 1, 1, 1]

/-- The source of randomness: `rnd k low high` is the value of
`round(GenerateUniformRandomNumber(low, high))` at the `k`-th draw of a run.
(`randinter`, which `GenerateUniformRandomNumber` forwards to, is external.) -/
abbrev Draws := Nat → Int → Int → Int

/-- Every draw falls in the closed range it was requested for. -/
def Draws.InRange (rnd : Draws) : Prop :=
  ∀ k low high, low ≤ high → low ≤ rnd k low high ∧ rnd k low high ≤ high

/-- The leaf construction that both branches of `GROW` contain: the terminal
`aux` is looked up; the reserved name `CONST` draws a constant index (draw `k`)
and gives a `CONSTANT` node, any other name a `TERMINAL` node. -/
def growLeaf {α : Type} (rnd : Draws) (s : SearchSpace α) (aux : Int) (k : Nat) :
    Except Fault (Node × Nat) :=
  match rdI s.terminal aux with
  | .error e => .error e
  | .ok name =>
    if name = "CONST" then
      let const_id := rnd k 0 (s.n_constants - 1)
      .ok (CreateNode name const_id .CONSTANT, k + 1)
    else .ok (CreateNode name aux .TERMINAL, k)

/-- The statement `node->left = tmp; tmp->parent = node;`. -/
def attachLeft (node tmp : Node) : Except Fault Node :=
  match node, tmp with
  | .mk id st ls el _ r, .mk tid tst tls tel tl tr =>
    .ok (.mk id st ls el (.mk tid tst tls tel tl tr) r)
  | _, _ => .error .nullDeref

/-- The statement `node->right = tmp; tmp->left_son = 0; tmp->parent = node;`. -/
def attachRight (node tmp : Node) : Except Fault Node :=
  match node, tmp with
  | .mk id st ls el l _, .mk tid tst _ tel tl tr =>
    .ok (.mk id st ls el l (.mk tid tst 0 tel tl tr))
  | _, _ => .error .nullDeref

/-- The function `GROW`, with a recursion budget `fuel` and the index `k` of
the next random draw; it returns the tree and the index of the draw after the
last one it used. -/
def GROW {α : Type} (rnd : Draws) (s : SearchSpace α) :
    (fuel : Nat) → (min_depth max_depth : Int) → (k : Nat) →
      Except Fault (Node × Nat)
  | 0, _, _, _ => .error .outOfFuel
  | fuel + 1, min_depth, max_depth, k =>
    if min_depth = max_depth then
      growLeaf rnd s (rnd k 0 (s.n_terminals - 1)) (k + 1)
    else
      let aux := rnd k 0 (s.n_functions + s.n_terminals - 1)
      if aux ≥ s.n_functions then
        growLeaf rnd s (aux - s.n_functions) (k + 1)
      else
        match rdI s.function aux with
        | .error e => .error e
        | .ok name =>
          match getFUNCTIONid name with
          | .error e => .error e
          | .ok fid =>
            match rdI N_ARGS_FUNCTION fid with
            | .error e => .error e
            | .ok nargs =>
              forLoop (fun i (st : Node × Nat) =>
                  match GROW rnd s fuel (min_depth + 1) max_depth st.2 with
                  | .error e => .error e
                  | .ok (tmp, k1) =>
                    match (if i = 0 then attachLeft st.1 tmp
                      else attachRight st.1 tmp) with
                    | .error e => .error e
                    | .ok node => .ok (node, k1))
                nargs.toNat 0 (CreateNode name aux .FUNCTION, k + 1)

/-- Number of nodes on the longest path from the root to a leaf. -/
def Node.levels : Node → Nat
  | .null => 0
  | .mk _ _ _ _ l r => 1 + max l.levels r.levels

/-- Number of edges on the longest path from the root to a leaf. -/
def Node.height (t : Node) : Int := (t.levels : Int) - 1

/-- A single leaf: a `TERMINAL` or `CONSTANT` node without children. -/
def Node.IsLeaf : Node → Prop
  | .mk _ st _ _ .null .null => st = .TERMINAL ∨ st = .CONSTANT
  | _ => False

/-! ## Search spaces -/

/-- The additional (variadic) arguments `CreateSearchSpace` reads for the tree
technique, in the order of the `va_arg` calls. -/
structure GPArgs (α : Type) where
  min_depth : Int
  max_depth : Int
  n_terminals : Int
  n_constants : Int
  n_functions : Int
  terminal : List String
  constant : List α
  function : List String

/-- The call `malloc(n*sizeof(double))`: a block of `n` cells whose contents
`junk` are indeterminate. -/
def mallocDoubles {α : Type} (junk : Nat → α) (n : Int) : List α :=
  (List.range n.toNat).map junk

/-- The function `CreateSearchSpace`.  `raw` holds the indeterminate contents
of the record that `malloc` returns, `junkLB` and `junkUB` those of the two
bound arrays; a fresh array of pointers holds `NULL` in every cell.  `fuel` and `k` are handed to
`GROW`; the result carries the index of the next random draw. -/
def CreateSearchSpace {α : Type} [Zero α] (ids : OptIds) (DBL_MAX : α)
    (rnd : Draws) (fuel : Nat) (raw : SearchSpace α) (junkLB junkUB : Nat → α)
    (m n opt_id : Int) (extra : GPArgs α) (k : Nat) :
    Except Fault (Option (SearchSpace α) × Nat) :=
  if m < 1 ∨ n < 1 ∨ opt_id < 1 then .ok (none, k)
  else
    let s0 : SearchSpace α := { raw with m := m, n := n, gfit := DBL_MAX }
    if opt_id ≠ ids._GP_ then
      match CreateAgent ids DBL_MAX s0.n opt_id with
      | none => .ok (none, k)
      | some a0 =>
        match forLoop (fun i arr => wr arr i (CreateAgent ids DBL_MAX s0.n opt_id))
            (s0.m.toNat - 1) 1 ((List.replicate s0.m.toNat none).set 0 (some a0)) with
        | .error e => .error e
        | .ok a1 =>
          let s1 : SearchSpace α := { s0 with a := a1 }
          let s2 : SearchSpace α :=
            if opt_id = ids._PSO_ ∨ opt_id = ids._BA_ ∨ opt_id = ids._FPA_ ∨
                opt_id = ids._FA_ ∨ opt_id = ids._GA_ then
              { s1 with g := calloc s1.n }
            else s1
          .ok (some { s2 with LB := mallocDoubles junkLB s2.n,
                              UB := mallocDoubles junkUB s2.n }, k)
    else
      let s1 : SearchSpace α :=
        { s0 with
          min_depth := extra.min_depth
          max_depth := extra.max_depth
          n_terminals := extra.n_terminals
          n_constants := extra.n_constants
          n_functions := extra.n_functions
          terminal := extra.terminal
          constant := extra.constant
          function := extra.function }
      match forLoop (fun i (st : List Node × Nat) =>
              match GROW rnd s1 fuel s1.min_depth s1.max_depth st.2 with
              | .error e => .error e
              | .ok (t, k1) =>
                match wr st.1 i t with
                | .error e => .error e
                | .ok T1 => .ok (T1, k1))
            s1.m.toNat 0 (List.replicate s1.m.toNat Node.null, k) with
      | .error e => .error e
      | .ok (T1, k1) =>
        let s2 : SearchSpace α := { s1 with T := T1 }
        match forLoop (fun i arr => wr arr i (CreateAgent ids DBL_MAX s2.n ids._GP_))
            s2.n_terminals.toNat 0 (List.replicate s2.n_terminals.toNat none) with
        | .error e => .error e
        | .ok a1 =>
          .ok (some { s2 with a := a1, LB := mallocDoubles junkLB s2.n,
                              UB := mallocDoubles junkUB s2.n }, k1)

/-! ## Expression trees: serialization -/

/-- The function `PreFixPrintTree4File`.  The stream `fp` is the text written
so far; `fmt` is the rendering `printf` gives a `double` under `%lf`. -/
def PreFixPrintTree4File {α : Type} (fmt : α → String) (s : SearchSpace α) :
    Node → String → Except Fault String
  | .null, fp => .ok fp
  | .mk id status _ elem left right, fp =>
    let fp1 := if status ≠ .TERMINAL then fp ++ "(" else fp
    match (if status = .CONSTANT then
        (match rdI s.constant id with
          | .ok c => Except.ok (fp1 ++ fmt c ++ " ")
          | .error e => .error e)
        else .ok (fp1 ++ elem ++ " ")) with
    | .error e => .error e
    | .ok fp2 =>
      match PreFixPrintTree4File fmt s left fp2 with
      | .error e => .error e
      | .ok fp3 =>
        match PreFixPrintTree4File fmt s right fp3 with
        | .error e => .error e
        | .ok fp4 => .ok (if status ≠ .TERMINAL then fp4 ++ ")" else fp4)

/-- The function `PrintTree2File`.  `file` is the text the named file holds;
opening it in append mode continues that text.  An empty tree ends the program
with `exit(-1)`. -/
def PrintTree2File {α : Type} (fmt : α → String) (s : SearchSpace α) (T : Node)
    (file : String) : Except Fault String :=
  match T with
  | .null => .error .fatalExit
  | .mk id status ls elem left right =>
    match PreFixPrintTree4File fmt s (.mk id status ls elem left right) file with
    | .error e => .error e
    | .ok fp => .ok (fp ++ "\n")

/-! ## Agents: destruction, copy and ranking -/

/-- The function `DestroyAgent`, on the pointer `*a`: a `NULL` agent ends the
program with `exit(-1)`; otherwise the blocks are released, which leaves no
trace in the embedding. -/
def DestroyAgent {α : Type} (a : Option (Agent α)) (_opt_id : Int) : Except Fault Unit :=
  match a with
  | none => .error .fatalExit
  | some _ => .ok ()

/-- The call `memcpy(dst, src, n*sizeof(double))` on two allocated blocks: the
first `n` cells of `dst` are overwritten with those of `src`. -/
def memcpyDoubles {α : Type} (dst src : List α) (n : Int) : Except Fault (List α) :=
  if n < 0 then .error .outOfBounds
  else if n.toNat ≤ src.length ∧ n.toNat ≤ dst.length then
    .ok (src.take n.toNat ++ dst.drop n.toNat)
  else .error .outOfBounds

/-- The call `memcpy(dst, src, n*sizeof(double))` through pointers that may be
`NULL`. -/
def memcpyP {α : Type} (dst src : Option (List α)) (n : Int) :
    Except Fault (Option (List α)) :=
  match dst, src with
  | some d, some sr =>
    match memcpyDoubles d sr n with
    | .ok r => .ok (some r)
    | .error e => .error e
  | _, _ => .error .nullDeref

/-- The function `CopyAgent` on an allocated agent `a`.  The result holds the
source agent after the call and the pointer returned. -/
def CopyAgent {α : Type} [Zero α] (ids : OptIds) (DBL_MAX : α) (a : Agent α)
    (opt_id : Int) : Except Fault (Agent α × Option (Agent α)) :=
  let cpy := CreateAgent ids DBL_MAX a.n opt_id
  if opt_id = ids._PSO_ ∨ opt_id = ids._BA_ ∨ opt_id = ids._FPA_ ∨
      opt_id = ids._FA_ ∨ opt_id = ids._GA_ then
    match cpy with
    | none => .error .nullDeref
    | some c =>
      match memcpyDoubles c.x a.x a.n with
      | .error e => .error e
      | .ok x1 =>
        match memcpyP c.v a.v a.n with
        | .error e => .error e
        | .ok v1 =>
          if opt_id = ids._PSO_ then
            match memcpyP c.xl a.xl a.n with
            | .error e => .error e
            | .ok xl1 => .ok (a, some { c with x := x1, v := v1, xl := xl1 })
          else .ok (a, some { c with x := x1, v := v1 })
  else
    match DestroyAgent cpy opt_id with
    | .error e => .error e
    | .ok _ => .ok (a, none)

/-- The function `CompareForQSort`, on the two agents its arguments point to. -/
def CompareForQSort {α : Type} [LinearOrder α] (ap bp : Agent α) : Int :=
  if ap.fit < bp.fit then -1
  else if ap.fit > bp.fit then 1
  else 0

/-! ## Stochastic generators -/

/-- The source of uniform randomness: `unif k low high` is the value
`randinter(low, high)` returns at the `k`-th draw of a run (`randinter` is
external). -/
abbrev Uniform (α : Type) := Nat → α → α → α

/-- Every uniform draw falls in the closed range it was requested for. -/
def Uniform.InRange {α : Type} [LE α] (unif : Uniform α) : Prop :=
  ∀ k low high, low ≤ high → low ≤ unif k low high ∧ unif k low high ≤ high

/-- The function `GenerateUniformRandomNumber`, at draw `k`. -/
def GenerateUniformRandomNumber {α : Type} (unif : Uniform α) (k : Nat) (low high : α) : α :=
  unif k low high

/-- The source of Gaussian randomness: `gauss k mean variance` is the value
`randGaussian(mean, variance)` returns at the `k`-th draw of a run
(`randGaussian` is external). -/
abbrev Gaussian (α : Type) := Nat → α → α → α

/-- The function `GenerateGaussianRandomNumber`, at draw `k`. -/
def GenerateGaussianRandomNumber {α : Type} (gauss : Gaussian α) (k : Nat)
    (mean variance : α) : α :=
  gauss k mean variance

/-- The functions and the constant of `math.h` that `GenerateLevyDistribution`
calls, taken as parameters. -/
structure LibM (α : Type) where
  pow : α → α → α
  tgamma : α → α
  sin : α → α
  fabs : α → α
  M_PI : α

/-- Loop body of the case `_BA_` of `GenerateNewAgent`:
`a->x[j] = s->g[j] + 0.001*GenerateUniformRandomNumber(0,1)`, on the pointer `a`
and the index of the next draw. -/
def generateBody {α : Type} [Field α] (unif : Uniform α) (s : SearchSpace α) (j : Nat)
    (st : Option (Agent α) × Nat) : Except Fault (Option (Agent α) × Nat) :=
  match rdP s.g j with
  | .error e => .error e
  | .ok gj =>
    match st.1 with
    | none => .error .nullDeref
    | some ag =>
      match wr ag.x j (gj + 0.001 * GenerateUniformRandomNumber unif st.2 0 1) with
      | .error e => .error e
      | .ok x1 => .ok (some { ag with x := x1 }, st.2 + 1)

/-- The function `GenerateNewAgent`.  The result holds the search space after
the call, the pointer returned and the index of the next draw. -/
def GenerateNewAgent {α : Type} [Field α] (ids : OptIds) (DBL_MAX : α) (unif : Uniform α)
    (s : SearchSpace α) (opt_id : Int) (k : Nat) :
    Except Fault (SearchSpace α × Option (Agent α) × Nat) :=
  if opt_id = ids._PSO_ then .ok (s, none, k)
  else if opt_id = ids._BA_ then
    match forLoop (generateBody unif s) s.n.toNat 0
        (CreateAgent ids DBL_MAX s.n ids._BA_, k) with
    | .error e => .error e
    | .ok (a, k1) => .ok (s, a, k1)
  else if opt_id = ids._FPA_ then .ok (s, none, k)
  else if opt_id = ids._FA_ then .ok (s, none, k)
  else if opt_id = ids._GA_ then .ok (s, none, k)
  else .ok (s, none, k)

/-- The function `GenerateLevyDistribution`.  `junkL`, `junkU` and `junkV` are
the indeterminate contents of the three blocks `malloc` returns; the result
holds the pointer returned and the index of the next Gaussian draw. -/
def GenerateLevyDistribution {α : Type} [Field α] (M : LibM α) (gauss : Gaussian α)
    (junkL junkU junkV : Nat → α) (n : Int) (beta : α) (k : Nat) :
    Except Fault (Option (List α) × Nat) :=
  if n < 1 then .ok (none, k)
  else
    let L := mallocDoubles junkL n
    let sigma_v : α := 1
    let sigma_u := M.pow
      ((M.tgamma (1 + beta) * M.sin (M.M_PI * beta / 2)) /
        (M.tgamma ((1 + beta) / 2) * beta * M.pow 2 ((beta - 1) / 2)))
      (1 / beta)
    let u := mallocDoubles junkU n
    let v := mallocDoubles junkV n
    let sigma_u := M.pow sigma_u 2
    match forLoop (fun i (st : List α × List α × Nat) =>
        match wr st.1 i (GenerateGaussianRandomNumber gauss st.2.2 0 sigma_u) with
        | .error e => .error e
        | .ok u1 =>
          match wr st.2.1 i (GenerateGaussianRandomNumber gauss (st.2.2 + 1) 0 sigma_v) with
          | .error e => .error e
          | .ok v1 => .ok (u1, v1, st.2.2 + 2))
        n.toNat 0 (u, v, k) with
    | .error e => .error e
    | .ok (u1, v1, k1) =>
      match forLoop (fun i L1 =>
          match rd u1 i with
          | .error e => .error e
          | .ok ui =>
            match rd v1 i with
            | .error e => .error e
            | .ok vi => wr L1 i (0.01 * (ui / M.pow (M.fabs vi) (1 / beta))))
          n.toNat 0 L with
      | .error e => .error e
      | .ok L1 => .ok (some L1, k1)

/-! ## Elementwise primitives -/

/-- The scalar operators behind the seven primitives that `RunTree` calls. -/
structure ScalarOps (α : Type) where
  sum : α → α → α
  sub : α → α → α
  mul : α → α → α
  div : α → α → α
  exp : α → α
  sqrt : α → α
  log : α → α

/-- Modelled from the spec: a binary primitive of the missing `function.h`
(`f_SUM_`, `f_SUB_`, `f_MUL_`, `f_DIV_`), which applies its operator elementwise
across the `n` components of its two operands; a `NULL` operand gives `NULL`. -/
def elementwise2 {α : Type} (f : α → α → α) (x y : Option (List α)) (n : Int) :
    Option (List α) :=
  match x, y with
  | some xs, some ys => some ((List.zipWith f xs ys).take n.toNat)
  | _, _ => none

/-- Modelled from the spec: a unary primitive of the missing `function.h`
(`f_EXP_`, `f_SQRT_`, `f_LOG_`), which applies its operator elementwise across
the `n` components of its operand; a `NULL` operand gives `NULL`. -/
def elementwise1 {α : Type} (g : α → α) (x : Option (List α)) (n : Int) :
    Option (List α) :=
  match x with
  | some xs => some ((xs.map g).take n.toNat)
  | none => none

/-- Modelled from the spec: the seven primitives of the missing `function.h`
as the elementwise versions of the scalar operators `ops`. -/
def elementwisePrims {α : Type} (ops : ScalarOps α) : Primitives α :=
  { f_SUM_ := elementwise2 ops.sum
    f_SUB_ := elementwise2 ops.sub
    f_MUL_ := elementwise2 ops.mul
    f_DIV_ := elementwise2 ops.div
    f_EXP_ := elementwise1 ops.exp
    f_SQRT_ := elementwise1 ops.sqrt
    f_LOG_ := elementwise1 ops.log }

/-! ## Closed forms and shape predicates used to state the properties -/

/-- What one iteration of `CheckAgentLimits` leaves in a cell. -/
def clamp {α : Type} [LinearOrder α] (lb ub x : α) : α :=
  if x < lb then lb else if x > ub then ub else x

/-- The cells of `x` after `CheckAgentLimits`, as a list recursion. -/
def clampList {α : Type} [LinearOrder α] : List α → List α → List α → List α
  | lb :: LB, ub :: UB, x :: X => clamp lb ub x :: clampList LB UB X
  | _, _, _ => []

/-- The agent `ag` after `EvaluateSearchSpace` has processed it: an improving
fitness is stored, and for particle swarm (`pso`) the position is recorded in
`xl`. -/
def agentAfter {α : Type} [LinearOrder α] (pso : Bool) (Evaluate : Agent α → α)
    (ag : Agent α) : Agent α :=
  if Evaluate ag < ag.fit then
    { ag with fit := Evaluate ag, xl := if pso then some ag.x else ag.xl }
  else ag

/-- The pair `(g, gfit)` after the global-best test has run on one processed
agent. -/
def globalStep {α : Type} [LinearOrder α] (st : Option (List α) × α)
    (ag : Agent α) : Option (List α) × α :=
  if ag.fit < st.2 then (some ag.x, ag.fit) else st

/-- The pair `(g, gfit)` after the global-best test has run on a list of
processed agents, in order. -/
def globalAfter {α : Type} [LinearOrder α] (ags : List (Agent α))
    (st : Option (List α) × α) : Option (List α) × α :=
  ags.foldl globalStep st

/-- Shape of a vector search space: `a` holds `m` allocated agents `ags` of
dimension `n`, and `g` is an allocated block of `n` cells. -/
structure VectorShape {α : Type} (s : SearchSpace α) (ags : List (Agent α)) : Prop where
  agents : s.a = ags.map some
  count : (ags.length : Int) = s.m
  dimX : ∀ ag ∈ ags, ag.x.length = s.n.toNat
  dimG : ∃ g0, s.g = some g0 ∧ g0.length = s.n.toNat

/-- Shape of a particle-swarm agent: `xl` is an allocated block of `n` cells. -/
def HasXl {α : Type} (n : Nat) (ag : Agent α) : Prop :=
  ∃ xl0, ag.xl = some xl0 ∧ xl0.length = n

/-- The operator names `getFUNCTIONid` knows. -/
def functionNames : List String :=
  ["SUM", "SUB", "MUL", "DIV", "EXP", "SQRT", "LOG", "ABS"]

/-- Valid symbol tables: at least one terminal, the tables have the announced
sizes, and every function name is a known operator. -/
structure ValidTables {α : Type} (s : SearchSpace α) : Prop where
  terminals_pos : 1 ≤ s.n_terminals
  terminals_len : (s.terminal.length : Int) = s.n_terminals
  functions_len : (s.function.length : Int) = s.n_functions
  functions_known : ∀ name ∈ s.function, name ∈ functionNames

/-- Number of descendants `N_ARGS_FUNCTION` gives for an operator name. -/
def arityOf (elem : String) : Option Int :=
  match getFUNCTIONid elem with
  | .error _ => none
  | .ok fid =>
    match rdI N_ARGS_FUNCTION fid with
    | .error _ => none
    | .ok nargs => some nargs

/-- The `Node` invariant, for a node whose `left_son` flag should be `ls`: a
`FUNCTION` node has a left and a right child when its operator has arity 2 and
only a left child when it has arity 1; the left child is flagged `1`, the right
child `0`; `TERMINAL` and `CONSTANT` nodes have no children. -/
def Node.Invariant : Int → Node → Prop
  | _, .null => False
  | ls, .mk _ st left_son elem l r =>
    left_son = ls ∧
      match st with
      | .FUNCTION =>
        (arityOf elem = some 2 ∧ Node.Invariant 1 l ∧ Node.Invariant 0 r) ∨
          (arityOf elem = some 1 ∧ Node.Invariant 1 l ∧ r = .null)
      | _ => l = .null ∧ r = .null

/-- The tree `T` writes the text `txt`, whatever was written before. -/
def Serializes {α : Type} (fmt : α → String) (s : SearchSpace α) (T : Node)
    (txt : String) : Prop :=
  ∀ fp, PreFixPrintTree4File fmt s T fp = .ok (fp ++ txt)

/-- The technique identifiers are positive, as the guard `opt_id < 1` of the
constructors presupposes. -/
def OptIds.Positive (ids : OptIds) : Prop :=
  1 ≤ ids._PSO_ ∧ 1 ≤ ids._BA_ ∧ 1 ≤ ids._FPA_ ∧ 1 ≤ ids._FA_ ∧ 1 ≤ ids._GA_ ∧
    1 ≤ ids._GP_

/-- The tag `opt_id` is one of the six techniques `CreateAgent` lists. -/
def OptIds.Recognized (ids : OptIds) (opt_id : Int) : Prop :=
  opt_id = ids._PSO_ ∨ opt_id = ids._BA_ ∨ opt_id = ids._FPA_ ∨ opt_id = ids._FA_ ∨
    opt_id = ids._GA_ ∨ opt_id = ids._GP_

/-- The shape `CreateAgent(n, opt_id)` gives an agent, which later updates of
its cells keep: `x` has `n ≥ 1` cells, `v` is a block of `n` cells unless the
technique is `_GP_`, `xl` is a block of `n` cells exactly for `_PSO_`. -/
def CreatedFor {α : Type} (ids : OptIds) (opt_id : Int) (a : Agent α) : Prop :=
  1 ≤ a.n ∧ (a.x.length : Int) = a.n ∧
    (if opt_id ≠ ids._GP_ then ∃ v, a.v = some v ∧ (v.length : Int) = a.n
      else a.v = none) ∧
    (if opt_id = ids._PSO_ then ∃ xl, a.xl = some xl ∧ (xl.length : Int) = a.n
      else a.xl = none)

/-- The cells the bat-algorithm case of `GenerateNewAgent` writes: cell `j` is
`g[j] + 0.001 * u`, with `u` the draw of index `k + j`. -/
def batWalk {α : Type} [Field α] (unif : Uniform α) : Nat → List α → List α
  | _, [] => []
  | k, gj :: g => (gj + 0.001 * unif k 0 1) :: batWalk unif (k + 1) g

/-- Every node of the tree carries a valid id: a `TERMINAL` node indexes the
terminal table at the entry that holds its name, which is not the reserved name
`CONST`; a `CONSTANT` node indexes the constant table; a `FUNCTION` node indexes
the function table at the entry that holds its name. -/
def Node.ValidIds {α : Type} (s : SearchSpace α) : Node → Prop
  | .null => True
  | .mk id st _ elem l r =>
    (match st with
      | .TERMINAL =>
        0 ≤ id ∧ id < s.n_terminals ∧ s.terminal[id.toNat]? = some elem ∧ elem ≠ "CONST"
      | .CONSTANT => 0 ≤ id ∧ id < s.n_constants
      | .FUNCTION => 0 ≤ id ∧ id < s.n_functions ∧ s.function[id.toNat]? = some elem) ∧
      Node.ValidIds s l ∧ Node.ValidIds s r

/-- Modelled from the spec: the primitives `f_SUM_` ... `f_LOG_` of the missing
`function.h` are the elementwise versions of their scalar operators: on
operands of length `n`, `P` returns the vector of the componentwise results of
`ops`. -/
structure Primitives.Elementwise {α : Type} (P : Primitives α) (ops : ScalarOps α) :
    Prop where
  sum_eq : ∀ (x y : List α) (n : Int), (x.length : Int) = n → (y.length : Int) = n →
    P.f_SUM_ (some x) (some y) n = some (List.zipWith ops.sum x y)
  sub_eq : ∀ (x y : List α) (n : Int), (x.length : Int) = n → (y.length : Int) = n →
    P.f_SUB_ (some x) (some y) n = some (List.zipWith ops.sub x y)
  mul_eq : ∀ (x y : List α) (n : Int), (x.length : Int) = n → (y.length : Int) = n →
    P.f_MUL_ (some x) (some y) n = some (List.zipWith ops.mul x y)
  div_eq : ∀ (x y : List α) (n : Int), (x.length : Int) = n → (y.length : Int) = n →
    P.f_DIV_ (some x) (some y) n = some (List.zipWith ops.div x y)
  exp_eq : ∀ (x : List α) (n : Int), (x.length : Int) = n →
    P.f_EXP_ (some x) n = some (x.map ops.exp)
  sqrt_eq : ∀ (x : List α) (n : Int), (x.length : Int) = n →
    P.f_SQRT_ (some x) n = some (x.map ops.sqrt)
  log_eq : ∀ (x : List α) (n : Int), (x.length : Int) = n →
    P.f_LOG_ (some x) n = some (x.map ops.log)

/-- The scalar operator of a binary operator name. -/
def ScalarOps.binary {α : Type} (ops : ScalarOps α) (elem : String) : Option (α → α → α) :=
  if elem = "SUM" then some ops.sum
  else if elem = "SUB" then some ops.sub
  else if elem = "MUL" then some ops.mul
  else if elem = "DIV" then some ops.div
  else none

/-- The scalar operator of a unary operator name. -/
def ScalarOps.unary {α : Type} (ops : ScalarOps α) (elem : String) : Option (α → α) :=
  if elem = "EXP" then some ops.exp
  else if elem = "SQRT" then some ops.sqrt
  else if elem = "LOG" then some ops.log
  else none

/-- Pointwise evaluation, following the specification: the value of the
expression `T` at component `i`.  A `CONSTANT` leaf is its constant, a
`TERMINAL` leaf the `i`-th decision variable of its agent; a binary operator
combines the values of its two subtrees, a unary operator applies to the value
of its single subtree, placed left or right. -/
def evalScalar {α : Type} (ops : ScalarOps α) (s : SearchSpace α) (i : Nat) :
    Node → Option α
  | .null => none
  | .mk id st _ elem l r =>
    match st with
    | .CONSTANT => if id < 0 then none else s.constant[id.toNat]?
    | .TERMINAL =>
      if id < 0 then none
      else
        match s.a[id.toNat]? with
        | some (some ag) => ag.x[i]?
        | _ => none
    | .FUNCTION =>
      match ops.binary elem, ops.unary elem with
      | some f, _ =>
        match evalScalar ops s i l, evalScalar ops s i r with
        | some a, some b => some (f a b)
        | _, _ => none
      | none, some g =>
        match evalScalar ops s i l with
        | some a => some (g a)
        | none => (evalScalar ops s i r).map g
      | none, none => none

/-- The trees of the batched-evaluation property: every leaf (a `TERMINAL` or
`CONSTANT` node without children) evaluates to a vector of length `n`; a
`FUNCTION` node is `SUM`, `SUB`, `MUL` or `DIV` over two such subtrees, or `EXP`,
`SQRT` or `LOG` over exactly one, placed left or right. -/
def Node.Batched {α : Type} [Zero α] (P : Primitives α) (s : SearchSpace α) : Node → Prop
  | .null => False
  | .mk id st ls elem l r =>
    match st with
    | .FUNCTION =>
      (elem ∈ ["SUM", "SUB", "MUL", "DIV"] ∧ Node.Batched P s l ∧ Node.Batched P s r) ∨
        (elem ∈ ["EXP", "SQRT", "LOG"] ∧
          ((Node.Batched P s l ∧ r = .null) ∨ (l = .null ∧ Node.Batched P s r)))
    | _ =>
      l = .null ∧ r = .null ∧
        ∃ v, RunTree P s (.mk id st ls elem .null .null) = .ok (some v) ∧
          (v.length : Int) = s.n

/-! ## Example data -/

/-- Technique identifiers used in the examples. -/
def exIds : OptIds :=
  { _PSO_ := 1, _BA_ := 2, _FPA_ := 3, _FA_ := 4, _GA_ := 7, _GP_ := 6
    distinct := by decide }

/-- A vector search space of dimension 3 with the box `[0,1]³` and no agents. -/
def exBox : SearchSpace ℚ :=
  { m := 0, n := 3, a := [], g := some [0, 0, 0], gfit := 100
    LB := [0, 0, 0], UB := [1, 1, 1], T := []
    min_depth := 0, max_depth := 0, n_terminals := 0, n_constants := 0, n_functions := 0
    terminal := [], constant := [], function := [] }

/-- An agent of dimension 3 with one cell below, one inside and one above the box. -/
def exAgent : Agent ℚ :=
  { n := 3, x := [-1, 1 / 2, 2], v := some [0, 0, 0], xl := none, fit := 100, pfit := 100 }

/-- Two particle-swarm agents of dimension 2; the second has already stored
the fitness `2`. -/
def exSwarmAgents : List (Agent ℚ) :=
  [ { n := 2, x := [3, 4], v := some [0, 0], xl := some [0, 0], fit := 100, pfit := 100 },
    { n := 2, x := [1, 2], v := some [0, 0], xl := some [9, 9], fit := 2, pfit := 100 } ]

/-- A vector search space over `exSwarmAgents` with `gfit = 50`. -/
def exSwarm : SearchSpace ℚ :=
  { m := 2, n := 2, a := exSwarmAgents.map some, g := some [0, 0], gfit := 50
    LB := [0, 0], UB := [10, 10], T := []
    min_depth := 0, max_depth := 0, n_terminals := 0, n_constants := 0, n_functions := 0
    terminal := [], constant := [], function := [] }

/-- A fitness function: the sum of the decision variables. -/
def exFitness (ag : Agent ℚ) : ℚ := ag.x.sum

/-- The search space `CreateSearchSpace(2, 2, _BA_)` returns when `DBL_MAX` is
`1000`, the fresh record holds the contents of `exBox` and fresh blocks hold
zeros. -/
def exFresh : SearchSpace ℚ :=
  { exBox with
    m := 2, n := 2, gfit := 1000
    a := [some { n := 2, x := [0, 0], v := some [0, 0], xl := none, fit := 1000, pfit := 1000 },
      some { n := 2, x := [0, 0], v := some [0, 0], xl := none, fit := 1000, pfit := 1000 }]
    g := some [0, 0], LB := [0, 0], UB := [0, 0] }

/-- An agent whose stored fitness `1` is below the global best of `exStale`. -/
def exStaleAgent : Agent ℚ :=
  { n := 1, x := [7], v := some [0], xl := none, fit := 1, pfit := 1 }

/-- A bat-algorithm search space whose only agent has stored fitness `1` while
`gfit = 5` and `g = [0]`. -/
def exStale : SearchSpace ℚ :=
  { exBox with m := 1, n := 1, a := [some exStaleAgent], g := some [0], gfit := 5
               LB := [0], UB := [10] }

/-- The state `exStale` after one pass with the constant fitness `3`. -/
def exStaleAfter : SearchSpace ℚ :=
  { exStale with g := some [7], gfit := 1 }

/-- A tree search space of dimension 3 with two terminals bound to the agents
`[1,2,3]` and `[4,5,6]`, the constant `5` and the operator `SUM`. -/
def exTreeSpace : SearchSpace ℚ :=
  { m := 1, n := 3
    a := [some ⟨3, [1, 2, 3], none, none, 0, 0⟩, some ⟨3, [4, 5, 6], none, none, 0, 0⟩]
    g := none, gfit := 0, LB := [], UB := [], T := []
    min_depth := 0, max_depth := 2
    n_terminals := 3, n_constants := 1, n_functions := 1
    terminal := ["x0", "x1", "CONST"], constant := [5], function := ["SUM"] }

/-- The tree `SUM(x0, x1)`. -/
def exSumTree : Node :=
  .mk 0 .FUNCTION 1 "SUM"
    (.mk 0 .TERMINAL 1 "x0" .null .null) (.mk 1 .TERMINAL 0 "x1" .null .null)

/-- Primitives that return `NULL` on every input (the leaves never call them). -/
def nullPrims : Primitives ℚ :=
  { f_SUM_ := fun _ _ _ => none
    f_SUB_ := fun _ _ _ => none
    f_MUL_ := fun _ _ _ => none
    f_DIV_ := fun _ _ _ => none
    f_EXP_ := fun _ _ => none
    f_SQRT_ := fun _ _ => none
    f_LOG_ := fun _ _ => none }

/-- Variadic arguments of a tree search space: terminals `x0`, `x1`, `CONST`,
one constant and the operators `SUM` and `EXP`. -/
def exGPArgs : GPArgs ℚ :=
  { min_depth := 0, max_depth := 2, n_terminals := 3, n_constants := 1, n_functions := 2
    terminal := ["x0", "x1", "CONST"], constant := [5], function := ["SUM", "EXP"] }

/-- A source of randomness that always returns the lower end of the range. -/
def exDrawLow : Draws := fun _ low _ => low

/-- A source of randomness that always returns the upper end of the range. -/
def exDrawHigh : Draws := fun _ _ high => high

/-- Primitives that hand back their first operand. -/
def exEchoPrims : Primitives ℚ :=
  { f_SUM_ := fun x _ _ => x
    f_SUB_ := fun x _ _ => x
    f_MUL_ := fun x _ _ => x
    f_DIV_ := fun x _ _ => x
    f_EXP_ := fun x _ => x
    f_SQRT_ := fun x _ => x
    f_LOG_ := fun x _ => x }

/-- The tree `GROW(s, 0, 2)` builds over `exTreeSpace` when every draw returns
the lower end of its range. -/
def exGrownTree : Node :=
  .mk 0 .FUNCTION 1 "SUM"
    (.mk 0 .FUNCTION 1 "SUM"
      (.mk 0 .TERMINAL 1 "x0" .null .null) (.mk 0 .TERMINAL 0 "x0" .null .null))
    (.mk 0 .FUNCTION 0 "SUM"
      (.mk 0 .TERMINAL 1 "x0" .null .null) (.mk 0 .TERMINAL 0 "x0" .null .null))

/-- A particle-swarm agent of dimension 2. -/
def exPsoAgent : Agent ℚ :=
  { n := 2, x := [3, 4], v := some [1, -1], xl := some [5, 6], fit := 7, pfit := 9 }

/-- A terminal-binding agent of the tree technique, of dimension 3. -/
def exGPAgent : Agent ℚ :=
  { n := 3, x := [1, 2, 3], v := none, xl := none, fit := 1000, pfit := 1000 }

/-- Three agents with fitness `1`, `3` and `2`. -/
def exRanked : List (Agent ℚ) :=
  [ { exPsoAgent with fit := 1 }, { exPsoAgent with fit := 3 }, { exPsoAgent with fit := 2 } ]

/-- A source of uniform randomness that always returns the middle of the range. -/
def exUnifMid : Uniform ℚ := fun _ low high => (low + high) / 2

/-- A source of Gaussian randomness that returns the index of the draw. -/
def exGauss : Gaussian ℚ := fun k _ _ => k

/-- Stand-ins for the functions of `math.h`, over the rationals. -/
def exLibM : LibM ℚ :=
  { pow := fun x _ => x, tgamma := fun x => x, sin := fun x => x
    fabs := fun x => |x|, M_PI := 3 }

/-- Scalar operators over `ℚ`: the four arithmetic operators, and computable
stand-ins for `exp`, `sqrt` and `log` (the successor, the half, the negation). -/
def exOps : ScalarOps ℚ :=
  { sum := fun a b => a + b
    sub := fun a b => a - b
    mul := fun a b => a * b
    div := fun a b => a / b
    exp := fun a => a + 1
    sqrt := fun a => a / 2
    log := fun a => -a }

/-- The tree `SUB(MUL(5, 5), SQRT(EXP(5)))` over the constant `5` of
`exTreeSpace`, with the child of `EXP` on the right and that of `SQRT` on the
left. -/
def exConstTree : Node :=
  .mk 1 .FUNCTION 1 "SUB"
    (.mk 2 .FUNCTION 1 "MUL"
      (.mk 0 .CONSTANT 1 "CONST" .null .null) (.mk 0 .CONSTANT 0 "CONST" .null .null))
    (.mk 5 .FUNCTION 0 "SQRT"
      (.mk 4 .FUNCTION 1 "EXP" .null (.mk 0 .CONSTANT 0 "CONST" .null .null)) .null)

/-- Two bat-algorithm agents of dimension 2 at different positions, whose `fit`
still holds the initial value `1000`. -/
def exFreshAgents : List (Agent ℚ) :=
  [ { n := 2, x := [3, 4], v := some [0, 0], xl := none, fit := 1000, pfit := 1000 },
    { n := 2, x := [1, 2], v := some [0, 0], xl := none, fit := 1000, pfit := 1000 } ]

/-- A vector search space over `exFreshAgents` before its first evaluation:
`gfit` still holds the initial value `1000` and `g` the zeros of `calloc`. -/
def exFreshSwarm : SearchSpace ℚ :=
  { exBox with
    m := 2, n := 2, gfit := 1000, a := exFreshAgents.map some
    g := some [0, 0], LB := [0, 0], UB := [10, 10] }

/-! # Properties -/

/-! ## Arrays and loops -/

theorem set_mid {β : Type} (pre : List β) (r : β) (rest : List β) (c : β) :
    (pre ++ r :: rest).set pre.length c = pre ++ c :: rest := by
  induction pre with
  | nil => rfl
  | cons p pre ih => simp [List.set, ih]

theorem get_mid {β : Type} (pre : List β) (r : β) (rest : List β) :
    (pre ++ r :: rest)[pre.length]? = some r := by
  induction pre with
  | nil => simp
  | cons p pre ih => simpa using ih

theorem wr_mid {β : Type} (pre : List β) (r : β) (rest : List β) (c : β) :
    wr (pre ++ r :: rest) pre.length c = .ok (pre ++ c :: rest) := by
  simp [wr, set_mid]

theorem rd_mid {β : Type} (pre : List β) (r : β) (rest : List β) :
    rd (pre ++ r :: rest) pre.length = .ok r := by
  rw [rd, get_mid]

theorem rdI_natCast {β : Type} (xs : List β) (i : Nat) : rdI xs (i : Int) = rd xs i := by
  simp [rdI]

/-- Filling a block cell by cell with one value. -/
theorem forLoop_fill {β : Type}
    (body : Nat → Option (List β) → Except Fault (Option (List β)))
    (c : β) (hb : ∀ i out, body i out = wrP out i c) :
    ∀ (rest pre : List β),
      forLoop body rest.length pre.length (some (pre ++ rest))
        = .ok (some (pre ++ List.replicate rest.length c)) := by
  intro rest
  induction rest with
  | nil => intro pre; simp [forLoop]
  | cons r rest ih =>
    intro pre
    have h := ih (pre ++ [c])
    simp only [List.length_append, List.length_singleton, List.append_assoc,
      List.singleton_append] at h
    simp only [List.length_cons, forLoop, hb, wrP, wr_mid, h, List.replicate_succ]

/-! ## `RunTree` on leaves -/

/-- A `TERMINAL` leaf bound to an agent of the pool: with `n ≥ 1` the first
store goes through `out`, which is still `NULL`. -/
theorem RunTree_terminal_fault {α : Type} [Zero α] (P : Primitives α)
    (s : SearchSpace α) (id ls : Int) (elem : String) (ag : Agent α) (c : α)
    (hn : 1 ≤ s.n) (hag : rdAgent s.a id = .ok ag) (hx : ag.x[0]? = some c) :
    RunTree P s (.mk id .TERMINAL ls elem .null .null) = .error .nullDeref := by
  obtain ⟨k, hk⟩ : ∃ k, s.n.toNat = k + 1 := ⟨s.n.toNat - 1, by omega⟩
  simp [RunTree, hk, forLoop, hag, rd, hx, wrP]

/-- C1 (code defect): on the terminal branch `RunTree` never allocates `out`; a
`TERMINAL` leaf bound to the agent `[1,2,3]` (`n = 3`) and the tree `SUM(x0,x1)`
over agents `[1,2,3]` and `[4,5,6]` both end in a store through `NULL`, whatever
the primitives are, instead of returning `[1,2,3]` and `[5,7,9]`. -/
theorem C1_RunTree_terminal_stores_through_null (P : Primitives ℚ) :
    RunTree P exTreeSpace (.mk 0 .TERMINAL 1 "x0" .null .null) = .error .nullDeref
      ∧ RunTree P exTreeSpace exSumTree = .error .nullDeref := by
  constructor <;> rfl

/-- C2: a `CONSTANT` leaf whose id indexes the constant table evaluates to a
vector of length exactly `n` with every component equal to `constant[id]`. -/
theorem C2_RunTree_constant_leaf {α : Type} [Zero α] (P : Primitives α)
    (s : SearchSpace α) (id ls : Int) (elem : String) (c : α)
    (hn : 0 ≤ s.n) (hid : 0 ≤ id) (hc : s.constant[id.toNat]? = some c) :
    ∃ out, RunTree P s (.mk id .CONSTANT ls elem .null .null) = .ok (some out)
      ∧ (out.length : Int) = s.n ∧ (∀ v ∈ out, v = c)
      ∧ out = List.replicate s.n.toNat c := by
  refine ⟨List.replicate s.n.toNat c, ?_, ?_, ?_, rfl⟩
  · have hrd : rdI s.constant id = .ok c := by
      simp [rdI, rd, hc, not_lt.mpr hid]
    have h := forLoop_fill (fun i out =>
        match rdI s.constant id with
        | .ok c => wrP out i c
        | .error e => .error e) c (by intro i out; simp [hrd])
        (List.replicate s.n.toNat (0 : α)) []
    simp only [List.length_replicate, List.length_nil, List.nil_append] at h
    simp [RunTree, calloc, not_lt.mpr hn, h]
  · simp [Int.toNat_of_nonneg hn]
  · intro v hv
    exact List.eq_of_mem_replicate hv

/-- C2, witness: the constant `5` over `n = 3` gives `[5, 5, 5]`. -/
theorem C2_RunTree_constant_leaf_witness :
    ∃ out, RunTree nullPrims exTreeSpace (.mk 0 .CONSTANT 1 "CONST" .null .null)
        = .ok (some out)
      ∧ (out.length : Int) = 3 ∧ (∀ v ∈ out, v = 5) ∧ out = [5, 5, 5] :=
  C2_RunTree_constant_leaf nullPrims exTreeSpace 0 1 "CONST" 5 (by decide) (by decide) rfl

/-! ## `CheckAgentLimits` -/

theorem checkLimitsBody_mid {α : Type} [LinearOrder α] (s : SearchSpace α)
    (pre lpre upre : List α) (x l u : α) (xs ls us : List α)
    (hL : s.LB = lpre ++ l :: ls) (hU : s.UB = upre ++ u :: us)
    (hl : lpre.length = pre.length) (hu : upre.length = pre.length) :
    checkLimitsBody s pre.length (pre ++ x :: xs) = .ok (pre ++ clamp l u x :: xs) := by
  have h1 : rd s.LB pre.length = .ok l := by rw [hL, ← hl, rd_mid]
  have h2 : rd s.UB pre.length = .ok u := by rw [hU, ← hu, rd_mid]
  simp only [checkLimitsBody, rd_mid, h1, h2, clamp]
  by_cases hxl : x < l
  · simp [hxl, wr_mid]
  · by_cases hxu : x > u
    · simp [hxl, hxu, wr_mid]
    · simp [hxl, hxu]

theorem checkLimits_loop {α : Type} [LinearOrder α] (s : SearchSpace α) :
    ∀ (todo pre lrest urest lpre upre : List α),
      s.LB = lpre ++ lrest → s.UB = upre ++ urest →
      lpre.length = pre.length → upre.length = pre.length →
      lrest.length = todo.length → urest.length = todo.length →
      forLoop (checkLimitsBody s) todo.length pre.length (pre ++ todo)
        = .ok (pre ++ clampList lrest urest todo) := by
  intro todo
  induction todo with
  | nil =>
    intro pre lrest urest lpre upre _ _ _ _ hl hu
    cases lrest <;> cases urest <;> simp_all [forLoop, clampList]
  | cons x xs ih =>
    intro pre lrest urest lpre upre hL hU hl hu hlr hur
    cases lrest with
    | nil => simp at hlr
    | cons l ls =>
      cases urest with
      | nil => simp at hur
      | cons u us =>
        have hb := checkLimitsBody_mid s pre lpre upre x l u xs ls us hL hU hl hu
        have h := ih (pre ++ [clamp l u x]) ls us (lpre ++ [l]) (upre ++ [u])
          (by simp [hL]) (by simp [hU]) (by simp [hl]) (by simp [hu])
          (by simpa using hlr) (by simpa using hur)
        simp only [List.length_append, List.length_singleton, List.append_assoc,
          List.singleton_append] at h
        simp only [List.length_cons, forLoop, hb, h, clampList]

theorem clampList_length {α : Type} [LinearOrder α] :
    ∀ (LB UB X : List α), LB.length = X.length → UB.length = X.length →
      (clampList LB UB X).length = X.length
  | [], _, [], _, _ => by simp [clampList]
  | [], _, _ :: _, h, _ => by simp at h
  | _ :: _, [], [], h, _ => by simp at h
  | _ :: _, [], _ :: _, _, h => by simp at h
  | _ :: _, _ :: _, [], h, _ => by simp at h
  | _ :: LB, _ :: UB, _ :: X, h1, h2 => by
    simp [clampList, clampList_length LB UB X (by simpa using h1) (by simpa using h2)]

theorem clampList_getElem? {α : Type} [LinearOrder α] :
    ∀ (LB UB X : List α) (j : Nat) (lb ub x : α),
      LB[j]? = some lb → UB[j]? = some ub → X[j]? = some x →
      (clampList LB UB X)[j]? = some (clamp lb ub x)
  | [], _, _, _, _, _, _, h, _, _ => by simp at h
  | _ :: _, [], _, _, _, _, _, _, h, _ => by simp at h
  | _ :: _, _ :: _, [], _, _, _, _, _, _, h => by simp at h
  | l :: LB, u :: UB, x0 :: X, 0, lb, ub, x, h1, h2, h3 => by
    simp at h1 h2 h3
    simp [clampList, h1, h2, h3]
  | l :: LB, u :: UB, x0 :: X, j + 1, lb, ub, x, h1, h2, h3 => by
    simp at h1 h2 h3
    simpa [clampList] using clampList_getElem? LB UB X j lb ub x h1 h2 h3

theorem clamp_spec {α : Type} [LinearOrder α] (lb ub x : α) (h : lb ≤ ub) :
    lb ≤ clamp lb ub x ∧ clamp lb ub x ≤ ub ∧ (x < lb → clamp lb ub x = lb) ∧
      (ub < x → clamp lb ub x = ub) ∧ (lb ≤ x → x ≤ ub → clamp lb ub x = x) := by
  unfold clamp
  by_cases h1 : x < lb
  · rw [if_pos h1]
    exact ⟨le_refl _, h, fun _ => rfl,
      fun h2 => absurd (lt_of_le_of_lt h h2) (not_lt.mpr h1.le),
      fun h2 => absurd h1 (not_lt.mpr h2)⟩
  · rw [if_neg h1]
    by_cases h2 : x > ub
    · rw [if_pos h2]
      exact ⟨h, le_refl _, fun h3 => absurd h3 h1, fun _ => rfl,
        fun _ h3 => absurd h2 (not_lt.mpr h3)⟩
    · rw [if_neg h2]
      exact ⟨not_lt.mp h1, not_lt.mp h2, fun h3 => absurd h3 h1,
        fun h3 => absurd h3 h2, fun _ _ => rfl⟩

theorem clamp_idem {α : Type} [LinearOrder α] (lb ub x : α) (h : lb ≤ ub) :
    clamp lb ub (clamp lb ub x) = clamp lb ub x := by
  obtain ⟨h1, h2, -, -, h5⟩ := clamp_spec lb ub x h
  exact (clamp_spec lb ub (clamp lb ub x) h).2.2.2.2 h1 h2

theorem clampList_idem {α : Type} [LinearOrder α] :
    ∀ (LB UB X : List α),
      (∀ (j : Nat) (lb ub : α), LB[j]? = some lb → UB[j]? = some ub → lb ≤ ub) →
      clampList LB UB (clampList LB UB X) = clampList LB UB X
  | [], _, _, _ => by simp [clampList]
  | _ :: _, [], _, _ => by simp [clampList]
  | _ :: _, _ :: _, [], _ => by simp [clampList]
  | l :: LB, u :: UB, x :: X, h => by
    have h0 : l ≤ u := h 0 l u (by simp) (by simp)
    have ht := clampList_idem LB UB X
      (fun j lb ub h1 h2 => h (j + 1) lb ub (by simpa using h1) (by simpa using h2))
    simp [clampList, clamp_idem l u x h0, ht]

/-- `CheckAgentLimits` succeeds on an agent whose dimension is that of the
bound arrays, and overwrites `x` with its clamped cells. -/
theorem CheckAgentLimits_eq {α : Type} [LinearOrder α] (s : SearchSpace α) (a : Agent α)
    (hx : (a.x.length : Int) = a.n) (hLB : s.LB.length = a.x.length)
    (hUB : s.UB.length = a.x.length) :
    CheckAgentLimits s a = .ok { a with x := clampList s.LB s.UB a.x } := by
  have hn : a.n.toNat = a.x.length := by omega
  have h := checkLimits_loop s a.x [] s.LB s.UB [] [] rfl rfl rfl rfl hLB hUB
  simp only [List.length_nil, List.nil_append] at h
  simp [CheckAgentLimits, hn, h]


/-- C7: when `LB[j] ≤ UB[j]` for all `j` and the agent has the dimension of the
search space, `CheckAgentLimits` returns the agent with every cell inside
`[LB[j], UB[j]]`: a cell below `LB[j]` becomes `LB[j]`, a cell above `UB[j]`
becomes `UB[j]`, a cell inside the interval keeps its value; no other field
changes. -/
theorem C7_CheckAgentLimits_clamps {α : Type} [LinearOrder α] (s : SearchSpace α)
    (a : Agent α) (hdim : a.n = s.n) (hx : (a.x.length : Int) = a.n)
    (hLB : (s.LB.length : Int) = s.n) (hUB : (s.UB.length : Int) = s.n)
    (hle : ∀ (j : Nat) (lb ub : α), s.LB[j]? = some lb → s.UB[j]? = some ub → lb ≤ ub) :
    ∃ a1, CheckAgentLimits s a = .ok a1 ∧ a1.x.length = a.x.length ∧
      (a1.n = a.n ∧ a1.v = a.v ∧ a1.xl = a.xl ∧ a1.fit = a.fit ∧ a1.pfit = a.pfit) ∧
      ∀ (j : Nat) (lb ub xj : α),
        s.LB[j]? = some lb → s.UB[j]? = some ub → a.x[j]? = some xj →
        ∃ xj1, a1.x[j]? = some xj1 ∧ lb ≤ xj1 ∧ xj1 ≤ ub ∧
          (xj < lb → xj1 = lb) ∧ (ub < xj → xj1 = ub) ∧
          (lb ≤ xj → xj ≤ ub → xj1 = xj) := by
  have h1 : s.LB.length = a.x.length := by omega
  have h2 : s.UB.length = a.x.length := by omega
  refine ⟨_, CheckAgentLimits_eq s a hx h1 h2, clampList_length _ _ _ h1 h2,
    ⟨rfl, rfl, rfl, rfl, rfl⟩, ?_⟩
  intro j lb ub xj hl hu hxj
  exact ⟨clamp lb ub xj, clampList_getElem? _ _ _ j lb ub xj hl hu hxj,
    clamp_spec lb ub xj (hle j lb ub hl hu)⟩

theorem exBox_bounds (j : Nat) (lb ub : ℚ) (h1 : exBox.LB[j]? = some lb)
    (h2 : exBox.UB[j]? = some ub) : lb ≤ ub := by
  rcases j with _ | _ | _ | j <;> simp [exBox] at h1 h2 <;> subst h1 <;> subst h2 <;> norm_num

/-- C7, witness: the box `[0,1]³` and the agent `[-1, 1/2, 2]`. -/
theorem C7_CheckAgentLimits_clamps_witness :
    ∃ a1, CheckAgentLimits exBox exAgent = .ok a1 ∧ a1.x.length = exAgent.x.length ∧
      (a1.n = exAgent.n ∧ a1.v = exAgent.v ∧ a1.xl = exAgent.xl ∧
        a1.fit = exAgent.fit ∧ a1.pfit = exAgent.pfit) ∧
      ∀ (j : Nat) (lb ub xj : ℚ),
        exBox.LB[j]? = some lb → exBox.UB[j]? = some ub → exAgent.x[j]? = some xj →
        ∃ xj1, a1.x[j]? = some xj1 ∧ lb ≤ xj1 ∧ xj1 ≤ ub ∧
          (xj < lb → xj1 = lb) ∧ (ub < xj → xj1 = ub) ∧
          (lb ≤ xj → xj ≤ ub → xj1 = xj) :=
  C7_CheckAgentLimits_clamps exBox exAgent rfl rfl rfl rfl exBox_bounds

/-- C8: under the invariant `LB[j] ≤ UB[j]`, running `CheckAgentLimits` on its
own result returns that result again. -/
theorem C8_CheckAgentLimits_idempotent {α : Type} [LinearOrder α] (s : SearchSpace α)
    (a : Agent α) (hdim : a.n = s.n) (hx : (a.x.length : Int) = a.n)
    (hLB : (s.LB.length : Int) = s.n) (hUB : (s.UB.length : Int) = s.n)
    (hle : ∀ (j : Nat) (lb ub : α), s.LB[j]? = some lb → s.UB[j]? = some ub → lb ≤ ub) :
    ∃ a1, CheckAgentLimits s a = .ok a1 ∧ CheckAgentLimits s a1 = .ok a1 := by
  have h1 : s.LB.length = a.x.length := by omega
  have h2 : s.UB.length = a.x.length := by omega
  have hl := clampList_length s.LB s.UB a.x h1 h2
  refine ⟨_, CheckAgentLimits_eq s a hx h1 h2, ?_⟩
  rw [CheckAgentLimits_eq s _ (by simp only [hl]; exact hx) (by simp only [hl]; exact h1)
    (by simp only [hl]; exact h2)]
  simp only [clampList_idem s.LB s.UB a.x hle]

/-- C8, witness: the box `[0,1]³` and the agent `[-1, 1/2, 2]`. -/
theorem C8_CheckAgentLimits_idempotent_witness :
    ∃ a1, CheckAgentLimits exBox exAgent = .ok a1 ∧ CheckAgentLimits exBox a1 = .ok a1 :=
  C8_CheckAgentLimits_idempotent exBox exAgent rfl rfl rfl rfl exBox_bounds

/-! ## `EvaluateSearchSpace`: the loops in closed form -/

theorem wrP_mid {β : Type} (pre : List β) (r : β) (rest : List β) (c : β) :
    wrP (some (pre ++ r :: rest)) pre.length c = .ok (some (pre ++ c :: rest)) := by
  simp only [wrP, wr_mid]

theorem copyInto_loop {α : Type} :
    ∀ (todo pre drest : List α), drest.length = todo.length →
      forLoop (fun j d =>
          match rd (pre ++ todo) j with
          | .ok c => wrP d j c
          | .error e => .error e)
        todo.length pre.length (some (pre ++ drest)) = .ok (some (pre ++ todo)) := by
  intro todo
  induction todo with
  | nil =>
    intro pre drest h
    cases drest with
    | nil => simp [forLoop]
    | cons d ds => simp at h
  | cons t ts ih =>
    intro pre drest h
    cases drest with
    | nil => simp at h
    | cons d ds =>
      have h1 := ih (pre ++ [t]) ds (by simpa using h)
      simp only [List.length_append, List.length_singleton, List.append_assoc,
        List.singleton_append] at h1
      simp only [List.length_cons, forLoop, rd_mid, wrP_mid, h1]

theorem copyInto_eq {α : Type} (n : Nat) (dst src : List α) (hd : dst.length = n)
    (hs : src.length = n) : copyInto n (some dst) src = .ok (some src) := by
  have h := copyInto_loop src [] dst (by omega)
  simp only [List.length_nil, List.nil_append, hs] at h
  exact h

theorem rdAgent_mid {α : Type} (pre : List (Agent α)) (t : Agent α) (ts : List (Agent α)) :
    rdAgent ((pre ++ t :: ts).map some) (pre.length : Int) = .ok t := by
  have h := rd_mid (pre.map some) (some t) (ts.map some)
  simp only [List.length_map] at h
  simp only [rdAgent, rdI_natCast, List.map_append, List.map_cons, h]

theorem set_mid_map {α : Type} (pre : List (Agent α)) (t t1 : Agent α) (ts : List (Agent α)) :
    ((pre ++ t :: ts).map some).set pre.length (some t1) = (pre ++ t1 :: ts).map some := by
  have h := set_mid (pre.map some) (some t) (ts.map some) (some t1)
  simp only [List.length_map] at h
  simp only [List.map_append, List.map_cons, h]

theorem updateGlobal_eq {α : Type} [LinearOrder α] (s : SearchSpace α) (ag : Agent α)
    (hx : ag.x.length = s.n.toNat) (hg : ∃ g0, s.g = some g0 ∧ g0.length = s.n.toNat) :
    updateGlobal s ag
      = .ok { s with g := (globalStep (s.g, s.gfit) ag).1
                     gfit := (globalStep (s.g, s.gfit) ag).2 } := by
  obtain ⟨g0, hg0, hl⟩ := hg
  unfold updateGlobal globalStep
  by_cases h : ag.fit < s.gfit
  · simp only [h, if_true, hg0, copyInto_eq _ g0 ag.x hl hx]
  · simp only [h, if_false]

theorem globalStep_shape {α : Type} [LinearOrder α] (n : Nat) (st : Option (List α) × α)
    (ag : Agent α) (hx : ag.x.length = n) (hg : ∃ g0, st.1 = some g0 ∧ g0.length = n) :
    ∃ g0, (globalStep st ag).1 = some g0 ∧ g0.length = n := by
  unfold globalStep
  by_cases h : ag.fit < st.2
  · simp only [h, if_true]; exact ⟨ag.x, rfl, hx⟩
  · simp only [h, if_false]; exact hg

theorem agentAfter_x {α : Type} [LinearOrder α] (pso : Bool) (Evaluate : Agent α → α)
    (ag : Agent α) : (agentAfter pso Evaluate ag).x = ag.x := by
  unfold agentAfter
  by_cases h : Evaluate ag < ag.fit
  · simp only [h, if_true]
  · simp only [h, if_false]

theorem evalBodyVector_mid {α : Type} [LinearOrder α] (Evaluate : Agent α → α)
    (s : SearchSpace α) (pre : List (Agent α)) (t : Agent α) (ts : List (Agent α))
    (ha : s.a = (pre ++ t :: ts).map some) (hx : t.x.length = s.n.toNat)
    (hg : ∃ g0, s.g = some g0 ∧ g0.length = s.n.toNat) :
    evalBodyVector Evaluate pre.length s
      = .ok { s with
          a := (pre ++ agentAfter false Evaluate t :: ts).map some
          g := (globalStep (s.g, s.gfit) (agentAfter false Evaluate t)).1
          gfit := (globalStep (s.g, s.gfit) (agentAfter false Evaluate t)).2 } := by
  have hx1 : (agentAfter false Evaluate t).x.length = s.n.toNat := by
    rw [agentAfter_x]; exact hx
  have hag : (if Evaluate t < t.fit then { t with fit := Evaluate t } else t)
      = agentAfter false Evaluate t := by
    unfold agentAfter
    by_cases h : Evaluate t < t.fit
    · simp [h]
    · simp [h]
  simp only [evalBodyVector, ha, rdAgent_mid, set_mid_map, hag]
  exact updateGlobal_eq _ _ hx1 hg

theorem evalBodyPSO_mid {α : Type} [LinearOrder α] (Evaluate : Agent α → α)
    (s : SearchSpace α) (pre : List (Agent α)) (t : Agent α) (ts : List (Agent α))
    (ha : s.a = (pre ++ t :: ts).map some) (hx : t.x.length = s.n.toNat)
    (hxl : HasXl s.n.toNat t)
    (hg : ∃ g0, s.g = some g0 ∧ g0.length = s.n.toNat) :
    evalBodyPSO Evaluate pre.length s
      = .ok { s with
          a := (pre ++ agentAfter true Evaluate t :: ts).map some
          g := (globalStep (s.g, s.gfit) (agentAfter true Evaluate t)).1
          gfit := (globalStep (s.g, s.gfit) (agentAfter true Evaluate t)).2 } := by
  obtain ⟨xl0, hxl0, hl⟩ := hxl
  have hx1 : (agentAfter true Evaluate t).x.length = s.n.toNat := by
    rw [agentAfter_x]; exact hx
  simp only [evalBodyPSO, ha, rdAgent_mid]
  by_cases h : Evaluate t < t.fit
  · have hag : ({ t with fit := Evaluate t, xl := some t.x } : Agent α)
        = agentAfter true Evaluate t := by
      simp [agentAfter, h]
    simp only [h, if_true, hxl0, copyInto_eq _ xl0 t.x hl hx, set_mid_map, hag]
    exact updateGlobal_eq _ _ hx1 hg
  · have hag : t = agentAfter true Evaluate t := by
      simp [agentAfter, h]
    simp only [h, if_false]
    rw [updateGlobal_eq _ _ hx hg, ← hag, ← ha]


theorem evalVector_loop {α : Type} [LinearOrder α] (Evaluate : Agent α → α) :
    ∀ (todo pre : List (Agent α)) (s : SearchSpace α),
      s.a = (pre ++ todo).map some → (∀ ag ∈ todo, ag.x.length = s.n.toNat) →
      (∃ g0, s.g = some g0 ∧ g0.length = s.n.toNat) →
      forLoop (evalBodyVector Evaluate) todo.length pre.length s
        = .ok { s with
            a := (pre ++ todo.map (agentAfter false Evaluate)).map some
            g := (globalAfter (todo.map (agentAfter false Evaluate)) (s.g, s.gfit)).1
            gfit := (globalAfter (todo.map (agentAfter false Evaluate)) (s.g, s.gfit)).2 } := by
  intro todo
  induction todo with
  | nil =>
    intro pre s ha _ _
    simp only [List.length_nil, forLoop, List.map_nil, globalAfter, List.foldl_nil, ← ha]
  | cons t ts ih =>
    intro pre s ha hx hg
    have hb := evalBodyVector_mid Evaluate s pre t ts ha (hx t (List.mem_cons_self _ _)) hg
    have hx1 : (agentAfter false Evaluate t).x.length = s.n.toNat := by
      rw [agentAfter_x]; exact hx t (List.mem_cons_self _ _)
    have h := ih (pre ++ [agentAfter false Evaluate t])
      { s with
        a := (pre ++ agentAfter false Evaluate t :: ts).map some
        g := (globalStep (s.g, s.gfit) (agentAfter false Evaluate t)).1
        gfit := (globalStep (s.g, s.gfit) (agentAfter false Evaluate t)).2 }
      (by simp)
      (fun ag hag => hx ag (List.mem_cons_of_mem _ hag))
      (globalStep_shape s.n.toNat (s.g, s.gfit) _ hx1 hg)
    simp only [List.length_append, List.length_singleton, List.append_assoc,
      List.singleton_append] at h
    simp only [List.length_cons, forLoop, hb, h, List.map_cons, globalAfter, List.foldl_cons]

theorem evalPSO_loop {α : Type} [LinearOrder α] (Evaluate : Agent α → α) :
    ∀ (todo pre : List (Agent α)) (s : SearchSpace α),
      s.a = (pre ++ todo).map some → (∀ ag ∈ todo, ag.x.length = s.n.toNat) →
      (∀ ag ∈ todo, HasXl s.n.toNat ag) →
      (∃ g0, s.g = some g0 ∧ g0.length = s.n.toNat) →
      forLoop (evalBodyPSO Evaluate) todo.length pre.length s
        = .ok { s with
            a := (pre ++ todo.map (agentAfter true Evaluate)).map some
            g := (globalAfter (todo.map (agentAfter true Evaluate)) (s.g, s.gfit)).1
            gfit := (globalAfter (todo.map (agentAfter true Evaluate)) (s.g, s.gfit)).2 } := by
  intro todo
  induction todo with
  | nil =>
    intro pre s ha _ _ _
    simp only [List.length_nil, forLoop, List.map_nil, globalAfter, List.foldl_nil, ← ha]
  | cons t ts ih =>
    intro pre s ha hx hxl hg
    have hb := evalBodyPSO_mid Evaluate s pre t ts ha (hx t (List.mem_cons_self _ _))
      (hxl t (List.mem_cons_self _ _)) hg
    have hx1 : (agentAfter true Evaluate t).x.length = s.n.toNat := by
      rw [agentAfter_x]; exact hx t (List.mem_cons_self _ _)
    have h := ih (pre ++ [agentAfter true Evaluate t])
      { s with
        a := (pre ++ agentAfter true Evaluate t :: ts).map some
        g := (globalStep (s.g, s.gfit) (agentAfter true Evaluate t)).1
        gfit := (globalStep (s.g, s.gfit) (agentAfter true Evaluate t)).2 }
      (by simp)
      (fun ag hag => hx ag (List.mem_cons_of_mem _ hag))
      (fun ag hag => hxl ag (List.mem_cons_of_mem _ hag))
      (globalStep_shape s.n.toNat (s.g, s.gfit) _ hx1 hg)
    simp only [List.length_append, List.length_singleton, List.append_assoc,
      List.singleton_append] at h
    simp only [List.length_cons, forLoop, hb, h, List.map_cons, globalAfter, List.foldl_cons]

/-- Whether `opt_id` is one of `_BA_`, `_FPA_`, `_FA_`, `_GA_`. -/
theorem pso_not_vector (ids : OptIds) :
    ¬ (ids._PSO_ = ids._BA_ ∨ ids._PSO_ = ids._FPA_ ∨ ids._PSO_ = ids._FA_ ∨
      ids._PSO_ = ids._GA_) := by
  have h := ids.distinct
  simp only [List.nodup_cons, List.mem_cons, List.mem_singleton, not_or] at h
  tauto

/-- One pass over a well-shaped vector search space, in closed form. -/
theorem EvaluateSearchSpace_eq {α : Type} [LinearOrder α] (ids : OptIds)
    (s : SearchSpace α) (ags : List (Agent α)) (opt_id : Int) (Evaluate : Agent α → α)
    (hs : VectorShape s ags)
    (hopt : opt_id = ids._PSO_ ∨ opt_id = ids._BA_ ∨ opt_id = ids._FPA_ ∨
      opt_id = ids._FA_ ∨ opt_id = ids._GA_)
    (hxl : opt_id = ids._PSO_ → ∀ ag ∈ ags, HasXl s.n.toNat ag) :
    EvaluateSearchSpace ids s opt_id Evaluate
      = .ok { s with
          a := (ags.map (agentAfter (decide (opt_id = ids._PSO_)) Evaluate)).map some
          g := (globalAfter (ags.map (agentAfter (decide (opt_id = ids._PSO_)) Evaluate))
            (s.g, s.gfit)).1
          gfit := (globalAfter (ags.map (agentAfter (decide (opt_id = ids._PSO_)) Evaluate))
            (s.g, s.gfit)).2 } := by
  have hm : s.m.toNat = ags.length := by have := hs.count; omega
  by_cases hp : opt_id = ids._PSO_
  · have h := evalPSO_loop Evaluate ags [] s (by simpa using hs.agents) hs.dimX
      (hxl hp) hs.dimG
    simp only [List.length_nil, List.nil_append] at h
    subst hp
    simp only [EvaluateSearchSpace, pso_not_vector, if_false, if_true, hm, h, decide_True]
  · have hv : opt_id = ids._BA_ ∨ opt_id = ids._FPA_ ∨ opt_id = ids._FA_ ∨
        opt_id = ids._GA_ := by tauto
    have h := evalVector_loop Evaluate ags [] s (by simpa using hs.agents) hs.dimX hs.dimG
    simp only [List.length_nil, List.nil_append] at h
    simp only [EvaluateSearchSpace, hv, if_true, hm, h, hp, decide_False]


/-! ## `EvaluateSearchSpace`: the global best -/

theorem globalStep_snd {α : Type} [LinearOrder α] (st : Option (List α) × α) (ag : Agent α) :
    (globalStep st ag).2 = min st.2 ag.fit := by
  unfold globalStep
  by_cases h : ag.fit < st.2
  · simp only [h, if_true, min_eq_right h.le]
  · simp only [h, if_false, min_eq_left (not_lt.mp h)]

theorem globalAfter_snd {α : Type} [LinearOrder α] :
    ∀ (ags : List (Agent α)) (st : Option (List α) × α),
      (globalAfter ags st).2 = (ags.map Agent.fit).foldl min st.2
  | [], _ => rfl
  | ag :: ags, st => by
    have h := globalAfter_snd ags (globalStep st ag)
    simp only [globalAfter, List.foldl_cons, List.map_cons] at h ⊢
    rw [h, globalStep_snd]

theorem foldl_min_le_init {α : Type} [LinearOrder α] :
    ∀ (l : List α) (b : α), l.foldl min b ≤ b
  | [], _ => le_refl _
  | a :: l, b => by
    simp only [List.foldl_cons]
    exact le_trans (foldl_min_le_init l (min b a)) (min_le_left b a)

theorem foldl_min_le_mem {α : Type} [LinearOrder α] :
    ∀ (l : List α) (b c : α), c ∈ l → l.foldl min b ≤ c
  | [], _, _, h => by simp at h
  | a :: l, b, c, h => by
    simp only [List.foldl_cons]
    rcases List.mem_cons.mp h with h1 | h1
    · subst h1
      exact le_trans (foldl_min_le_init l (min b c)) (min_le_right b c)
    · exact foldl_min_le_mem l (min b a) c h1

/-- The pair `(g, gfit)` either survives the pass (no processed agent is
strictly below `gfit`) or is the position and fitness of a processed agent. -/
theorem globalAfter_cases {α : Type} [LinearOrder α] :
    ∀ (ags : List (Agent α)) (st : Option (List α) × α),
      (globalAfter ags st = st ∧ ∀ ag ∈ ags, ¬ ag.fit < st.2) ∨
        ∃ ag ∈ ags, globalAfter ags st = (some ag.x, ag.fit)
  | [], st => Or.inl ⟨rfl, by simp⟩
  | a :: ags, st => by
    have ih := globalAfter_cases ags (globalStep st a)
    simp only [globalAfter, List.foldl_cons] at ih ⊢
    rcases ih with ⟨h1, h2⟩ | ⟨ag, hag, h1⟩
    · by_cases h : a.fit < st.2
      · right
        refine ⟨a, List.mem_cons_self _ _, ?_⟩
        rw [h1]; simp only [globalStep, h, if_true]
      · left
        have hst : globalStep st a = st := by simp only [globalStep, h, if_false]
        rw [hst] at h1 h2 ⊢
        refine ⟨h1, ?_⟩
        intro ag hag
        rcases List.mem_cons.mp hag with h3 | h3
        · subst h3; exact h
        · exact h2 ag h3
    · right
      exact ⟨ag, List.mem_cons_of_mem _ hag, h1⟩

theorem agentAfter_fit {α : Type} [LinearOrder α] (pso : Bool) (Evaluate : Agent α → α)
    (ag : Agent α) : (agentAfter pso Evaluate ag).fit = min (Evaluate ag) ag.fit := by
  unfold agentAfter
  by_cases h : Evaluate ag < ag.fit
  · simp only [h, if_true, min_eq_left h.le]
  · simp only [h, if_false, min_eq_right (not_lt.mp h)]

theorem agentAfter_hasXl {α : Type} [LinearOrder α] (pso : Bool) (Evaluate : Agent α → α)
    (n : Nat) (ag : Agent α) (hx : ag.x.length = n) (h : HasXl n ag) :
    HasXl n (agentAfter pso Evaluate ag) := by
  unfold agentAfter
  by_cases h1 : Evaluate ag < ag.fit
  · cases pso
    · simpa only [h1, if_true] using h
    · simp only [h1, if_true]; exact ⟨ag.x, rfl, hx⟩
  · simpa only [h1, if_false] using h

theorem globalAfter_shape {α : Type} [LinearOrder α] (n : Nat) :
    ∀ (ags : List (Agent α)) (st : Option (List α) × α),
      (∀ ag ∈ ags, ag.x.length = n) → (∃ g0, st.1 = some g0 ∧ g0.length = n) →
      ∃ g0, (globalAfter ags st).1 = some g0 ∧ g0.length = n
  | [], _, _, hg => hg
  | a :: ags, st, hx, hg => by
    have h := globalAfter_shape n ags (globalStep st a)
      (fun ag hag => hx ag (List.mem_cons_of_mem _ hag))
      (globalStep_shape n st a (hx a (List.mem_cons_self _ _)) hg)
    simpa only [globalAfter, List.foldl_cons] using h

/-- C3: one evaluation pass over a well-shaped vector search space leaves
`gfit` equal to the minimum of its previous value and the stored fitness of
every agent after the pass; so `gfit` does not increase, it is a lower bound on
every stored fitness, and the resulting state is again well-shaped (the next
pass enjoys the same property). -/
theorem C3_EvaluateSearchSpace_gfit_min {α : Type} [LinearOrder α] (ids : OptIds)
    (s : SearchSpace α) (ags : List (Agent α)) (opt_id : Int) (Evaluate : Agent α → α)
    (hs : VectorShape s ags)
    (hopt : opt_id = ids._PSO_ ∨ opt_id = ids._BA_ ∨ opt_id = ids._FPA_ ∨
      opt_id = ids._FA_ ∨ opt_id = ids._GA_)
    (hxl : opt_id = ids._PSO_ → ∀ ag ∈ ags, HasXl s.n.toNat ag) :
    ∃ s1 ags1, EvaluateSearchSpace ids s opt_id Evaluate = .ok s1 ∧
      s1.gfit = (ags1.map Agent.fit).foldl min s.gfit ∧
      s1.gfit ≤ s.gfit ∧ (∀ ag ∈ ags1, s1.gfit ≤ ag.fit) ∧
      VectorShape s1 ags1 ∧ (opt_id = ids._PSO_ → ∀ ag ∈ ags1, HasXl s1.n.toNat ag) := by
  refine ⟨_, ags.map (agentAfter (decide (opt_id = ids._PSO_)) Evaluate),
    EvaluateSearchSpace_eq ids s ags opt_id Evaluate hs hopt hxl, ?_, ?_, ?_, ?_, ?_⟩
  · exact globalAfter_snd _ _
  · simp only [globalAfter_snd]
    exact foldl_min_le_init _ _
  · intro ag hag
    simp only [globalAfter_snd]
    exact foldl_min_le_mem _ _ _ (List.mem_map_of_mem _ hag)
  · refine ⟨rfl, ?_, ?_, ?_⟩
    · simpa using hs.count
    · intro ag hag
      obtain ⟨ag0, h0, rfl⟩ := List.mem_map.mp hag
      rw [agentAfter_x]; exact hs.dimX ag0 h0
    · refine globalAfter_shape s.n.toNat _ _ ?_ hs.dimG
      intro ag hag
      obtain ⟨ag0, h0, rfl⟩ := List.mem_map.mp hag
      rw [agentAfter_x]; exact hs.dimX ag0 h0
  · intro hp ag hag
    obtain ⟨ag0, h0, rfl⟩ := List.mem_map.mp hag
    exact agentAfter_hasXl _ _ _ _ (hs.dimX ag0 h0) (hxl hp ag0 h0)

theorem exSwarm_shape : VectorShape exSwarm exSwarmAgents :=
  ⟨rfl, rfl, by decide, ⟨[0, 0], rfl, rfl⟩⟩

theorem exSwarm_hasXl : ∀ ag ∈ exSwarmAgents, HasXl exSwarm.n.toNat ag := by
  intro ag hag
  simp only [exSwarmAgents, List.mem_cons, List.mem_singleton, List.not_mem_nil, or_false] at hag
  rcases hag with rfl | rfl <;> exact ⟨_, rfl, rfl⟩

/-- C3, witness: a particle-swarm pass over `exSwarm`. -/
theorem C3_EvaluateSearchSpace_gfit_min_witness :
    ∃ s1 ags1, EvaluateSearchSpace exIds exSwarm 1 exFitness = .ok s1 ∧
      s1.gfit = (ags1.map Agent.fit).foldl min exSwarm.gfit ∧
      s1.gfit ≤ exSwarm.gfit ∧ (∀ ag ∈ ags1, s1.gfit ≤ ag.fit) ∧
      VectorShape s1 ags1 ∧ ((1 : Int) = exIds._PSO_ → ∀ ag ∈ ags1, HasXl s1.n.toNat ag) :=
  C3_EvaluateSearchSpace_gfit_min exIds exSwarm exSwarmAgents 1 exFitness exSwarm_shape
    (Or.inl rfl) (fun _ => exSwarm_hasXl)

/-! ## `CreateAgent` and `CreateSearchSpace` for the vector techniques -/

theorem calloc_of_nonneg {α : Type} [Zero α] (n : Int) (hn : 0 ≤ n) :
    (calloc n : Option (List α)) = some (List.replicate n.toNat 0) := by
  simp only [calloc, not_lt.mpr hn, if_false]

theorem CreateAgent_some {α : Type} [Zero α] (ids : OptIds) (DBL_MAX : α) (n opt_id : Int)
    (a0 : Agent α) (h : CreateAgent ids DBL_MAX n opt_id = some a0) :
    1 ≤ n ∧ 1 ≤ opt_id ∧ a0.n = n ∧ a0.x = List.replicate n.toNat 0 ∧
      a0.v = (if opt_id ≠ ids._GP_ then calloc n else none) ∧
      a0.xl = (if opt_id = ids._PSO_ then calloc n else none) ∧
      a0.fit = DBL_MAX ∧ a0.pfit = DBL_MAX := by
  unfold CreateAgent at h
  split at h
  · exact absurd h (by simp)
  · rename_i h1
    split at h
    · have h2 := Option.some.inj h
      subst h2
      refine ⟨by omega, by omega, rfl, rfl, rfl, rfl, rfl, rfl⟩
    · exact absurd h (by simp)

/-- Storing one value in every cell from `pre.length` on. -/
theorem forLoop_store {β : Type} (c : β) :
    ∀ (rest pre : List β),
      forLoop (fun i arr => wr arr i c) rest.length pre.length (pre ++ rest)
        = .ok (pre ++ List.replicate rest.length c) := by
  intro rest
  induction rest with
  | nil => intro pre; simp [forLoop]
  | cons r rest ih =>
    intro pre
    have h := ih (pre ++ [c])
    simp only [List.length_append, List.length_singleton, List.append_assoc,
      List.singleton_append] at h
    simp only [List.length_cons, forLoop, wr_mid, h, List.replicate_succ]

theorem vector_not_GP (ids : OptIds) (opt_id : Int)
    (hopt : opt_id = ids._PSO_ ∨ opt_id = ids._BA_ ∨ opt_id = ids._FPA_ ∨
      opt_id = ids._FA_ ∨ opt_id = ids._GA_) : opt_id ≠ ids._GP_ := by
  have h := ids.distinct
  simp only [List.nodup_cons, List.mem_cons, List.mem_singleton, not_or] at h
  rcases hopt with h1 | h1 | h1 | h1 | h1 <;> rw [h1] <;> tauto

/-- What `CreateSearchSpace` returns for a vector technique: `m` copies of the
agent `CreateAgent` builds, a zeroed `g`, and `gfit = DBL_MAX`. -/
theorem CreateSearchSpace_vector {α : Type} [Zero α] (ids : OptIds) (DBL_MAX : α)
    (rnd : Draws) (fuel : Nat) (raw : SearchSpace α) (junkLB junkUB : Nat → α)
    (m n opt_id : Int) (extra : GPArgs α) (k k1 : Nat) (s : SearchSpace α)
    (hopt : opt_id = ids._PSO_ ∨ opt_id = ids._BA_ ∨ opt_id = ids._FPA_ ∨
      opt_id = ids._FA_ ∨ opt_id = ids._GA_)
    (hc : CreateSearchSpace ids DBL_MAX rnd fuel raw junkLB junkUB m n opt_id extra k
      = .ok (some s, k1)) :
    ∃ a0, CreateAgent ids DBL_MAX n opt_id = some a0 ∧ 1 ≤ m ∧ 1 ≤ n ∧
      s.m = m ∧ s.n = n ∧ s.a = List.replicate m.toNat (some a0) ∧
      s.g = some (List.replicate n.toNat 0) ∧ s.gfit = DBL_MAX := by
  have hgp := vector_not_GP ids opt_id hopt
  unfold CreateSearchSpace at hc
  split at hc
  · simp at hc
  · rename_i h1
    simp only [not_or, not_lt] at h1
    obtain ⟨hm, hn, -⟩ := h1
    simp only [hgp, ne_eq, not_false_eq_true, if_true, hopt] at hc
    cases ha : CreateAgent ids DBL_MAX n opt_id with
    | none => simp [ha] at hc
    | some a0 =>
      obtain ⟨j, hj⟩ : ∃ j, m.toNat = j + 1 := ⟨m.toNat - 1, by omega⟩
      have hloop := forLoop_store (some a0) (List.replicate j (none : Option (Agent α)))
        [some a0]
      simp only [List.length_replicate, List.length_singleton, List.singleton_append] at hloop
      simp only [ha, hj, List.replicate_succ, List.set_cons_zero, Nat.add_sub_cancel,
        hloop] at hc
      simp only [Except.ok.injEq, Prod.mk.injEq, Option.some.injEq] at hc
      obtain ⟨hs, -⟩ := hc
      subst hs
      exact ⟨a0, rfl, hm, hn, rfl, rfl, by simp [hj, List.replicate_succ],
        calloc_of_nonneg n (by omega), rfl⟩


/-! ## The first evaluation pass -/

/-- First pass over a well-shaped vector search space whose stored fitness
values are all `DBL_MAX`: with fitness values that are finite doubles
(`≤ DBL_MAX`), every agent stores its fitness and `gfit` is the minimum; `g` is
the position of an agent attaining it as soon as some fitness is below
`DBL_MAX`, or when `g` already agrees with every position. -/
theorem EvaluateSearchSpace_first_pass {α : Type} [LinearOrder α] (ids : OptIds)
    (DBL_MAX : α) (s : SearchSpace α) (ags : List (Agent α)) (opt_id : Int)
    (Evaluate : Agent α → α) (hs : VectorShape s ags)
    (hopt : opt_id = ids._PSO_ ∨ opt_id = ids._BA_ ∨ opt_id = ids._FPA_ ∨
      opt_id = ids._FA_ ∨ opt_id = ids._GA_)
    (hxl : opt_id = ids._PSO_ → ∀ ag ∈ ags, HasXl s.n.toNat ag)
    (hne : ags ≠ [])
    (hfit : ∀ ag ∈ ags, ag.fit = DBL_MAX) (hgfit : s.gfit = DBL_MAX)
    (hreal : ∀ ag ∈ ags, Evaluate ag ≤ DBL_MAX)
    (hpos : (∃ ag ∈ ags, Evaluate ag < DBL_MAX) ∨ (∀ ag ∈ ags, s.g = some ag.x)) :
    ∃ s1, EvaluateSearchSpace ids s opt_id Evaluate = .ok s1 ∧
      s1.a = (ags.map (agentAfter (decide (opt_id = ids._PSO_)) Evaluate)).map some ∧
      (∀ ag ∈ ags, (agentAfter (decide (opt_id = ids._PSO_)) Evaluate ag).fit = Evaluate ag) ∧
      (∀ ag ∈ ags, s1.gfit ≤ Evaluate ag) ∧
      (∃ ag ∈ ags, s1.gfit = Evaluate ag ∧ s1.g = some ag.x) := by
  have hfitAfter : ∀ ag ∈ ags,
      (agentAfter (decide (opt_id = ids._PSO_)) Evaluate ag).fit = Evaluate ag := by
    intro ag hag
    rw [agentAfter_fit, hfit ag hag]
    exact min_eq_left (hreal ag hag)
  refine ⟨_, EvaluateSearchSpace_eq ids s ags opt_id Evaluate hs hopt hxl, rfl, hfitAfter,
    ?_, ?_⟩
  · intro ag hag
    simp only [globalAfter_snd]
    rw [← hfitAfter ag hag]
    exact foldl_min_le_mem _ _ _ (List.mem_map_of_mem _ (List.mem_map_of_mem _ hag))
  · rcases globalAfter_cases (ags.map (agentAfter (decide (opt_id = ids._PSO_)) Evaluate))
      (s.g, s.gfit) with ⟨h1, h2⟩ | ⟨ag1, hag1, h1⟩
    · have hall : ∀ ag ∈ ags, Evaluate ag = DBL_MAX := by
        intro ag hag
        have h3 := h2 _ (List.mem_map_of_mem _ hag)
        rw [hfitAfter ag hag] at h3
        simp only [hgfit] at h3
        exact le_antisymm (hreal ag hag) (not_lt.mp h3)
      rcases hpos with ⟨ag, hag, hlt⟩ | hsame
      · exact absurd hlt (by rw [hall ag hag]; exact lt_irrefl _)
      · obtain ⟨ag, hag⟩ := List.exists_mem_of_ne_nil ags hne
        refine ⟨ag, hag, ?_, ?_⟩
        · show (globalAfter _ (s.g, s.gfit)).2 = _
          rw [h1, hall ag hag]
          exact hgfit
        · show (globalAfter _ (s.g, s.gfit)).1 = _
          rw [h1]
          exact hsame ag hag
    · obtain ⟨ag, hag, rfl⟩ := List.mem_map.mp hag1
      refine ⟨ag, hag, ?_, ?_⟩
      · show (globalAfter _ (s.g, s.gfit)).2 = _
        rw [h1]
        exact hfitAfter ag hag
      · show (globalAfter _ (s.g, s.gfit)).1 = _
        rw [h1, agentAfter_x]

theorem getElem?_map_some {β : Type} (l : List β) (i : Nat) (b : β)
    (h : (l.map some)[i]? = some (some b)) : l[i]? = some b := by
  rw [List.getElem?_map] at h
  cases hl : l[i]? with
  | none => simp [hl] at h
  | some c => simpa [hl] using h

theorem mem_map_some {β : Type} (l : List β) (b : β) : some b ∈ l.map some ↔ b ∈ l := by
  simp

/-- The first pass over the literal state of `CreateSearchSpace`: in the search
space `CreateSearchSpace` returns for a vector technique (all positions zero),
one evaluation pass with a fitness function whose values are finite doubles
(`≤ DBL_MAX`) leaves every agent with `fit` equal to its fitness, `gfit` equal
to the minimum fitness of the population, and `g` equal to the position of an
agent attaining that minimum. -/
theorem first_pass_after_CreateSearchSpace {α : Type} [LinearOrder α] [Zero α]
    (ids : OptIds) (DBL_MAX : α) (rnd : Draws) (fuel : Nat) (raw : SearchSpace α)
    (junkLB junkUB : Nat → α) (m n opt_id : Int) (extra : GPArgs α) (k k1 : Nat)
    (s : SearchSpace α) (Evaluate : Agent α → α)
    (hopt : opt_id = ids._PSO_ ∨ opt_id = ids._BA_ ∨ opt_id = ids._FPA_ ∨
      opt_id = ids._FA_ ∨ opt_id = ids._GA_)
    (hc : CreateSearchSpace ids DBL_MAX rnd fuel raw junkLB junkUB m n opt_id extra k
      = .ok (some s, k1))
    (hreal : ∀ ag, some ag ∈ s.a → Evaluate ag ≤ DBL_MAX) :
    ∃ s1, EvaluateSearchSpace ids s opt_id Evaluate = .ok s1 ∧
      s1.a.length = s.a.length ∧
      (∀ (i : Nat) (ag : Agent α), s.a[i]? = some (some ag) →
        ag.fit = DBL_MAX ∧
          ∃ ag1, s1.a[i]? = some (some ag1) ∧ ag1.fit = Evaluate ag ∧ ag1.x = ag.x) ∧
      s.gfit = DBL_MAX ∧
      (∀ ag, some ag ∈ s.a → s1.gfit ≤ Evaluate ag) ∧
      (∃ ag, some ag ∈ s.a ∧ s1.gfit = Evaluate ag ∧ s1.g = some ag.x) := by
  obtain ⟨a0, ha0, hm, hn, hsm, hsn, hsa, hsg, hsgfit⟩ :=
    CreateSearchSpace_vector ids DBL_MAX rnd fuel raw junkLB junkUB m n opt_id extra k k1 s hopt hc
  obtain ⟨-, -, -, hx0, -, hxl0, hfit0, -⟩ := CreateAgent_some ids DBL_MAX n opt_id a0 ha0
  have hsa1 : s.a = (List.replicate m.toNat a0).map some := by
    rw [hsa, List.map_replicate]
  have hmem : ∀ ag ∈ List.replicate m.toNat a0, ag = a0 :=
    fun ag hag => List.eq_of_mem_replicate hag
  have hs : VectorShape s (List.replicate m.toNat a0) := by
    refine ⟨hsa1, ?_, ?_, ?_⟩
    · rw [List.length_replicate, hsm]; omega
    · intro ag hag
      rw [hmem ag hag, hx0, List.length_replicate, hsn]
    · exact ⟨_, hsg, by rw [List.length_replicate, hsn]⟩
  have hxl : opt_id = ids._PSO_ → ∀ ag ∈ List.replicate m.toNat a0, HasXl s.n.toNat ag := by
    intro hp ag hag
    rw [hmem ag hag]
    refine ⟨List.replicate n.toNat 0, ?_, by rw [List.length_replicate, hsn]⟩
    rw [hxl0, if_pos hp, calloc_of_nonneg n (by omega)]
  have hne : List.replicate m.toNat a0 ≠ [] := by
    intro h
    have h1 := congrArg List.length h
    rw [List.length_replicate] at h1
    simp at h1
    omega
  obtain ⟨s1, hs1, ha1, hf1, hg1, ag, hag, hg2, hg3⟩ :=
    EvaluateSearchSpace_first_pass ids DBL_MAX s _ opt_id Evaluate hs hopt hxl hne
      (fun ag hag => by rw [hmem ag hag, hfit0]) hsgfit
      (fun ag hag => hreal ag (by rw [hsa1]; exact (mem_map_some _ _).mpr hag))
      (Or.inr (fun ag hag => by rw [hmem ag hag, hsg, hx0]))
  refine ⟨s1, hs1, ?_, ?_, hsgfit, ?_, ?_⟩
  · rw [ha1, hsa1]; simp
  · intro i ag hi
    rw [hsa1] at hi
    have hi1 := getElem?_map_some _ i ag hi
    have hag1 : ag ∈ List.replicate m.toNat a0 := List.getElem?_mem hi1
    refine ⟨by rw [hmem ag hag1, hfit0], _, ?_, hf1 ag hag1, agentAfter_x _ _ _⟩
    rw [ha1, List.getElem?_map, List.getElem?_map, hi1]
    rfl
  · intro ag hag
    rw [hsa1] at hag
    exact hg1 ag ((mem_map_some _ _).mp hag)
  · exact ⟨ag, by rw [hsa1]; exact (mem_map_some _ _).mpr hag, hg2, hg3⟩

/-- The state `CreateSearchSpace(2, 2, _BA_)` returns, followed by one pass with
the sum of the decision variables as fitness. -/
theorem first_pass_exFresh :
    ∃ s1, EvaluateSearchSpace exIds exFresh 2 exFitness = .ok s1 ∧
      s1.a.length = exFresh.a.length ∧
      (∀ (i : Nat) (ag : Agent ℚ), exFresh.a[i]? = some (some ag) →
        ag.fit = 1000 ∧
          ∃ ag1, s1.a[i]? = some (some ag1) ∧ ag1.fit = exFitness ag ∧ ag1.x = ag.x) ∧
      exFresh.gfit = 1000 ∧
      (∀ ag, some ag ∈ exFresh.a → s1.gfit ≤ exFitness ag) ∧
      (∃ ag, some ag ∈ exFresh.a ∧ s1.gfit = exFitness ag ∧ s1.g = some ag.x) :=
  first_pass_after_CreateSearchSpace exIds 1000 (fun _ _ _ => 0) 0 exBox (fun _ => 0)
    (fun _ => 0) 2 2 2 exGPArgs 0 0 exFresh exFitness (by decide) rfl
    (by
      intro ag hag
      simp only [exFresh, List.mem_cons, List.mem_singleton, Option.some.injEq,
        List.not_mem_nil, or_false, or_self] at hag
      subst hag
      simp [exFitness])

/-! ## The first evaluation pass, any positions -/

/-- C4: in a well-shaped vector search space where every agent's `fit` and the
global `gfit` still hold the initial value `DBL_MAX` that `CreateSearchSpace`
gives them, whatever the positions of the agents, one evaluation pass with a
fitness function whose values are finite doubles (`≤ DBL_MAX`) leaves every
agent `i` with `fit` equal to its fitness and its position untouched, `gfit`
equal to the minimum fitness of the population, and `g` equal to the position
of an agent attaining that minimum.  The part about `g` needs a fitness value
below `DBL_MAX`, or a `g` that already agrees with every position (the state
`CreateSearchSpace` itself returns). -/
theorem C4_EvaluateSearchSpace_first_pass {α : Type} [LinearOrder α] (ids : OptIds)
    (DBL_MAX : α) (s : SearchSpace α) (ags : List (Agent α)) (opt_id : Int)
    (Evaluate : Agent α → α) (hs : VectorShape s ags)
    (hopt : opt_id = ids._PSO_ ∨ opt_id = ids._BA_ ∨ opt_id = ids._FPA_ ∨
      opt_id = ids._FA_ ∨ opt_id = ids._GA_)
    (hxl : opt_id = ids._PSO_ → ∀ ag ∈ ags, HasXl s.n.toNat ag)
    (hne : ags ≠ [])
    (hfit : ∀ ag ∈ ags, ag.fit = DBL_MAX) (hgfit : s.gfit = DBL_MAX)
    (hreal : ∀ ag ∈ ags, Evaluate ag ≤ DBL_MAX)
    (hpos : (∃ ag ∈ ags, Evaluate ag < DBL_MAX) ∨ (∀ ag ∈ ags, s.g = some ag.x)) :
    ∃ s1, EvaluateSearchSpace ids s opt_id Evaluate = .ok s1 ∧
      s1.a.length = s.a.length ∧
      (∀ (i : Nat) (ag : Agent α), s.a[i]? = some (some ag) →
        ∃ ag1, s1.a[i]? = some (some ag1) ∧ ag1.fit = Evaluate ag ∧ ag1.x = ag.x) ∧
      (∀ ag ∈ ags, s1.gfit ≤ Evaluate ag) ∧
      (∃ ag ∈ ags, s1.gfit = Evaluate ag ∧ s1.g = some ag.x) := by
  obtain ⟨s1, hs1, ha1, hf1, hg1, hg2⟩ :=
    EvaluateSearchSpace_first_pass ids DBL_MAX s ags opt_id Evaluate hs hopt hxl hne
      hfit hgfit hreal hpos
  refine ⟨s1, hs1, ?_, ?_, hg1, hg2⟩
  · rw [ha1, hs.agents]; simp
  · intro i ag hi
    rw [hs.agents] at hi
    have hi1 := getElem?_map_some _ i ag hi
    have hag1 : ag ∈ ags := List.getElem?_mem hi1
    refine ⟨_, ?_, hf1 ag hag1, agentAfter_x _ _ _⟩
    rw [ha1, List.getElem?_map, List.getElem?_map, hi1]
    rfl

theorem exFreshSwarm_shape : VectorShape exFreshSwarm exFreshAgents :=
  ⟨rfl, rfl, by decide, ⟨[0, 0], rfl, rfl⟩⟩

theorem exFreshAgents_cases (ag : Agent ℚ) (h : ag ∈ exFreshAgents) :
    ag.fit = 1000 ∧ exFitness ag ≤ 1000 := by
  simp only [exFreshAgents, List.mem_cons, List.mem_singleton, List.not_mem_nil,
    or_false] at h
  rcases h with rfl | rfl <;> exact ⟨rfl, by norm_num [exFitness]⟩

/-- C4, witness: a first bat-algorithm pass over two agents at `[3, 4]` and
`[1, 2]`, with the sum of the decision variables as fitness. -/
theorem C4_EvaluateSearchSpace_first_pass_witness :
    ∃ s1, EvaluateSearchSpace exIds exFreshSwarm 2 exFitness = .ok s1 ∧
      s1.a.length = exFreshSwarm.a.length ∧
      (∀ (i : Nat) (ag : Agent ℚ), exFreshSwarm.a[i]? = some (some ag) →
        ∃ ag1, s1.a[i]? = some (some ag1) ∧ ag1.fit = exFitness ag ∧ ag1.x = ag.x) ∧
      (∀ ag ∈ exFreshAgents, s1.gfit ≤ exFitness ag) ∧
      (∃ ag ∈ exFreshAgents, s1.gfit = exFitness ag ∧ s1.g = some ag.x) :=
  C4_EvaluateSearchSpace_first_pass exIds 1000 exFreshSwarm exFreshAgents 2 exFitness
    exFreshSwarm_shape (Or.inr (Or.inl rfl)) (fun h => absurd h (by decide))
    (by decide) (fun ag h => (exFreshAgents_cases ag h).1) rfl
    (fun ag h => (exFreshAgents_cases ag h).2)
    (Or.inl ⟨_, List.mem_cons_self _ _, by norm_num [exFitness]⟩)

/-- The pass of the witness of C4: the agents store the fitness values `7` and
`3`, `gfit` becomes `3` and `g` the position `[1, 2]` of the second agent. -/
theorem EvaluateSearchSpace_exFreshSwarm :
    EvaluateSearchSpace exIds exFreshSwarm 2 exFitness = .ok
      { exFreshSwarm with
        a := [some { n := 2, x := [3, 4], v := some [0, 0], xl := none, fit := 7,
                     pfit := 1000 },
          some { n := 2, x := [1, 2], v := some [0, 0], xl := none, fit := 3,
                 pfit := 1000 }]
        g := some [1, 2], gfit := 3 } := by
  rw [EvaluateSearchSpace_eq exIds exFreshSwarm exFreshAgents 2 exFitness
      exFreshSwarm_shape (Or.inr (Or.inl rfl)) (fun h => absurd h (by decide))]
  simp [exFreshSwarm, exFreshAgents, agentAfter, globalAfter, globalStep, exFitness, exIds]
  norm_num

/-- Without a fitness value below `DBL_MAX` the pass leaves `g` alone: with the
constant fitness `1000` over `exFreshSwarm`, `g` stays `[0, 0]`, the position of
no agent. -/
theorem EvaluateSearchSpace_exFreshSwarm_sentinel :
    ∃ s1, EvaluateSearchSpace exIds exFreshSwarm 2 (fun _ => (1000 : ℚ)) = .ok s1 ∧
      s1.g = some [0, 0] ∧ s1.gfit = 1000 ∧ ∀ ag ∈ exFreshAgents, ag.x ≠ [0, 0] := by
  refine ⟨_, EvaluateSearchSpace_eq exIds exFreshSwarm exFreshAgents 2 _
      exFreshSwarm_shape (Or.inr (Or.inl rfl)) (fun h => absurd h (by decide)), ?_, ?_, ?_⟩
  · simp [exFreshSwarm, exFreshAgents, agentAfter, globalAfter, globalStep]
  · simp [exFreshSwarm, exFreshAgents, agentAfter, globalAfter, globalStep]
  · intro ag h
    simp only [exFreshAgents, List.mem_cons, List.mem_singleton, List.not_mem_nil,
      or_false] at h
    rcases h with rfl | rfl <;> simp

/-! ## `EvaluateSearchSpace`: one agent -/

/-- C5 (counterexample): the agent of `exStale` has stored fitness `1`, the
global best is `gfit = 5`, `g = [0]`.  The new fitness `3` does not improve the
stored one, yet the pass overwrites `gfit` with `1` and `g` with the position
`[7]`. -/
theorem C5_counterexample :
    rdAgent exStale.a 0 = .ok exStaleAgent ∧
      ¬ ((fun _ => (3 : ℚ)) exStaleAgent < exStaleAgent.fit) ∧
      evalBodyVector (fun _ => (3 : ℚ)) 0 exStale = .ok exStaleAfter ∧
      EvaluateSearchSpace exIds exStale exIds._BA_ (fun _ => (3 : ℚ)) = .ok exStaleAfter ∧
      exStaleAfter.g = some [7] ∧ exStale.g = some [0] ∧
      exStaleAfter.gfit = 1 ∧ exStale.gfit = 5 := by
  refine ⟨rfl, by norm_num [exStaleAgent], ?_, ?_, rfl, rfl, rfl, rfl⟩
  · simp [evalBodyVector, exStale, exStaleAfter, exStaleAgent, rdAgent, rdI, rd,
      updateGlobal, copyInto, forLoop, wrP, wr, exBox]
  · simp [EvaluateSearchSpace, exIds, evalBodyVector, exStale, exStaleAfter, exStaleAgent,
      rdAgent, rdI, rd, updateGlobal, copyInto, forLoop, wrP, wr, exBox]

/-- C5 (amended): for `_BA_`, `_FPA_`, `_FA_`, `_GA_` the pass is the loop over
`evalBodyVector`, and processing agent `i` with new fitness `f` stores `f` in
`fit` exactly when `f < fit`; then `g` and `gfit` are overwritten with the
agent's position and its stored fitness exactly when that stored fitness (after
the update) is strictly below `gfit`, and are unchanged otherwise.  When
`gfit ≤ fit` held before, this is exactly when `f` improved the stored fitness
and `f < gfit`. -/
theorem C5_evalBodyVector_update {α : Type} [LinearOrder α] (ids : OptIds)
    (Evaluate : Agent α → α) (i : Nat) (s : SearchSpace α) (ag : Agent α)
    (hag : rdAgent s.a i = .ok ag) (hx : ag.x.length = s.n.toNat)
    (hg : ∃ g0, s.g = some g0 ∧ g0.length = s.n.toNat) :
    (∀ opt_id : Int,
      opt_id = ids._BA_ ∨ opt_id = ids._FPA_ ∨ opt_id = ids._FA_ ∨ opt_id = ids._GA_ →
      EvaluateSearchSpace ids s opt_id Evaluate
        = forLoop (evalBodyVector Evaluate) s.m.toNat 0 s) ∧
    ∃ s1 ag1, evalBodyVector Evaluate i s = .ok s1 ∧ s1.a = s.a.set i (some ag1) ∧
      (Evaluate ag < ag.fit → ag1 = { ag with fit := Evaluate ag }) ∧
      (¬ Evaluate ag < ag.fit → ag1 = ag) ∧
      (ag1.fit < s.gfit → s1.g = some ag.x ∧ s1.gfit = ag1.fit) ∧
      (¬ ag1.fit < s.gfit → s1.g = s.g ∧ s1.gfit = s.gfit) ∧
      (s.gfit ≤ ag.fit →
        (ag1.fit < s.gfit ↔ Evaluate ag < ag.fit ∧ Evaluate ag < s.gfit)) := by
  constructor
  · intro opt_id hopt
    simp only [EvaluateSearchSpace, hopt, if_true]
  · have hx1 : (agentAfter false Evaluate ag).x.length = s.n.toNat := by
      rw [agentAfter_x]; exact hx
    have hag1 : (if Evaluate ag < ag.fit then { ag with fit := Evaluate ag } else ag)
        = agentAfter false Evaluate ag := by
      unfold agentAfter
      by_cases h : Evaluate ag < ag.fit
      · simp [h]
      · simp [h]
    refine ⟨{ s with
        a := s.a.set i (some (agentAfter false Evaluate ag))
        g := (globalStep (s.g, s.gfit) (agentAfter false Evaluate ag)).1
        gfit := (globalStep (s.g, s.gfit) (agentAfter false Evaluate ag)).2 },
      agentAfter false Evaluate ag, ?_, rfl, ?_, ?_, ?_, ?_, ?_⟩
    · simp only [evalBodyVector, hag, hag1]
      exact updateGlobal_eq _ _ hx1 hg
    · intro h; rw [← hag1, if_pos h]
    · intro h; rw [← hag1, if_neg h]
    · intro h
      simp only [globalStep, h, if_true, agentAfter_x, and_self]
    · intro h
      simp only [globalStep, h, if_false, and_self]
    · intro hle
      rw [agentAfter_fit]
      constructor
      · intro h
        have h1 : Evaluate ag < ag.fit := by
          by_contra hc
          rw [min_eq_right (not_lt.mp hc)] at h
          exact absurd h (not_lt.mpr hle)
        rw [min_eq_left h1.le] at h
        exact ⟨h1, h⟩
      · rintro ⟨h1, h2⟩
        rw [min_eq_left h1.le]
        exact h2

/-- C5 (amended), witness: the agent of `exStale` and the constant fitness `3`. -/
theorem C5_evalBodyVector_update_witness :
    (∀ opt_id : Int,
      opt_id = exIds._BA_ ∨ opt_id = exIds._FPA_ ∨ opt_id = exIds._FA_ ∨
        opt_id = exIds._GA_ →
      EvaluateSearchSpace exIds exStale opt_id (fun _ => (3 : ℚ))
        = forLoop (evalBodyVector (fun _ => (3 : ℚ))) exStale.m.toNat 0 exStale) ∧
    ∃ s1 ag1, evalBodyVector (fun _ => (3 : ℚ)) 0 exStale = .ok s1 ∧
      s1.a = exStale.a.set 0 (some ag1) ∧
      ((3 : ℚ) < exStaleAgent.fit → ag1 = { exStaleAgent with fit := 3 }) ∧
      (¬ (3 : ℚ) < exStaleAgent.fit → ag1 = exStaleAgent) ∧
      (ag1.fit < exStale.gfit → s1.g = some exStaleAgent.x ∧ s1.gfit = ag1.fit) ∧
      (¬ ag1.fit < exStale.gfit → s1.g = exStale.g ∧ s1.gfit = exStale.gfit) ∧
      (exStale.gfit ≤ exStaleAgent.fit →
        (ag1.fit < exStale.gfit ↔ (3 : ℚ) < exStaleAgent.fit ∧ (3 : ℚ) < exStale.gfit)) :=
  C5_evalBodyVector_update exIds (fun _ => (3 : ℚ)) 0 exStale exStaleAgent rfl rfl
    ⟨[0], rfl, rfl⟩

/-- C6: a particle-swarm pass over a well-shaped search space leaves every
agent whose new fitness `f` improves the stored one with `fit = f` and `xl`
equal to its position `x`, and every other agent with `xl` and `fit` unchanged;
no position changes. -/
theorem C6_EvaluateSearchSpace_pso_local_best {α : Type} [LinearOrder α] (ids : OptIds)
    (s : SearchSpace α) (ags : List (Agent α)) (Evaluate : Agent α → α)
    (hs : VectorShape s ags) (hxl : ∀ ag ∈ ags, HasXl s.n.toNat ag) :
    ∃ s1, EvaluateSearchSpace ids s ids._PSO_ Evaluate = .ok s1 ∧
      s1.a.length = s.a.length ∧
      ∀ (i : Nat) (ag : Agent α), s.a[i]? = some (some ag) →
        ∃ ag1, s1.a[i]? = some (some ag1) ∧ ag1.x = ag.x ∧
          (Evaluate ag < ag.fit → ag1.xl = some ag1.x ∧ ag1.fit = Evaluate ag) ∧
          (¬ Evaluate ag < ag.fit → ag1.xl = ag.xl ∧ ag1.fit = ag.fit) := by
  refine ⟨_, EvaluateSearchSpace_eq ids s ags ids._PSO_ Evaluate hs (Or.inl rfl)
    (fun _ => hxl), ?_, ?_⟩
  · simp [hs.agents]
  · intro i ag hi
    rw [hs.agents] at hi
    have hi1 := getElem?_map_some _ i ag hi
    refine ⟨agentAfter true Evaluate ag, ?_, agentAfter_x _ _ _, ?_, ?_⟩
    · simp only [decide_True, List.getElem?_map, hi1, Option.map_some']
    · intro h
      simp only [agentAfter, h, if_true, and_self]
    · intro h
      simp only [agentAfter, h, if_false, and_self]

/-- C6, witness: a particle-swarm pass over `exSwarm`. -/
theorem C6_EvaluateSearchSpace_pso_local_best_witness :
    ∃ s1, EvaluateSearchSpace exIds exSwarm exIds._PSO_ exFitness = .ok s1 ∧
      s1.a.length = exSwarm.a.length ∧
      ∀ (i : Nat) (ag : Agent ℚ), exSwarm.a[i]? = some (some ag) →
        ∃ ag1, s1.a[i]? = some (some ag1) ∧ ag1.x = ag.x ∧
          (exFitness ag < ag.fit → ag1.xl = some ag1.x ∧ ag1.fit = exFitness ag) ∧
          (¬ exFitness ag < ag.fit → ag1.xl = ag.xl ∧ ag1.fit = ag.fit) :=
  C6_EvaluateSearchSpace_pso_local_best exIds exSwarm exSwarmAgents exFitness exSwarm_shape
    exSwarm_hasXl

/-! ## `GROW` -/

theorem rdI_ok {β : Type} (xs : List β) (i : Int) (h0 : 0 ≤ i) (h1 : i < xs.length) :
    ∃ v, rdI xs i = .ok v ∧ v ∈ xs := by
  have hlt : i.toNat < xs.length := by omega
  refine ⟨xs[i.toNat], ?_, List.getElem_mem _⟩
  simp [rdI, rd, not_lt.mpr h0, List.getElem?_eq_getElem hlt]

theorem IsLeaf_levels (t : Node) (h : t.IsLeaf) : t ≠ .null ∧ t.levels = 1 := by
  cases t with
  | null => simp [Node.IsLeaf] at h
  | mk id st ls el l r =>
    cases l <;> cases r <;> simp_all [Node.IsLeaf, Node.levels]

theorem growLeaf_ok {α : Type} (rnd : Draws) (s : SearchSpace α) (aux : Int) (k : Nat)
    (h0 : 0 ≤ aux) (h1 : aux < s.terminal.length) :
    ∃ t k1, growLeaf rnd s aux k = .ok (t, k1) ∧ t.IsLeaf := by
  obtain ⟨name, hname, -⟩ := rdI_ok s.terminal aux h0 h1
  by_cases hc : name = "CONST"
  · exact ⟨_, _, by simp only [growLeaf, hname, hc, if_true]; rfl,
      by simp [CreateNode, Node.IsLeaf]⟩
  · exact ⟨_, _, by simp only [growLeaf, hname, hc, if_false]; rfl,
      by simp [CreateNode, Node.IsLeaf]⟩

theorem nargs_of_known (name : String) (h : name ∈ functionNames) :
    ∃ fid nargs, getFUNCTIONid name = .ok fid ∧ rdI N_ARGS_FUNCTION fid = .ok nargs ∧
      (nargs = 1 ∨ nargs = 2) := by
  simp only [functionNames, List.mem_cons, List.mem_singleton, List.not_mem_nil,
    or_false] at h
  rcases h with rfl | rfl | rfl | rfl | rfl | rfl | rfl | rfl
  · exact ⟨0, 2, rfl, rfl, Or.inr rfl⟩
  · exact ⟨1, 2, rfl, rfl, Or.inr rfl⟩
  · exact ⟨2, 2, rfl, rfl, Or.inr rfl⟩
  · exact ⟨3, 2, rfl, rfl, Or.inr rfl⟩
  · exact ⟨4, 1, rfl, rfl, Or.inl rfl⟩
  · exact ⟨5, 1, rfl, rfl, Or.inl rfl⟩
  · exact ⟨6, 1, rfl, rfl, Or.inl rfl⟩
  · exact ⟨7, 1, rfl, rfl, Or.inl rfl⟩

theorem attachLeft_ok (id : Int) (st : Status) (ls : Int) (el : String) (l r tmp : Node)
    (h : tmp ≠ .null) : attachLeft (.mk id st ls el l r) tmp = .ok (.mk id st ls el tmp r) := by
  cases tmp with
  | null => exact absurd rfl h
  | mk _ _ _ _ _ _ => rfl

theorem attachRight_ok (id : Int) (st : Status) (ls : Int) (el : String) (l r tmp : Node)
    (h : tmp ≠ .null) :
    ∃ tmp1, attachRight (.mk id st ls el l r) tmp = .ok (.mk id st ls el l tmp1) ∧
      tmp1 ≠ .null ∧ tmp1.levels = tmp.levels := by
  cases tmp with
  | null => exact absurd rfl h
  | mk tid tst tls tel tl tr =>
    exact ⟨.mk tid tst 0 tel tl tr, rfl, by simp, rfl⟩

/-- With valid tables, draws inside their ranges and `depth ≤ maxDepth`, a
budget above `maxDepth - depth` lets `GROW` return a tree with at most
`maxDepth - depth + 1` levels. -/
theorem GROW_levels {α : Type} (rnd : Draws) (s : SearchSpace α) (hr : rnd.InRange)
    (hv : ValidTables s) :
    ∀ (fuel : Nat) (d maxD : Int) (k : Nat), d ≤ maxD → (maxD - d).toNat < fuel →
      ∃ t k1, GROW rnd s fuel d maxD k = .ok (t, k1) ∧ t ≠ .null ∧
        (t.levels : Int) ≤ maxD - d + 1 := by
  have hT := hv.terminals_pos
  have hTl := hv.terminals_len
  have hFl := hv.functions_len
  have hF0 : 0 ≤ s.n_functions := by omega
  intro fuel
  induction fuel with
  | zero => intro d maxD k _ h; omega
  | succ fuel ih =>
    intro d maxD k hd hfuel
    by_cases heq : d = maxD
    · obtain ⟨h1, h2⟩ := hr k 0 (s.n_terminals - 1) (by omega)
      obtain ⟨t, k1, ht, hleaf⟩ := growLeaf_ok rnd s _ (k + 1) h1 (by omega)
      obtain ⟨hnn, hlv⟩ := IsLeaf_levels t hleaf
      refine ⟨t, k1, ?_, hnn, by rw [hlv]; omega⟩
      simp only [GROW, heq, if_true, ht]
    · obtain ⟨h1, h2⟩ := hr k 0 (s.n_functions + s.n_terminals - 1) (by omega)
      by_cases hge : rnd k 0 (s.n_functions + s.n_terminals - 1) ≥ s.n_functions
      · obtain ⟨t, k1, ht, hleaf⟩ := growLeaf_ok rnd s
          (rnd k 0 (s.n_functions + s.n_terminals - 1) - s.n_functions) (k + 1)
          (by omega) (by omega)
        obtain ⟨hnn, hlv⟩ := IsLeaf_levels t hleaf
        refine ⟨t, k1, ?_, hnn, by rw [hlv]; omega⟩
        simp only [GROW, heq, if_false, hge, if_true, ht]
      · obtain ⟨name, hname, hmem⟩ := rdI_ok s.function
          (rnd k 0 (s.n_functions + s.n_terminals - 1)) h1 (by omega)
        obtain ⟨fid, nargs, hfid, hnargs, hcases⟩ :=
          nargs_of_known name (hv.functions_known name hmem)
        obtain ⟨t0, k1, hg0, hn0, hl0⟩ := ih (d + 1) maxD (k + 1) (by omega) (by omega)
        have hleft := attachLeft_ok (rnd k 0 (s.n_functions + s.n_terminals - 1))
          .FUNCTION 1 name .null .null t0 hn0
        rcases hcases with h1a | h2a
        · refine ⟨.mk (rnd k 0 (s.n_functions + s.n_terminals - 1)) .FUNCTION 1 name t0 .null,
            k1, ?_, ?_, ?_⟩
          · simp only [GROW, heq, if_false, hge, hname, hfid, hnargs, h1a]
            simp only [Int.toNat_one, forLoop, hg0, if_true, CreateNode, hleft]
          · simp
          · simp only [Node.levels]
            push_cast
            omega
        · obtain ⟨t1, k2, hg1, hn1, hl1⟩ := ih (d + 1) maxD k1 (by omega) (by omega)
          obtain ⟨t1a, hright, hn1a, hl1a⟩ :=
            attachRight_ok (rnd k 0 (s.n_functions + s.n_terminals - 1))
              .FUNCTION 1 name t0 .null t1 hn1
          refine ⟨.mk (rnd k 0 (s.n_functions + s.n_terminals - 1)) .FUNCTION 1 name t0 t1a,
            k2, ?_, ?_, ?_⟩
          · simp only [GROW, heq, if_false, hge, hname, hfid, hnargs, h2a]
            simp only [show (2 : Int).toNat = 1 + 1 from rfl, forLoop, hg0, if_true,
              CreateNode, hleft, hg1, zero_add, one_ne_zero, if_false, hright]
          · simp
          · simp only [Node.levels, hl1a]
            push_cast
            omega


/-- C9: with at least one terminal and draws inside their ranges, `GROW` called
with `depth = maxDepth` (any positive budget) returns a single node without
children whose status is `TERMINAL` or `CONSTANT`, never `FUNCTION`. -/
theorem C9_GROW_at_max_depth_is_leaf {α : Type} (rnd : Draws) (s : SearchSpace α)
    (fuel : Nat) (d : Int) (k : Nat) (hr : rnd.InRange) (ht : 1 ≤ s.n_terminals)
    (hlen : s.n_terminals ≤ s.terminal.length) :
    ∃ id st ls el k1, GROW rnd s (fuel + 1) d d k = .ok (.mk id st ls el .null .null, k1) ∧
      (st = .TERMINAL ∨ st = .CONSTANT) ∧ st ≠ .FUNCTION := by
  obtain ⟨h1, h2⟩ := hr k 0 (s.n_terminals - 1) (by omega)
  obtain ⟨t, k1, hg, hleaf⟩ := growLeaf_ok rnd s _ (k + 1) h1 (by omega)
  have hgrow : GROW rnd s (fuel + 1) d d k = .ok (t, k1) := by
    simp only [GROW, if_true, hg]
  cases t with
  | null => simp [Node.IsLeaf] at hleaf
  | mk id st ls el l r =>
    cases l with
    | mk _ _ _ _ _ _ => simp [Node.IsLeaf] at hleaf
    | null =>
      cases r with
      | mk _ _ _ _ _ _ => simp [Node.IsLeaf] at hleaf
      | null =>
        simp only [Node.IsLeaf] at hleaf
        refine ⟨id, st, ls, el, k1, hgrow, hleaf, ?_⟩
        rcases hleaf with h | h <;> rw [h] <;> simp

theorem exDrawLow_inRange : exDrawLow.InRange := fun _ _ _ h => ⟨le_refl _, h⟩

theorem exDrawHigh_inRange : exDrawHigh.InRange := fun _ _ _ h => ⟨h, le_refl _⟩

/-- C9, witness: `GROW(s, 0, 0)` over the terminals `x0`, `x1`, `CONST`. -/
theorem C9_GROW_at_max_depth_is_leaf_witness :
    ∃ id st ls el k1,
      GROW exDrawHigh exTreeSpace (0 + 1) 0 0 0 = .ok (.mk id st ls el .null .null, k1) ∧
      (st = .TERMINAL ∨ st = .CONSTANT) ∧ st ≠ .FUNCTION :=
  C9_GROW_at_max_depth_is_leaf exDrawHigh exTreeSpace 0 0 0 exDrawHigh_inRange (by decide)
    (by decide)

/-- The loop of `CreateSearchSpace` that fills `T` with grown trees. -/
theorem growTrees_loop {α : Type} (rnd : Draws) (s : SearchSpace α) (hr : rnd.InRange)
    (hv : ValidTables s) (fuel : Nat) (d maxD : Int) (hd : d ≤ maxD)
    (hfuel : (maxD - d).toNat < fuel) :
    ∀ (rest pre : List Node) (k : Nat),
      (∀ t ∈ pre, t ≠ .null ∧ (t.levels : Int) ≤ maxD - d + 1) →
      ∃ T1 k1,
        forLoop (fun i (st : List Node × Nat) =>
            match GROW rnd s fuel d maxD st.2 with
            | .error e => .error e
            | .ok (t, k1) =>
              match wr st.1 i t with
              | .error e => .error e
              | .ok T1 => .ok (T1, k1))
          rest.length pre.length (pre ++ rest, k) = .ok (T1, k1) ∧
        T1.length = pre.length + rest.length ∧
        ∀ t ∈ T1, t ≠ .null ∧ (t.levels : Int) ≤ maxD - d + 1 := by
  intro rest
  induction rest with
  | nil =>
    intro pre k hpre
    exact ⟨pre, k, by simp [forLoop], by simp, hpre⟩
  | cons r rest ih =>
    intro pre k hpre
    obtain ⟨t, k1, hg, hn, hl⟩ := GROW_levels rnd s hr hv fuel d maxD k hd hfuel
    obtain ⟨T1, k2, hloop, hlen, hall⟩ := ih (pre ++ [t]) k1 (by
      intro u hu
      rcases List.mem_append.mp hu with h | h
      · exact hpre u h
      · rw [List.mem_singleton.mp h]; exact ⟨hn, hl⟩)
    simp only [List.length_append, List.length_singleton, List.append_assoc,
      List.singleton_append] at hloop hlen
    refine ⟨T1, k2, ?_, by simp only [List.length_cons]; omega, hall⟩
    simp only [List.length_cons, forLoop, hg, wr_mid, hloop]

/-- What `CreateSearchSpace` returns for the tree technique: `m` grown trees,
each with at most `max_depth - min_depth + 1` levels. -/
theorem CreateSearchSpace_GP {α : Type} [Zero α] (rnd : Draws) (hr : rnd.InRange)
    (ids : OptIds) (DBL_MAX : α) (fuel : Nat) (raw : SearchSpace α) (junkLB junkUB : Nat → α)
    (m n : Int) (extra : GPArgs α) (k : Nat)
    (hm : 1 ≤ m) (hn : 1 ≤ n) (hgp : 1 ≤ ids._GP_)
    (ht : 1 ≤ extra.n_terminals) (htl : (extra.terminal.length : Int) = extra.n_terminals)
    (hfl : (extra.function.length : Int) = extra.n_functions)
    (hfk : ∀ name ∈ extra.function, name ∈ functionNames)
    (hmax : extra.min_depth ≤ extra.max_depth)
    (hfuel : (extra.max_depth - extra.min_depth).toNat < fuel) :
    ∃ s1 k1, CreateSearchSpace ids DBL_MAX rnd fuel raw junkLB junkUB m n ids._GP_ extra k
        = .ok (some s1, k1) ∧
      (s1.T.length : Int) = m ∧ s1.min_depth = extra.min_depth ∧
      s1.max_depth = extra.max_depth ∧
      ∀ t ∈ s1.T, t ≠ .null ∧ (t.levels : Int) ≤ extra.max_depth - extra.min_depth + 1 := by
  have hv : ValidTables ({ raw with
      m := m, n := n, gfit := DBL_MAX
      min_depth := extra.min_depth
      max_depth := extra.max_depth
      n_terminals := extra.n_terminals
      n_constants := extra.n_constants
      n_functions := extra.n_functions
      terminal := extra.terminal
      constant := extra.constant
      function := extra.function } : SearchSpace α) := ⟨ht, htl, hfl, hfk⟩
  obtain ⟨T1, k1, hloop, hlen, hall⟩ := growTrees_loop rnd _ hr hv fuel extra.min_depth
    extra.max_depth hmax hfuel (List.replicate m.toNat Node.null) [] k (by simp)
  simp only [List.length_replicate, List.length_nil, List.nil_append, zero_add] at hloop hlen
  have hagents := forLoop_store (CreateAgent ids DBL_MAX n ids._GP_)
    (List.replicate extra.n_terminals.toNat (none : Option (Agent α))) []
  simp only [List.length_replicate, List.length_nil, List.nil_append] at hagents
  have hcond : ¬ (m < 1 ∨ n < 1 ∨ ids._GP_ < 1) := by omega
  refine ⟨{ raw with
      m := m, n := n, gfit := DBL_MAX
      min_depth := extra.min_depth
      max_depth := extra.max_depth
      n_terminals := extra.n_terminals
      n_constants := extra.n_constants
      n_functions := extra.n_functions
      terminal := extra.terminal
      constant := extra.constant
      function := extra.function
      T := T1
      a := List.replicate extra.n_terminals.toNat (CreateAgent ids DBL_MAX n ids._GP_)
      LB := mallocDoubles junkLB n
      UB := mallocDoubles junkUB n }, k1, ?_, ?_, rfl, rfl, hall⟩
  · simp only [CreateSearchSpace, hcond, if_false, ne_eq, not_true_eq_false, hloop, hagents]
  · show ((T1.length : Nat) : Int) = m
    rw [hlen]; omega


/-- C10: with valid symbol tables, draws inside their ranges and
`depth ≤ maxDepth`, `GROW` with a budget above `maxDepth - depth` returns a
tree of height at most `maxDepth - depth`; and `CreateSearchSpace` for the tree
technique (with `0 ≤ min_depth ≤ max_depth`) returns `m` trees, each of height
at most `max_depth`. -/
theorem C10_GROW_height_bounded {α : Type} [Zero α] (rnd : Draws) (hr : rnd.InRange)
    (s : SearchSpace α) (hv : ValidTables s) (fuel : Nat) (d maxD : Int) (k : Nat)
    (hd : d ≤ maxD) (hfuel : (maxD - d).toNat < fuel)
    (ids : OptIds) (DBL_MAX : α) (fuel2 : Nat) (raw : SearchSpace α) (junkLB junkUB : Nat → α)
    (m n : Int) (extra : GPArgs α) (k2 : Nat)
    (hm : 1 ≤ m) (hn : 1 ≤ n) (hgp : 1 ≤ ids._GP_)
    (ht : 1 ≤ extra.n_terminals) (htl : (extra.terminal.length : Int) = extra.n_terminals)
    (hfl : (extra.function.length : Int) = extra.n_functions)
    (hfk : ∀ name ∈ extra.function, name ∈ functionNames)
    (hmin : 0 ≤ extra.min_depth) (hmax : extra.min_depth ≤ extra.max_depth)
    (hfuel2 : (extra.max_depth - extra.min_depth).toNat < fuel2) :
    (∃ t k1, GROW rnd s fuel d maxD k = .ok (t, k1) ∧ t ≠ .null ∧ t.height ≤ maxD - d) ∧
    (∃ s1 k1, CreateSearchSpace ids DBL_MAX rnd fuel2 raw junkLB junkUB m n ids._GP_ extra k2
        = .ok (some s1, k1) ∧
      (s1.T.length : Int) = m ∧ s1.max_depth = extra.max_depth ∧
      ∀ t ∈ s1.T, t ≠ .null ∧ t.height ≤ s1.max_depth) := by
  constructor
  · obtain ⟨t, k1, hg, hn, hl⟩ := GROW_levels rnd s hr hv fuel d maxD k hd hfuel
    exact ⟨t, k1, hg, hn, by unfold Node.height; omega⟩
  · obtain ⟨s1, k1, hc, hlen, -, hmaxd, hall⟩ := CreateSearchSpace_GP rnd hr ids DBL_MAX
      fuel2 raw junkLB junkUB m n extra k2 hm hn hgp ht htl hfl hfk hmax hfuel2
    refine ⟨s1, k1, hc, hlen, hmaxd, ?_⟩
    intro t htT
    obtain ⟨h1, h2⟩ := hall t htT
    exact ⟨h1, by unfold Node.height; omega⟩

/-- C10, witness: depth 0 to 2 over the tables of `exTreeSpace`, and
`CreateSearchSpace(2, 3, _GP_, 0, 2, ...)` with the tables of `exGPArgs`. -/
theorem C10_GROW_height_bounded_witness :
    (∃ t k1, GROW exDrawLow exTreeSpace 3 0 2 0 = .ok (t, k1) ∧ t ≠ .null ∧
      t.height ≤ 2 - 0) ∧
    (∃ s1 k1, CreateSearchSpace exIds (1000 : ℚ) exDrawLow 3 exBox (fun _ => 0) (fun _ => 1) 2 3
        exIds._GP_ exGPArgs 0 = .ok (some s1, k1) ∧
      (s1.T.length : Int) = 2 ∧ s1.max_depth = exGPArgs.max_depth ∧
      ∀ t ∈ s1.T, t ≠ .null ∧ t.height ≤ s1.max_depth) :=
  C10_GROW_height_bounded exDrawLow exDrawLow_inRange exTreeSpace
    ⟨by decide, by decide, by decide, by decide⟩ 3 0 2 0 (by decide) (by decide)
    exIds 1000 3 exBox (fun _ => 0) (fun _ => 1) 2 3 exGPArgs 0 (by decide) (by decide) (by decide)
    (by decide) (by decide) (by decide) (by decide) (by decide) (by decide) (by decide)

/-! ## `GROW`: the node invariant -/

theorem rdI_mem {β : Type} (xs : List β) (i : Int) (v : β) (h : rdI xs i = .ok v) :
    v ∈ xs := by
  unfold rdI at h
  split at h
  · simp at h
  · unfold rd at h
    split at h
    · rename_i w hw
      simp only [Except.ok.injEq] at h
      subst h
      exact List.getElem?_mem hw
    · simp at h

theorem nargs_cases (fid nargs : Int) (h : rdI N_ARGS_FUNCTION fid = .ok nargs) :
    nargs = 1 ∨ nargs = 2 := by
  have hm := rdI_mem _ _ _ h
  simp only [N_ARGS_FUNCTION, List.mem_cons, List.mem_singleton, List.not_mem_nil,
    or_false] at hm
  omega

theorem Invariant_ne_null (ls : Int) (t : Node) (h : t.Invariant ls) : t ≠ .null := by
  cases t with
  | null => simp [Node.Invariant] at h
  | mk _ _ _ _ _ _ => simp

theorem growLeaf_invariant {α : Type} (rnd : Draws) (s : SearchSpace α) (aux : Int)
    (k : Nat) (t : Node) (k1 : Nat) (h : growLeaf rnd s aux k = .ok (t, k1)) :
    t.Invariant 1 := by
  unfold growLeaf at h
  split at h
  · simp at h
  · split at h
    · simp only [Except.ok.injEq, Prod.mk.injEq] at h
      rw [← h.1]
      simp [CreateNode, Node.Invariant]
    · simp only [Except.ok.injEq, Prod.mk.injEq] at h
      rw [← h.1]
      simp [CreateNode, Node.Invariant]

theorem attachLeft_eq (node tmp res : Node) (h : attachLeft node tmp = .ok res) :
    ∃ id st ls el l r, node = .mk id st ls el l r ∧ tmp ≠ .null ∧
      res = .mk id st ls el tmp r := by
  cases node with
  | null => simp [attachLeft] at h
  | mk id st ls el l r =>
    cases tmp with
    | null => simp [attachLeft] at h
    | mk _ _ _ _ _ _ =>
      simp only [attachLeft, Except.ok.injEq] at h
      exact ⟨id, st, ls, el, l, r, rfl, by simp, h.symm⟩

theorem attachRight_eq (node tmp res : Node) (h : attachRight node tmp = .ok res) :
    ∃ id st ls el l r tid tst tls tel tl tr, node = .mk id st ls el l r ∧
      tmp = .mk tid tst tls tel tl tr ∧
      res = .mk id st ls el l (.mk tid tst 0 tel tl tr) := by
  cases node with
  | null => simp [attachRight] at h
  | mk id st ls el l r =>
    cases tmp with
    | null => simp [attachRight] at h
    | mk tid tst tls tel tl tr =>
      simp only [attachRight, Except.ok.injEq] at h
      exact ⟨id, st, ls, el, l, r, tid, tst, tls, tel, tl, tr, rfl, rfl, h.symm⟩

theorem Invariant_relabel (ls : Int) (id : Int) (st : Status) (ls1 : Int) (el : String)
    (l r : Node) (h : Node.Invariant ls (.mk id st ls1 el l r)) :
    Node.Invariant 0 (.mk id st 0 el l r) := by
  simp only [Node.Invariant] at h ⊢
  exact ⟨trivial, h.2⟩

theorem Invariant_unary (ls id : Int) (el : String) (l : Node)
    (ha : arityOf el = some 1) (hl : l.Invariant 1) :
    Node.Invariant ls (.mk id .FUNCTION ls el l .null) := by
  simp only [Node.Invariant, true_and]
  exact Or.inr ⟨ha, hl, trivial⟩

theorem Invariant_binary (ls id : Int) (el : String) (l r : Node)
    (ha : arityOf el = some 2) (hl : l.Invariant 1) (hr : r.Invariant 0) :
    Node.Invariant ls (.mk id .FUNCTION ls el l r) := by
  simp only [Node.Invariant, true_and]
  exact Or.inl ⟨ha, hl, hr⟩

/-- Every tree `GROW` returns satisfies the node invariant, as a left node. -/
theorem GROW_invariant {α : Type} (rnd : Draws) (s : SearchSpace α) :
    ∀ (fuel : Nat) (d maxD : Int) (k : Nat) (t : Node) (k1 : Nat),
      GROW rnd s fuel d maxD k = .ok (t, k1) → t.Invariant 1 := by
  intro fuel
  induction fuel with
  | zero => intro d maxD k t k1 h; simp [GROW] at h
  | succ fuel ih =>
    intro d maxD k t k1 h
    unfold GROW at h
    split at h
    · exact growLeaf_invariant rnd s _ _ t k1 h
    · simp only at h
      split at h
      · exact growLeaf_invariant rnd s _ _ t k1 h
      · split at h
        · simp at h
        · rename_i name hname
          split at h
          · simp at h
          · rename_i fid hfid
            split at h
            · simp at h
            · rename_i nargs hnargs
              have harity : arityOf name = some nargs := by
                simp only [arityOf, hfid, hnargs]
              rcases nargs_cases fid nargs hnargs with h1 | h2
              · subst h1
                simp only [Int.toNat_one, forLoop] at h
                cases hg0 : GROW rnd s fuel (d + 1) maxD (k + 1) with
                | error e => simp [hg0] at h
                | ok p0 =>
                  obtain ⟨t0, k0⟩ := p0
                  simp only [hg0, if_true] at h
                  cases hl : attachLeft (CreateNode name
                      (rnd k 0 (s.n_functions + s.n_terminals - 1)) .FUNCTION) t0 with
                  | error e => simp [hl] at h
                  | ok node =>
                    simp only [hl, Except.ok.injEq, Prod.mk.injEq] at h
                    obtain ⟨id, st, ls, el, l, r, hnode, -, hres⟩ := attachLeft_eq _ _ _ hl
                    simp only [CreateNode, Node.mk.injEq] at hnode
                    obtain ⟨rfl, rfl, rfl, rfl, rfl, rfl⟩ := hnode
                    rw [← h.1, hres]
                    exact Invariant_unary 1 _ name t0 harity (ih _ _ _ _ _ hg0)
              · subst h2
                simp only [show (2 : Int).toNat = 1 + 1 from rfl, forLoop] at h
                cases hg0 : GROW rnd s fuel (d + 1) maxD (k + 1) with
                | error e => simp [hg0] at h
                | ok p0 =>
                  obtain ⟨t0, k0⟩ := p0
                  simp only [hg0, if_true] at h
                  cases hl : attachLeft (CreateNode name
                      (rnd k 0 (s.n_functions + s.n_terminals - 1)) .FUNCTION) t0 with
                  | error e => simp [hl] at h
                  | ok node =>
                    obtain ⟨id, st, ls, el, l, r, hnode, -, hres⟩ := attachLeft_eq _ _ _ hl
                    simp only [CreateNode, Node.mk.injEq] at hnode
                    obtain ⟨rfl, rfl, rfl, rfl, rfl, rfl⟩ := hnode
                    subst hres
                    simp only [hl, zero_add, one_ne_zero, if_false] at h
                    cases hg1 : GROW rnd s fuel (d + 1) maxD k0 with
                    | error e => simp [hg1] at h
                    | ok p1 =>
                      obtain ⟨t1, k2⟩ := p1
                      simp only [hg1] at h
                      cases hr : attachRight (.mk (rnd k 0 (s.n_functions + s.n_terminals - 1))
                          .FUNCTION 1 name t0 .null) t1 with
                      | error e => simp [hr] at h
                      | ok node2 =>
                        simp only [hr, Except.ok.injEq, Prod.mk.injEq] at h
                        obtain ⟨id, st, ls, el, l, r, tid, tst, tls, tel, tl, tr, hnode, htmp,
                          hres⟩ := attachRight_eq _ _ _ hr
                        simp only [Node.mk.injEq] at hnode
                        obtain ⟨rfl, rfl, rfl, rfl, rfl, rfl⟩ := hnode
                        have hi1 := ih _ _ _ _ _ hg1
                        rw [htmp] at hi1
                        rw [← h.1, hres]
                        exact Invariant_binary 1 _ name t0 _ harity (ih _ _ _ _ _ hg0)
                          (Invariant_relabel 1 tid tst tls tel tl tr hi1)


/-- C11: every tree `GROW` returns satisfies the node invariant at every node:
a `FUNCTION` node has the children its operator's entry in `N_ARGS_FUNCTION`
asks for (`SUM`, `SUB`, `MUL`, `DIV`: left and right; `EXP`, `SQRT`, `LOG`,
`ABS`: left only), `TERMINAL` and `CONSTANT` nodes have none, the root and every
first child carry `left_son = 1` and every second child `left_son = 0`. -/
theorem C11_GROW_node_invariant {α : Type} (rnd : Draws) (s : SearchSpace α)
    (fuel : Nat) (d maxD : Int) (k : Nat) (t : Node) (k1 : Nat)
    (h : GROW rnd s fuel d maxD k = .ok (t, k1)) :
    t.Invariant 1 ∧
      (arityOf "SUM" = some 2 ∧ arityOf "SUB" = some 2 ∧ arityOf "MUL" = some 2 ∧
        arityOf "DIV" = some 2 ∧ arityOf "EXP" = some 1 ∧ arityOf "SQRT" = some 1 ∧
        arityOf "LOG" = some 1 ∧ arityOf "ABS" = some 1) :=
  ⟨GROW_invariant rnd s fuel d maxD k t k1 h, rfl, rfl, rfl, rfl, rfl, rfl, rfl, rfl⟩

/-- C11, witness: the tree grown over `exTreeSpace` from depth 0 to 2. -/
theorem C11_GROW_node_invariant_witness :
    exGrownTree.Invariant 1 ∧
      (arityOf "SUM" = some 2 ∧ arityOf "SUB" = some 2 ∧ arityOf "MUL" = some 2 ∧
        arityOf "DIV" = some 2 ∧ arityOf "EXP" = some 1 ∧ arityOf "SQRT" = some 1 ∧
        arityOf "LOG" = some 1 ∧ arityOf "ABS" = some 1) :=
  C11_GROW_node_invariant exDrawLow exTreeSpace 3 0 2 0 exGrownTree 7 rfl

/-! ## `RunTree` on an `ABS` node -/

/-- C12: a `FUNCTION` node named `ABS` whose subtrees evaluate without a fault
evaluates to the empty result, whatever the subtrees returned. -/
theorem C12_RunTree_ABS_empty {α : Type} [Zero α] (P : Primitives α) (s : SearchSpace α)
    (id ls : Int) (left right : Node) (x y : Option (List α))
    (hl : RunTree P s left = .ok x) (hr : RunTree P s right = .ok y) :
    RunTree P s (.mk id .FUNCTION ls "ABS" left right) = .ok none := by
  simp [RunTree, hl, hr, applyFunction]

/-- C12, witness: `ABS` over the constant leaf `5` (`n = 3`), with primitives
that would hand back their operand. -/
theorem C12_RunTree_ABS_empty_witness :
    RunTree exEchoPrims exTreeSpace
      (.mk 7 .FUNCTION 1 "ABS" (.mk 0 .CONSTANT 1 "CONST" .null .null) .null) = .ok none :=
  C12_RunTree_ABS_empty exEchoPrims exTreeSpace 7 1 (.mk 0 .CONSTANT 1 "CONST" .null .null)
    .null (some [5, 5, 5]) none rfl rfl


/-! ## Serialization -/

theorem Serializes_null {α : Type} (fmt : α → String) (s : SearchSpace α) :
    Serializes fmt s .null "" := by
  intro fp
  simp [PreFixPrintTree4File]

theorem Serializes_terminal {α : Type} (fmt : α → String) (s : SearchSpace α)
    (id ls : Int) (el : String) (l r : Node) (tl tr : String)
    (hl : Serializes fmt s l tl) (hr : Serializes fmt s r tr) :
    Serializes fmt s (.mk id .TERMINAL ls el l r) (el ++ " " ++ tl ++ tr) := by
  intro fp
  simp [PreFixPrintTree4File, hl _, hr _, String.append_assoc]

theorem Serializes_function {α : Type} (fmt : α → String) (s : SearchSpace α)
    (id ls : Int) (el : String) (l r : Node) (tl tr : String)
    (hl : Serializes fmt s l tl) (hr : Serializes fmt s r tr) :
    Serializes fmt s (.mk id .FUNCTION ls el l r) ("(" ++ el ++ " " ++ tl ++ tr ++ ")") := by
  intro fp
  simp [PreFixPrintTree4File, hl _, hr _, String.append_assoc]

theorem Serializes_constant {α : Type} (fmt : α → String) (s : SearchSpace α)
    (id ls : Int) (el : String) (l r : Node) (tl tr : String) (c : α)
    (hc : rdI s.constant id = .ok c)
    (hl : Serializes fmt s l tl) (hr : Serializes fmt s r tr) :
    Serializes fmt s (.mk id .CONSTANT ls el l r) ("(" ++ fmt c ++ " " ++ tl ++ tr ++ ")") := by
  intro fp
  simp [PreFixPrintTree4File, hc, hl _, hr _, String.append_assoc]


theorem PrintTree2File_eq {α : Type} (fmt : α → String) (s : SearchSpace α) (T : Node)
    (txt file : String) (hT : T ≠ .null) (h : Serializes fmt s T txt) :
    PrintTree2File fmt s T file = .ok (file ++ txt ++ "\n") := by
  cases T with
  | null => exact absurd rfl hT
  | mk id st ls el l r => simp only [PrintTree2File, h file]

theorem Serializes_exSumTree {α : Type} (fmt : α → String) (s : SearchSpace α) :
    Serializes fmt s exSumTree "(SUM x0 x1 )" := by
  have h0 := Serializes_null fmt s
  have h1 := Serializes_terminal fmt s 0 1 "x0" .null .null "" "" h0 h0
  have h2 := Serializes_terminal fmt s 1 0 "x1" .null .null "" "" h0 h0
  exact Serializes_function fmt s 0 1 "SUM" _ _ _ _ h1 h2

/-- C13: the prefix serializer writes nothing for an empty subtree, the name
and one space for a `TERMINAL` leaf, `(`, the name, one space, the text of the
left subtree, the text of the right subtree and `)` for a `FUNCTION` node, and
`(`, the rendering of `constant[id]`, one space and `)` for a `CONSTANT` leaf.
The tree `SUM(x0, x1)` is written as `(SUM x0 x1 )`, and `PrintTree2File`
appends the text of the tree and a newline to the file. -/
theorem C13_prefix_serializer {α : Type} (fmt : α → String) (s : SearchSpace α) :
    Serializes fmt s .null "" ∧
    (∀ (id ls : Int) (el : String),
      Serializes fmt s (.mk id .TERMINAL ls el .null .null) (el ++ " ")) ∧
    (∀ (id ls : Int) (el : String) (l r : Node) (tl tr : String),
      Serializes fmt s l tl → Serializes fmt s r tr →
      Serializes fmt s (.mk id .FUNCTION ls el l r) ("(" ++ el ++ " " ++ tl ++ tr ++ ")")) ∧
    (∀ (id ls : Int) (el : String) (c : α), rdI s.constant id = .ok c →
      Serializes fmt s (.mk id .CONSTANT ls el .null .null) ("(" ++ fmt c ++ " " ++ ")")) ∧
    PreFixPrintTree4File fmt s exSumTree "" = .ok "(SUM x0 x1 )" ∧
    (∀ (T : Node) (txt file : String), T ≠ .null → Serializes fmt s T txt →
      PrintTree2File fmt s T file = .ok (file ++ txt ++ "\n")) ∧
    (∀ file : String,
      PrintTree2File fmt s exSumTree file = .ok (file ++ "(SUM x0 x1 )" ++ "\n")) := by
  refine ⟨Serializes_null fmt s, ?_, ?_, ?_, ?_, ?_, ?_⟩
  · intro id ls el
    have h := Serializes_terminal fmt s id ls el .null .null "" ""
      (Serializes_null fmt s) (Serializes_null fmt s)
    simpa using h
  · intro id ls el l r tl tr hl hr
    exact Serializes_function fmt s id ls el l r tl tr hl hr
  · intro id ls el c hc
    have h := Serializes_constant fmt s id ls el .null .null "" "" c hc
      (Serializes_null fmt s) (Serializes_null fmt s)
    simpa using h
  · have h := Serializes_exSumTree fmt s ""
    simpa using h
  · intro T txt file hT h
    exact PrintTree2File_eq fmt s T txt file hT h
  · intro file
    exact PrintTree2File_eq fmt s exSumTree _ file (by simp [exSumTree])
      (Serializes_exSumTree fmt s)

/-! ## `CompareForQSort` -/

theorem CompareForQSort_cases {α : Type} [LinearOrder α] (a b : Agent α) :
    (a.fit < b.fit ∧ CompareForQSort a b = -1) ∨
      (a.fit > b.fit ∧ CompareForQSort a b = 1) ∨
      (a.fit = b.fit ∧ CompareForQSort a b = 0) := by
  unfold CompareForQSort
  rcases lt_trichotomy a.fit b.fit with h | h | h
  · exact Or.inl ⟨h, by rw [if_pos h]⟩
  · refine Or.inr (Or.inr ⟨h, ?_⟩)
    rw [if_neg (by rw [h]; exact lt_irrefl _), if_neg (by rw [h]; exact lt_irrefl _)]
  · exact Or.inr (Or.inl ⟨h, by rw [if_neg (not_lt.mpr h.le), if_pos h]⟩)

theorem CompareForQSort_le_zero {α : Type} [LinearOrder α] (a b : Agent α) :
    CompareForQSort a b ≤ 0 ↔ a.fit ≤ b.fit := by
  rcases CompareForQSort_cases a b with ⟨h, hc⟩ | ⟨h, hc⟩ | ⟨h, hc⟩
  · rw [hc]; exact ⟨fun _ => h.le, fun _ => by decide⟩
  · rw [hc]; exact ⟨fun h1 => absurd h1 (by decide), fun h1 => absurd h (not_lt.mpr h1)⟩
  · rw [hc]; exact ⟨fun _ => h.le, fun _ => le_refl _⟩

theorem pairwise_fit_of_compare {α : Type} [LinearOrder α] (l : List (Agent α))
    (h : l.Pairwise (fun p q => CompareForQSort p q ≤ 0)) :
    (l.map Agent.fit).Pairwise (· ≤ ·) := by
  rw [List.pairwise_map]
  exact h.imp (fun {p q} hpq => (CompareForQSort_le_zero p q).mp hpq)

/-- C14: `CompareForQSort` returns `-1`, `1` or `0` exactly when the first
fitness is below, above or equal to the second; it is antisymmetric, transitive
and total.  Hence every arrangement of a population that is a permutation
ordered by the comparator lists the fitness values in non-decreasing order (the
sorted list of the fitness values), and such an arrangement exists. -/
theorem C14_CompareForQSort_total_order {α : Type} [LinearOrder α] (a b c : Agent α) :
    (CompareForQSort a b = -1 ↔ a.fit < b.fit) ∧
    (CompareForQSort a b = 1 ↔ a.fit > b.fit) ∧
    (CompareForQSort a b = 0 ↔ a.fit = b.fit) ∧
    CompareForQSort a b = - CompareForQSort b a ∧
    (CompareForQSort a b ≤ 0 → CompareForQSort b c ≤ 0 → CompareForQSort a c ≤ 0) ∧
    (CompareForQSort a b ≤ 0 ∨ CompareForQSort b a ≤ 0) ∧
    (∀ l l1 : List (Agent α), l1.Perm l →
      l1.Pairwise (fun p q => CompareForQSort p q ≤ 0) →
      (l1.map Agent.fit).Pairwise (· ≤ ·) ∧
        l1.map Agent.fit = (l.map Agent.fit).insertionSort (· ≤ ·)) ∧
    (∀ l : List (Agent α), ∃ l1 : List (Agent α), l1.Perm l ∧
      l1.Pairwise (fun p q => CompareForQSort p q ≤ 0)) := by
  refine ⟨?_, ?_, ?_, ?_, ?_, ?_, ?_, ?_⟩
  · rcases CompareForQSort_cases a b with ⟨h, hc⟩ | ⟨h, hc⟩ | ⟨h, hc⟩
    · rw [hc]; exact ⟨fun _ => h, fun _ => rfl⟩
    · rw [hc]; exact ⟨fun h1 => absurd h1 (by decide), fun h1 => absurd h (not_lt.mpr h1.le)⟩
    · rw [hc]
      exact ⟨fun h1 => absurd h1 (by decide), fun h1 => absurd h1 (by rw [h]; exact lt_irrefl _)⟩
  · rcases CompareForQSort_cases a b with ⟨h, hc⟩ | ⟨h, hc⟩ | ⟨h, hc⟩
    · rw [hc]; exact ⟨fun h1 => absurd h1 (by decide), fun h1 => absurd h (not_lt.mpr h1.le)⟩
    · rw [hc]; exact ⟨fun _ => h, fun _ => rfl⟩
    · rw [hc]
      exact ⟨fun h1 => absurd h1 (by decide), fun h1 => absurd h1 (by rw [h]; exact lt_irrefl _)⟩
  · rcases CompareForQSort_cases a b with ⟨h, hc⟩ | ⟨h, hc⟩ | ⟨h, hc⟩
    · rw [hc]; exact ⟨fun h1 => absurd h1 (by decide), fun h1 => absurd h (by rw [h1]; exact lt_irrefl _)⟩
    · rw [hc]; exact ⟨fun h1 => absurd h1 (by decide), fun h1 => absurd h (by rw [h1]; exact lt_irrefl _)⟩
    · rw [hc]; exact ⟨fun _ => h, fun _ => rfl⟩
  · rcases CompareForQSort_cases a b with ⟨h, hc⟩ | ⟨h, hc⟩ | ⟨h, hc⟩
    · rcases CompareForQSort_cases b a with ⟨h1, hd⟩ | ⟨h1, hd⟩ | ⟨h1, hd⟩
      · exact absurd h (not_lt.mpr h1.le)
      · rw [hc, hd]
      · exact absurd h (by rw [h1]; exact lt_irrefl _)
    · rcases CompareForQSort_cases b a with ⟨h1, hd⟩ | ⟨h1, hd⟩ | ⟨h1, hd⟩
      · rw [hc, hd]; rfl
      · exact absurd h (not_lt.mpr h1.le)
      · exact absurd h (by rw [h1]; exact lt_irrefl _)
    · rcases CompareForQSort_cases b a with ⟨h1, hd⟩ | ⟨h1, hd⟩ | ⟨h1, hd⟩
      · exact absurd h1 (by rw [h]; exact lt_irrefl _)
      · exact absurd h1 (by rw [h]; exact lt_irrefl _)
      · rw [hc, hd]; rfl
  · intro h1 h2
    rw [CompareForQSort_le_zero] at h1 h2 ⊢
    exact le_trans h1 h2
  · rw [CompareForQSort_le_zero, CompareForQSort_le_zero]
    exact le_total _ _
  · intro l l1 hp hs
    have hsorted := pairwise_fit_of_compare l1 hs
    refine ⟨hsorted, ?_⟩
    have hperm : (l1.map Agent.fit).Perm ((l.map Agent.fit).insertionSort (· ≤ ·)) :=
      (hp.map Agent.fit).trans (List.perm_insertionSort _ _).symm
    exact List.eq_of_perm_of_sorted hperm hsorted (List.sorted_insertionSort _ _)
  · intro l
    haveI : IsTotal (Agent α) (fun p q => p.fit ≤ q.fit) := ⟨fun p q => le_total _ _⟩
    haveI : IsTrans (Agent α) (fun p q => p.fit ≤ q.fit) :=
      ⟨fun p q r h1 h2 => le_trans h1 h2⟩
    refine ⟨l.insertionSort (fun p q => p.fit ≤ q.fit), List.perm_insertionSort _ _, ?_⟩
    have h := List.sorted_insertionSort (fun p q : Agent α => p.fit ≤ q.fit) l
    exact h.imp (fun {p q} hpq => (CompareForQSort_le_zero p q).mpr hpq)

/-- C14, witness: agents with fitness `1`, `3`, `2` are ranked `1`, `2`, `3`. -/
theorem C14_CompareForQSort_total_order_witness :
    ([exRanked[0], exRanked[2], exRanked[1]].map Agent.fit).Pairwise (· ≤ ·) ∧
      [exRanked[0], exRanked[2], exRanked[1]].map Agent.fit = [1, 2, 3] ∧
      (exRanked.map Agent.fit).insertionSort (· ≤ ·) = [1, 2, 3] := by
  have h := (C14_CompareForQSort_total_order exRanked[0] exRanked[1] exRanked[2]).2.2.2.2.2.2.1
    exRanked [exRanked[0], exRanked[2], exRanked[1]]
    (by simp only [exRanked]; exact (List.Perm.swap _ _ _).cons _)
    (by simp [exRanked, CompareForQSort, exPsoAgent]; norm_num)
  refine ⟨h.1, rfl, ?_⟩
  rw [← h.2]
  rfl


/-! ## `CreateAgent` and `CopyAgent` -/

theorem Recognized_pos (ids : OptIds) (hpos : ids.Positive) (opt_id : Int)
    (h : ids.Recognized opt_id) : 1 ≤ opt_id := by
  obtain ⟨h1, h2, h3, h4, h5, h6⟩ := hpos
  rcases h with h | h | h | h | h | h <;> rw [h] <;> assumption

theorem Recognized_of_vector (ids : OptIds) (opt_id : Int)
    (h : opt_id = ids._PSO_ ∨ opt_id = ids._BA_ ∨ opt_id = ids._FPA_ ∨
      opt_id = ids._FA_ ∨ opt_id = ids._GA_) : ids.Recognized opt_id := by
  unfold OptIds.Recognized
  tauto

theorem vector_of_Recognized (ids : OptIds) (opt_id : Int) (h : ids.Recognized opt_id)
    (hgp : opt_id ≠ ids._GP_) :
    opt_id = ids._PSO_ ∨ opt_id = ids._BA_ ∨ opt_id = ids._FPA_ ∨
      opt_id = ids._FA_ ∨ opt_id = ids._GA_ := by
  unfold OptIds.Recognized at h
  tauto

/-- `CreateAgent` succeeds on `n ≥ 1` and a recognized positive tag. -/
theorem CreateAgent_ok {α : Type} [Zero α] (ids : OptIds) (DBL_MAX : α) (n opt_id : Int)
    (hn : 1 ≤ n) (hopt : 1 ≤ opt_id) (hrec : ids.Recognized opt_id) :
    CreateAgent ids DBL_MAX n opt_id = some
      { n := n
        x := List.replicate n.toNat 0
        v := if opt_id ≠ ids._GP_ then some (List.replicate n.toNat 0) else none
        xl := if opt_id = ids._PSO_ then some (List.replicate n.toNat 0) else none
        fit := DBL_MAX
        pfit := DBL_MAX } := by
  have h1 : ¬ (n < 1 ∨ opt_id < 1) := by omega
  unfold OptIds.Recognized at hrec
  simp only [CreateAgent, h1, if_false, hrec, if_true, calloc_of_nonneg n (by omega)]

/-- `CreateAgent` fails exactly on `n < 1`, a tag below `1` or a tag outside
its `switch`. -/
theorem CreateAgent_eq_none {α : Type} [Zero α] (ids : OptIds) (DBL_MAX : α)
    (n opt_id : Int) :
    CreateAgent ids DBL_MAX n opt_id = none ↔
      (n < 1 ∨ opt_id < 1 ∨ ¬ ids.Recognized opt_id) := by
  unfold CreateAgent OptIds.Recognized
  by_cases h1 : n < 1 ∨ opt_id < 1
  · simp only [h1, if_true, true_iff]
    tauto
  · by_cases h2 : opt_id = ids._PSO_ ∨ opt_id = ids._BA_ ∨ opt_id = ids._FPA_ ∨
        opt_id = ids._FA_ ∨ opt_id = ids._GA_ ∨ opt_id = ids._GP_
    · simp only [h1, if_false, h2, if_true, not_true_eq_false, or_false]
      constructor
      · intro h; exact absurd h (by simp)
      · intro h; exact absurd (by tauto) h1
    · simp only [h1, if_false, h2, not_false_eq_true, or_true]

theorem memcpyDoubles_eq {α : Type} (dst src : List α) (n : Int)
    (hd : (dst.length : Int) = n) (hs : (src.length : Int) = n) :
    memcpyDoubles dst src n = .ok src := by
  have h0 : ¬ n < 0 := by omega
  have h1 : n.toNat = src.length := by omega
  have h2 : n.toNat = dst.length := by omega
  have h3 : n.toNat ≤ src.length ∧ n.toNat ≤ dst.length := by omega
  simp only [memcpyDoubles, h0, if_false, h3, and_self, if_true]
  rw [h1, List.take_length, ← h1, h2, List.drop_length, List.append_nil]

theorem memcpyP_eq {α : Type} (dst src : List α) (n : Int)
    (hd : (dst.length : Int) = n) (hs : (src.length : Int) = n) :
    memcpyP (some dst) (some src) n = .ok (some src) := by
  simp only [memcpyP, memcpyDoubles_eq dst src n hd hs]

/-- An unrecognized tag sends `CopyAgent` into `DestroyAgent` with the `NULL`
pointer `CreateAgent` returned. -/
theorem CopyAgent_unrecognized {α : Type} [Zero α] (ids : OptIds) (DBL_MAX : α)
    (a : Agent α) (opt_id : Int) (h : ¬ ids.Recognized opt_id) :
    CopyAgent ids DBL_MAX a opt_id = .error .fatalExit := by
  have hv : ¬ (opt_id = ids._PSO_ ∨ opt_id = ids._BA_ ∨ opt_id = ids._FPA_ ∨
      opt_id = ids._FA_ ∨ opt_id = ids._GA_) :=
    fun hv => h (Recognized_of_vector ids opt_id hv)
  have hc : CreateAgent ids DBL_MAX a.n opt_id = none :=
    (CreateAgent_eq_none ids DBL_MAX a.n opt_id).mpr (Or.inr (Or.inr h))
  simp only [CopyAgent, hv, if_false, hc, DestroyAgent]

/-- `CopyAgent` on the tree technique: the fresh agent is destroyed again and
`NULL` is returned. -/
theorem CopyAgent_GP {α : Type} [Zero α] (ids : OptIds) (DBL_MAX : α) (a : Agent α)
    (hn : 1 ≤ a.n) (hgp : 1 ≤ ids._GP_) :
    CopyAgent ids DBL_MAX a ids._GP_ = .ok (a, none) := by
  have hv : ¬ (ids._GP_ = ids._PSO_ ∨ ids._GP_ = ids._BA_ ∨ ids._GP_ = ids._FPA_ ∨
      ids._GP_ = ids._FA_ ∨ ids._GP_ = ids._GA_) :=
    fun hv => vector_not_GP ids ids._GP_ hv rfl
  have hc := CreateAgent_ok ids DBL_MAX a.n ids._GP_ hn hgp
    (by unfold OptIds.Recognized; tauto)
  simp only [CopyAgent, hv, if_false, hc, DestroyAgent]

/-- `CopyAgent` on a vector technique: the new agent has the cells of the
source and the initial fitness. -/
theorem CopyAgent_vector {α : Type} [Zero α] (ids : OptIds) (DBL_MAX : α) (a : Agent α)
    (opt_id : Int) (hopt : 1 ≤ opt_id)
    (hv : opt_id = ids._PSO_ ∨ opt_id = ids._BA_ ∨ opt_id = ids._FPA_ ∨
      opt_id = ids._FA_ ∨ opt_id = ids._GA_)
    (ha : CreatedFor ids opt_id a) :
    CopyAgent ids DBL_MAX a opt_id = .ok (a, some
      { n := a.n, x := a.x, v := a.v, xl := a.xl, fit := DBL_MAX, pfit := DBL_MAX }) := by
  obtain ⟨hn, hx, hva, hxla⟩ := ha
  have hgp := vector_not_GP ids opt_id hv
  rw [if_pos hgp] at hva
  obtain ⟨v, hv1, hv2⟩ := hva
  have hc := CreateAgent_ok ids DBL_MAX a.n opt_id hn hopt (Recognized_of_vector ids opt_id hv)
  have hrep : ((List.replicate a.n.toNat (0 : α)).length : Int) = a.n := by
    rw [List.length_replicate]; omega
  by_cases hp : opt_id = ids._PSO_
  · rw [if_pos hp] at hxla
    obtain ⟨xl, hxl1, hxl2⟩ := hxla
    unfold CopyAgent
    simp only [hc, if_pos hv, if_pos hgp, if_pos hp, memcpyDoubles_eq _ a.x a.n hrep hx,
      hv1, memcpyP_eq _ v a.n hrep hv2, hxl1, memcpyP_eq _ xl a.n hrep hxl2]
  · rw [if_neg hp] at hxla
    unfold CopyAgent
    simp only [hc, if_pos hv, if_pos hgp, if_neg hp, memcpyDoubles_eq _ a.x a.n hrep hx,
      hv1, memcpyP_eq _ v a.n hrep hv2, hxla]


theorem exIds_positive : exIds.Positive := by
  unfold OptIds.Positive
  decide

/-- C15 (counterexample): for the tree technique `CopyAgent` returns `NULL`,
both on the agent `CreateAgent(3, _GP_)` returns and on that agent with the
cells `[1, 2, 3]`. -/
theorem C15_counterexample :
    CreateAgent exIds (1000 : ℚ) 3 exIds._GP_ = some { exGPAgent with x := [0, 0, 0] } ∧
      CopyAgent exIds 1000 { exGPAgent with x := [0, 0, 0] } exIds._GP_
        = .ok ({ exGPAgent with x := [0, 0, 0] }, none) ∧
      CopyAgent exIds 1000 exGPAgent exIds._GP_ = .ok (exGPAgent, none) :=
  ⟨rfl, rfl, rfl⟩

/-- C15 (amended): for `_PSO_`, `_BA_`, `_FPA_`, `_FA_`, `_GA_` and an agent of
the shape `CreateAgent` gives for that technique, `CopyAgent` returns a new
agent of the same shape and dimension whose `x`, `v` and `xl` equal the
source's, and leaves the source as it was; for `_GP_` it returns `NULL`. -/
theorem C15_CopyAgent_vector_techniques {α : Type} [Zero α] (ids : OptIds) (DBL_MAX : α)
    (a : Agent α) (opt_id : Int) (hpos : ids.Positive) (ha : CreatedFor ids opt_id a) :
    (opt_id = ids._PSO_ ∨ opt_id = ids._BA_ ∨ opt_id = ids._FPA_ ∨
        opt_id = ids._FA_ ∨ opt_id = ids._GA_ →
      ∃ cpy, CopyAgent ids DBL_MAX a opt_id = .ok (a, some cpy) ∧
        cpy.n = a.n ∧ cpy.x = a.x ∧ cpy.v = a.v ∧ cpy.xl = a.xl ∧
        CreatedFor ids opt_id cpy) ∧
    (opt_id = ids._GP_ → CopyAgent ids DBL_MAX a opt_id = .ok (a, none)) := by
  constructor
  · intro hv
    have hopt := Recognized_pos ids hpos opt_id (Recognized_of_vector ids opt_id hv)
    exact ⟨_, CopyAgent_vector ids DBL_MAX a opt_id hopt hv ha, rfl, rfl, rfl, rfl, ha⟩
  · intro hgp
    subst hgp
    exact CopyAgent_GP ids DBL_MAX a ha.1 hpos.2.2.2.2.2

/-- C15 (amended), witness: a particle-swarm agent of dimension 2. -/
theorem C15_CopyAgent_vector_techniques_witness :
    ((1 : Int) = exIds._PSO_ ∨ (1 : Int) = exIds._BA_ ∨ (1 : Int) = exIds._FPA_ ∨
        (1 : Int) = exIds._FA_ ∨ (1 : Int) = exIds._GA_ →
      ∃ cpy, CopyAgent exIds (1000 : ℚ) exPsoAgent 1 = .ok (exPsoAgent, some cpy) ∧
        cpy.n = exPsoAgent.n ∧ cpy.x = exPsoAgent.x ∧ cpy.v = exPsoAgent.v ∧
        cpy.xl = exPsoAgent.xl ∧ CreatedFor exIds 1 cpy) ∧
    ((1 : Int) = exIds._GP_ → CopyAgent exIds (1000 : ℚ) exPsoAgent 1 = .ok (exPsoAgent, none)) :=
  C15_CopyAgent_vector_techniques exIds 1000 exPsoAgent 1 exIds_positive
    ⟨by decide, rfl, ⟨[1, -1], rfl, rfl⟩, ⟨[5, 6], rfl, rfl⟩⟩

/-- C16 (code defect): with the unrecognized tags `99` and `0`, `CopyAgent` on
an allocated agent hands the `NULL` pointer `CreateAgent` returned to
`DestroyAgent`, which ends the program with `exit(-1)`; `NULL` is not
returned. -/
theorem C16_CopyAgent_unrecognized_exits :
    ¬ exIds.Recognized 99 ∧ ¬ exIds.Recognized 0 ∧
      CreateAgent exIds (1000 : ℚ) exPsoAgent.n 99 = none ∧
      DestroyAgent (none : Option (Agent ℚ)) 99 = .error .fatalExit ∧
      CopyAgent exIds (1000 : ℚ) exPsoAgent 99 = .error .fatalExit ∧
      CopyAgent exIds (1000 : ℚ) exPsoAgent 0 = .error .fatalExit := by
  refine ⟨by unfold OptIds.Recognized; decide, by unfold OptIds.Recognized; decide,
    rfl, rfl, rfl, rfl⟩

/-- C17: for `n ≥ 1` and a recognized tag, `CreateAgent` returns an agent of
dimension `n` whose `x` has exactly `n` cells, whose `v` is a block of `n` cells
exactly when the technique is not `_GP_`, and whose `xl` is a block of `n` cells
exactly when the technique is `_PSO_`. -/
theorem C17_CreateAgent_fields {α : Type} [Zero α] (ids : OptIds) (DBL_MAX : α)
    (n opt_id : Int) (hpos : ids.Positive) (hn : 1 ≤ n) (hrec : ids.Recognized opt_id) :
    ∃ a, CreateAgent ids DBL_MAX n opt_id = some a ∧ a.n = n ∧
      (a.x.length : Int) = n ∧
      ((∃ v, a.v = some v ∧ (v.length : Int) = n) ↔ opt_id ≠ ids._GP_) ∧
      (a.v = none ↔ opt_id = ids._GP_) ∧
      ((∃ xl, a.xl = some xl ∧ (xl.length : Int) = n) ↔ opt_id = ids._PSO_) ∧
      (a.xl = none ↔ opt_id ≠ ids._PSO_) := by
  have hlen : ((List.replicate n.toNat (0 : α)).length : Int) = n := by
    rw [List.length_replicate]; omega
  refine ⟨_, CreateAgent_ok ids DBL_MAX n opt_id hn (Recognized_pos ids hpos opt_id hrec) hrec,
    rfl, hlen, ?_, ?_, ?_, ?_⟩
  · by_cases h : opt_id = ids._GP_
    · simp [h]
    · simp only [ne_eq, h, not_false_eq_true, if_true, iff_true]
      exact ⟨_, rfl, hlen⟩
  · by_cases h : opt_id = ids._GP_
    · simp [h]
    · simp [h]
  · by_cases h : opt_id = ids._PSO_
    · simp only [h, if_true, iff_true]
      exact ⟨_, rfl, hlen⟩
    · simp [h]
  · by_cases h : opt_id = ids._PSO_
    · simp [h]
    · simp [h]

/-- C17, witness: `CreateAgent(2, _PSO_)`. -/
theorem C17_CreateAgent_fields_witness :
    ∃ a, CreateAgent exIds (1000 : ℚ) 2 1 = some a ∧ a.n = 2 ∧
      (a.x.length : Int) = 2 ∧
      ((∃ v, a.v = some v ∧ (v.length : Int) = 2) ↔ (1 : Int) ≠ exIds._GP_) ∧
      (a.v = none ↔ (1 : Int) = exIds._GP_) ∧
      ((∃ xl, a.xl = some xl ∧ (xl.length : Int) = 2) ↔ (1 : Int) = exIds._PSO_) ∧
      (a.xl = none ↔ (1 : Int) ≠ exIds._PSO_) :=
  C17_CreateAgent_fields exIds 1000 2 1 exIds_positive (by decide) (Or.inl rfl)


/-! ## Construction failures -/

/-- On a tag other than `_GP_`, `CreateSearchSpace` returns without a fault,
and returns `NULL` exactly when a size is below `1`, the tag is below `1` or
`CreateAgent` rejects the tag. -/
theorem CreateSearchSpace_vector_result {α : Type} [Zero α] (ids : OptIds) (DBL_MAX : α)
    (rnd : Draws) (fuel : Nat) (raw : SearchSpace α) (junkLB junkUB : Nat → α)
    (m n opt_id : Int) (extra : GPArgs α) (k : Nat) (hgp : opt_id ≠ ids._GP_) :
    ∃ r, CreateSearchSpace ids DBL_MAX rnd fuel raw junkLB junkUB m n opt_id extra k
        = .ok (r, k) ∧
      (r = none ↔ (m < 1 ∨ n < 1 ∨ opt_id < 1 ∨ ¬ ids.Recognized opt_id)) := by
  by_cases h1 : m < 1 ∨ n < 1 ∨ opt_id < 1
  · refine ⟨none, by simp only [CreateSearchSpace, h1, if_true], ?_⟩
    simp only [true_iff]
    tauto
  · cases ha : CreateAgent ids DBL_MAX n opt_id with
    | none =>
      refine ⟨none, by simp only [CreateSearchSpace, h1, if_false, hgp, ne_eq,
        not_false_eq_true, if_true, ha], ?_⟩
      simp only [true_iff]
      have h2 := (CreateAgent_eq_none ids DBL_MAX n opt_id).mp ha
      tauto
    | some a0 =>
      have hrec : ids.Recognized opt_id := by
        by_contra hc
        have h2 := (CreateAgent_eq_none ids DBL_MAX n opt_id).mpr (Or.inr (Or.inr hc))
        rw [ha] at h2
        exact absurd h2 (by simp)
      have hv := vector_of_Recognized ids opt_id hrec hgp
      obtain ⟨j, hj⟩ : ∃ j, m.toNat = j + 1 := ⟨m.toNat - 1, by omega⟩
      have hloop := forLoop_store (some a0) (List.replicate j (none : Option (Agent α)))
        [some a0]
      simp only [List.length_replicate, List.length_singleton, List.singleton_append] at hloop
      refine ⟨some { raw with
          m := m, n := n, gfit := DBL_MAX
          a := some a0 :: List.replicate j (some a0)
          g := calloc n
          LB := mallocDoubles junkLB n
          UB := mallocDoubles junkUB n }, ?_, ?_⟩
      · simp only [CreateSearchSpace, h1, if_false, hgp, ne_eq, not_false_eq_true, if_true,
          ha, hj, List.replicate_succ, List.set_cons_zero, Nat.add_sub_cancel, hloop, hv]
      · constructor
        · intro h; exact absurd h (by simp)
        · intro h
          rcases h with h | h | h | h
          · exact absurd (Or.inl h) h1
          · exact absurd (Or.inr (Or.inl h)) h1
          · exact absurd (Or.inr (Or.inr h)) h1
          · exact absurd hrec h

/-- C18: with positive technique identifiers, `CreateAgent(n, opt_id)` returns
`NULL` exactly when `n < 1` or the tag is not recognized, for every tag (`_GP_`
included), and `CreateSearchSpace(m, n, opt_id)` on a tag other than `_GP_`
returns `NULL` exactly when `m < 1`, `n < 1` or the tag is not recognized. -/
theorem C18_construction_fails_iff_invalid {α : Type} [Zero α] (ids : OptIds)
    (DBL_MAX : α) (rnd : Draws) (fuel : Nat) (raw : SearchSpace α)
    (junkLB junkUB : Nat → α) (m n opt_id : Int) (extra : GPArgs α) (k : Nat)
    (hpos : ids.Positive) :
    (CreateAgent ids DBL_MAX n opt_id = none ↔ (n < 1 ∨ ¬ ids.Recognized opt_id)) ∧
    (opt_id ≠ ids._GP_ →
      ∃ r, CreateSearchSpace ids DBL_MAX rnd fuel raw junkLB junkUB m n opt_id extra k
          = .ok (r, k) ∧
        (r = none ↔ (m < 1 ∨ n < 1 ∨ ¬ ids.Recognized opt_id))) := by
  have hlow : opt_id < 1 → ¬ ids.Recognized opt_id := by
    intro h hr
    have := Recognized_pos ids hpos opt_id hr
    omega
  constructor
  · rw [CreateAgent_eq_none]
    tauto
  · intro hgp
    obtain ⟨r, hr, hiff⟩ := CreateSearchSpace_vector_result ids DBL_MAX rnd fuel raw junkLB
      junkUB m n opt_id extra k hgp
    refine ⟨r, hr, ?_⟩
    rw [hiff]
    tauto

/-- C18, witness: the unrecognized tag `99` with valid sizes, and `CreateAgent` on
the recognized tag `_GP_` (`6`). -/
theorem C18_construction_fails_iff_invalid_witness :
    ((CreateAgent exIds (1000 : ℚ) 2 99 = none ↔ ((2 : Int) < 1 ∨ ¬ exIds.Recognized 99)) ∧
      ∃ r, CreateSearchSpace exIds (1000 : ℚ) exDrawLow 0 exBox (fun _ => 0) (fun _ => 1)
          2 2 99 exGPArgs 0 = .ok (r, 0) ∧
        (r = none ↔ ((2 : Int) < 1 ∨ (2 : Int) < 1 ∨ ¬ exIds.Recognized 99))) ∧
      (CreateAgent exIds (1000 : ℚ) 2 6 = none ↔ ((2 : Int) < 1 ∨ ¬ exIds.Recognized 6)) :=
  ⟨⟨(C18_construction_fails_iff_invalid exIds 1000 exDrawLow 0 exBox (fun _ => 0)
        (fun _ => 1) 2 2 99 exGPArgs 0 exIds_positive).1,
      (C18_construction_fails_iff_invalid exIds 1000 exDrawLow 0 exBox (fun _ => 0)
        (fun _ => 1) 2 2 99 exGPArgs 0 exIds_positive).2 (by decide)⟩,
    (C18_construction_fails_iff_invalid exIds (1000 : ℚ) exDrawLow 0 exBox (fun _ => 0)
      (fun _ => 1) 2 2 6 exGPArgs 0 exIds_positive).1⟩

/-- The two sides at the tag `_GP_`: `CreateAgent(2, _GP_)` returns an agent, and
`_GP_` is a recognized tag. -/
theorem CreateAgent_GP_example :
    (CreateAgent exIds (1000 : ℚ) 2 6).isSome = true ∧ exIds.Recognized 6 :=
  ⟨rfl, by simp [OptIds.Recognized, exIds]⟩

/-! ## `GenerateNewAgent` -/

theorem generateBody_loop {α : Type} [Field α] (unif : Uniform α) (s : SearchSpace α) :
    ∀ (gtodo pre rest gpre : List α) (k : Nat) (ag : Agent α),
      s.g = some (gpre ++ gtodo) → gpre.length = pre.length →
      rest.length = gtodo.length →
      forLoop (generateBody unif s) gtodo.length pre.length
          (some { ag with x := pre ++ rest }, k)
        = .ok (some { ag with x := pre ++ batWalk unif k gtodo }, k + gtodo.length) := by
  intro gtodo
  induction gtodo with
  | nil =>
    intro pre rest gpre k ag _ _ hr
    cases rest with
    | nil => simp [forLoop, batWalk]
    | cons r rs => simp at hr
  | cons gj gs ih =>
    intro pre rest gpre k ag hg hl hr
    cases rest with
    | nil => simp at hr
    | cons r rs =>
      have hrd : rdP s.g pre.length = .ok gj := by
        rw [hg, ← hl]
        simp only [rdP, rd_mid]
      have h := ih (pre ++ [gj + 0.001 * unif k 0 1]) rs (gpre ++ [gj]) (k + 1) ag
        (by simp [hg]) (by simp [hl]) (by simpa using hr)
      simp only [List.length_append, List.length_singleton, List.append_assoc,
        List.singleton_append] at h
      simp only [List.length_cons, forLoop, generateBody, hrd, wr_mid,
        GenerateUniformRandomNumber, batWalk]
      rw [h]
      congr 2
      omega

theorem batWalk_length {α : Type} [Field α] (unif : Uniform α) :
    ∀ (g : List α) (k : Nat), (batWalk unif k g).length = g.length
  | [], _ => rfl
  | _ :: g, k => by simp [batWalk, batWalk_length unif g (k + 1)]

theorem batWalk_getElem? {α : Type} [Field α] (unif : Uniform α) :
    ∀ (g : List α) (k j : Nat) (gj : α), g[j]? = some gj →
      (batWalk unif k g)[j]? = some (gj + 0.001 * unif (k + j) 0 1)
  | [], _, _, _, h => by simp at h
  | g0 :: g, k, 0, gj, h => by
    simp only [List.getElem?_cons_zero, Option.some.injEq] at h
    simp [batWalk, h]
  | g0 :: g, k, j + 1, gj, h => by
    simp only [List.getElem?_cons_succ] at h
    have h1 := batWalk_getElem? unif g (k + 1) j gj h
    simp only [batWalk, List.getElem?_cons_succ, h1]
    congr 4
    omega

theorem BA_ne_PSO (ids : OptIds) : ids._BA_ ≠ ids._PSO_ := by
  have h := ids.distinct
  simp only [List.nodup_cons, List.mem_cons, List.mem_singleton, not_or] at h
  intro h1
  exact h.1.1 h1.symm

theorem vector_not_BA (ids : OptIds) (opt_id : Int)
    (h : opt_id = ids._PSO_ ∨ opt_id = ids._FPA_ ∨ opt_id = ids._FA_ ∨ opt_id = ids._GA_) :
    opt_id ≠ ids._BA_ := by
  have hd := ids.distinct
  simp only [List.nodup_cons, List.mem_cons, List.mem_singleton, not_or] at hd
  rcases h with h | h | h | h <;> rw [h] <;> tauto

/-- C19: for the bat algorithm, `GenerateNewAgent` returns a new agent of
dimension `n` with `x[j] = g[j] + 0.001 * u_j`, `u_j` the `j`-th uniform draw
from `[0, 1]`, hence `g[j] ≤ x[j] ≤ g[j] + 0.001`; for `_PSO_`, `_FPA_`, `_FA_`
and `_GA_` it returns `NULL`; the search space is the same after the call. -/
theorem C19_GenerateNewAgent {α : Type} [LinearOrderedField α] (ids : OptIds)
    (DBL_MAX : α) (unif : Uniform α) (s : SearchSpace α) (k : Nat) (g : List α)
    (hr : unif.InRange) (hba : 1 ≤ ids._BA_) (hn : 1 ≤ s.n) (hg : s.g = some g)
    (hlen : (g.length : Int) = s.n) :
    (∃ a, GenerateNewAgent ids DBL_MAX unif s ids._BA_ k = .ok (s, some a, k + s.n.toNat) ∧
      a.n = s.n ∧ (a.x.length : Int) = s.n ∧
      ∀ (j : Nat) (gj : α), g[j]? = some gj →
        a.x[j]? = some (gj + 0.001 * unif (k + j) 0 1) ∧
          gj ≤ gj + 0.001 * unif (k + j) 0 1 ∧
          gj + 0.001 * unif (k + j) 0 1 ≤ gj + 0.001) ∧
    (∀ opt_id : Int,
      opt_id = ids._PSO_ ∨ opt_id = ids._FPA_ ∨ opt_id = ids._FA_ ∨ opt_id = ids._GA_ →
      GenerateNewAgent ids DBL_MAX unif s opt_id k = .ok (s, none, k)) := by
  constructor
  · have hc := CreateAgent_ok ids DBL_MAX s.n ids._BA_ hn hba
      (by unfold OptIds.Recognized; tauto)
    have hnat : s.n.toNat = g.length := by omega
    have hloop := generateBody_loop unif s g [] (List.replicate s.n.toNat 0) [] k
      { n := s.n
        x := []
        v := if ids._BA_ ≠ ids._GP_ then some (List.replicate s.n.toNat 0) else none
        xl := if ids._BA_ = ids._PSO_ then some (List.replicate s.n.toNat 0) else none
        fit := DBL_MAX
        pfit := DBL_MAX }
      (by simpa using hg) rfl (by rw [List.length_replicate, hnat])
    simp only [List.length_nil, List.nil_append] at hloop
    refine ⟨{ n := s.n
              x := batWalk unif k g
              v := if ids._BA_ ≠ ids._GP_ then some (List.replicate s.n.toNat 0) else none
              xl := if ids._BA_ = ids._PSO_ then some (List.replicate s.n.toNat 0) else none
              fit := DBL_MAX
              pfit := DBL_MAX }, ?_, ?_, ?_, ?_⟩
    · rw [← hnat] at hloop
      unfold GenerateNewAgent
      rw [if_neg (BA_ne_PSO ids), if_pos rfl, hc, hloop]
    · rfl
    · show ((batWalk unif k g).length : Int) = s.n
      rw [batWalk_length]; exact hlen
    · intro j gj hj
      obtain ⟨h0, h1⟩ := hr (k + j) 0 1 zero_le_one
      refine ⟨batWalk_getElem? unif g k j gj hj, ?_, ?_⟩
      · have : (0 : α) ≤ 0.001 * unif (k + j) 0 1 := mul_nonneg (by norm_num) h0
        linarith
      · have : (0.001 : α) * unif (k + j) 0 1 ≤ 0.001 * 1 :=
          mul_le_mul_of_nonneg_left h1 (by norm_num)
        linarith
  · intro opt_id hopt
    have hnb := vector_not_BA ids opt_id hopt
    unfold GenerateNewAgent
    by_cases h1 : opt_id = ids._PSO_
    · rw [if_pos h1]
    · rw [if_neg h1, if_neg hnb]
      by_cases h2 : opt_id = ids._FPA_
      · rw [if_pos h2]
      · rw [if_neg h2]
        by_cases h3 : opt_id = ids._FA_
        · rw [if_pos h3]
        · rw [if_neg h3]
          by_cases h4 : opt_id = ids._GA_
          · rw [if_pos h4]
          · rw [if_neg h4]

theorem exUnifMid_inRange : exUnifMid.InRange := by
  intro k low high h
  unfold exUnifMid
  constructor <;> linarith

/-- C19, witness: the search space `exSwarm` (`g = [0, 0]`) and draws that
return `1/2`. -/
theorem C19_GenerateNewAgent_witness :
    (∃ a, GenerateNewAgent exIds (1000 : ℚ) exUnifMid exSwarm exIds._BA_ 0
        = .ok (exSwarm, some a, 0 + exSwarm.n.toNat) ∧
      a.n = exSwarm.n ∧ (a.x.length : Int) = exSwarm.n ∧
      ∀ (j : Nat) (gj : ℚ), [(0 : ℚ), 0][j]? = some gj →
        a.x[j]? = some (gj + 0.001 * exUnifMid (0 + j) 0 1) ∧
          gj ≤ gj + 0.001 * exUnifMid (0 + j) 0 1 ∧
          gj + 0.001 * exUnifMid (0 + j) 0 1 ≤ gj + 0.001) ∧
    (∀ opt_id : Int,
      opt_id = exIds._PSO_ ∨ opt_id = exIds._FPA_ ∨ opt_id = exIds._FA_ ∨
        opt_id = exIds._GA_ →
      GenerateNewAgent exIds (1000 : ℚ) exUnifMid exSwarm opt_id 0 = .ok (exSwarm, none, 0)) :=
  C19_GenerateNewAgent exIds 1000 exUnifMid exSwarm 0 [0, 0] exUnifMid_inRange (by decide)
    (by decide) rfl rfl


/-! ## `GenerateLevyDistribution` -/

/-- A loop whose body keeps an invariant below the bound `N` runs to its end. -/
theorem forLoop_invariant {σ : Type} (body : Nat → σ → Except Fault σ) (N : Nat)
    (Inv : Nat → σ → Prop)
    (hstep : ∀ i st, i < N → Inv i st → ∃ st1, body i st = .ok st1 ∧ Inv (i + 1) st1) :
    ∀ (count i : Nat) (st : σ), i + count ≤ N → Inv i st →
      ∃ st1, forLoop body count i st = .ok st1 ∧ Inv (i + count) st1 := by
  intro count
  induction count with
  | zero => intro i st _ h; exact ⟨st, rfl, h⟩
  | succ count ih =>
    intro i st hle h
    obtain ⟨st1, hb, h1⟩ := hstep i st (by omega) h
    obtain ⟨st2, hl, h2⟩ := ih (i + 1) st1 (by omega) h1
    refine ⟨st2, ?_, ?_⟩
    · simp only [forLoop, hb, hl]
    · have : i + (count + 1) = i + 1 + count := by omega
      rw [this]; exact h2

theorem wr_ok {β : Type} (xs : List β) (i : Nat) (v : β) (h : i < xs.length) :
    wr xs i v = .ok (xs.set i v) := by
  simp only [wr, h, if_true]

theorem rd_ok {β : Type} (xs : List β) (i : Nat) (h : i < xs.length) :
    rd xs i = .ok xs[i] := by
  simp only [rd, List.getElem?_eq_getElem h]

theorem mallocDoubles_length {α : Type} (junk : Nat → α) (n : Int) :
    (mallocDoubles junk n).length = n.toNat := by
  simp [mallocDoubles]

/-- C20: whatever `beta`, the functions of `math.h` and the Gaussian draws are,
`GenerateLevyDistribution(n, beta)` returns a block of exactly `n` cells when
`n ≥ 1` (after `2n` draws) and `NULL` when `n < 1`. -/
theorem C20_GenerateLevyDistribution_length {α : Type} [Field α] (M : LibM α)
    (gauss : Gaussian α) (junkL junkU junkV : Nat → α) (n : Int) (beta : α) (k : Nat) :
    (1 ≤ n → ∃ L, GenerateLevyDistribution M gauss junkL junkU junkV n beta k
        = .ok (some L, k + 2 * n.toNat) ∧ (L.length : Int) = n) ∧
    (n < 1 → GenerateLevyDistribution M gauss junkL junkU junkV n beta k = .ok (none, k)) := by
  constructor
  · intro hn
    have h1 : ¬ n < 1 := by omega
    obtain ⟨st1, hloop1, hu, hv, hk⟩ := forLoop_invariant
      (fun i (st : List α × List α × Nat) =>
        match wr st.1 i (GenerateGaussianRandomNumber gauss st.2.2 0
            (M.pow (M.pow
              ((M.tgamma (1 + beta) * M.sin (M.M_PI * beta / 2)) /
                (M.tgamma ((1 + beta) / 2) * beta * M.pow 2 ((beta - 1) / 2)))
              (1 / beta)) 2)) with
        | .error e => .error e
        | .ok u1 =>
          match wr st.2.1 i (GenerateGaussianRandomNumber gauss (st.2.2 + 1) 0 1) with
          | .error e => .error e
          | .ok v1 => .ok (u1, v1, st.2.2 + 2))
      n.toNat
      (fun i st => st.1.length = n.toNat ∧ st.2.1.length = n.toNat ∧ st.2.2 = k + 2 * i)
      (by
        rintro i ⟨u, v, k0⟩ hi ⟨hu, hv, hk⟩
        simp only at hu hv hk
        have hiu : i < u.length := by omega
        have hiv : i < v.length := by omega
        simp only [wr, hiu, hiv, if_true]
        exact ⟨_, rfl, by simp only [List.length_set]; exact hu,
          by simp only [List.length_set]; exact hv, by show k0 + 2 = k + 2 * (i + 1); omega⟩)
      n.toNat 0 (mallocDoubles junkU n, mallocDoubles junkV n, k) (by omega)
      ⟨mallocDoubles_length _ _, mallocDoubles_length _ _, rfl⟩
    obtain ⟨u1, v1, k1⟩ := st1
    simp only at hu hv hk
    obtain ⟨L1, hloop2, hL⟩ := forLoop_invariant
      (fun i L1 =>
        match rd u1 i with
        | .error e => .error e
        | .ok ui =>
          match rd v1 i with
          | .error e => .error e
          | .ok vi => wr L1 i (0.01 * (ui / M.pow (M.fabs vi) (1 / beta))))
      n.toNat (fun _ (L1 : List α) => L1.length = n.toNat)
      (by
        intro i L1 hi hL
        have hiL : i < L1.length := by omega
        simp only [rd_ok u1 i (by omega), rd_ok v1 i (by omega), wr, hiL, if_true]
        exact ⟨_, rfl, by simp only [List.length_set]; exact hL⟩)
      n.toNat 0 (mallocDoubles junkL n) (by omega) (mallocDoubles_length _ _)
    refine ⟨L1, ?_, by omega⟩
    simp only [zero_add] at hk
    simp only [GenerateLevyDistribution, h1, if_false, hloop1, hloop2, hk]
  · intro hn
    simp only [GenerateLevyDistribution, hn, if_true]

/-- C20, witness: `n = 3` gives three cells, `n = 0` gives `NULL`. -/
theorem C20_GenerateLevyDistribution_length_witness :
    (∃ L, GenerateLevyDistribution exLibM exGauss (fun _ => 0) (fun _ => 0) (fun _ => 0)
        3 (3 / 2) 0 = .ok (some L, 0 + 2 * (3 : Int).toNat) ∧ (L.length : Int) = 3) ∧
    GenerateLevyDistribution exLibM exGauss (fun _ => 0) (fun _ => 0) (fun _ => 0)
        0 (3 / 2) 0 = .ok (none, 0) :=
  ⟨(C20_GenerateLevyDistribution_length exLibM exGauss (fun _ => 0) (fun _ => 0)
      (fun _ => 0) 3 (3 / 2) 0).1 (by decide),
    (C20_GenerateLevyDistribution_length exLibM exGauss (fun _ => 0) (fun _ => 0)
      (fun _ => 0) 0 (3 / 2) 0).2 (by decide)⟩

/-! ## `CopyAgent`: fitness bookkeeping -/

/-- C23: for `_PSO_`, `_BA_`, `_FPA_`, `_FA_`, `_GA_` and a source agent of the
shape of that technique, the agent `CopyAgent` returns has `fit` and `pfit`
equal to `DBL_MAX`, the values of the agent `CreateAgent` returns for the same
dimension and technique, whatever `fit` and `pfit` the source holds. -/
theorem C23_CopyAgent_resets_fitness {α : Type} [Zero α] (ids : OptIds) (DBL_MAX : α)
    (a : Agent α) (opt_id : Int) (hpos : ids.Positive)
    (hv : opt_id = ids._PSO_ ∨ opt_id = ids._BA_ ∨ opt_id = ids._FPA_ ∨
      opt_id = ids._FA_ ∨ opt_id = ids._GA_)
    (ha : CreatedFor ids opt_id a) :
    ∃ cpy c0, CopyAgent ids DBL_MAX a opt_id = .ok (a, some cpy) ∧
      CreateAgent ids DBL_MAX a.n opt_id = some c0 ∧
      cpy.fit = c0.fit ∧ cpy.pfit = c0.pfit ∧ cpy.fit = DBL_MAX ∧ cpy.pfit = DBL_MAX := by
  have hrec := Recognized_of_vector ids opt_id hv
  have hopt := Recognized_pos ids hpos opt_id hrec
  exact ⟨_, _, CopyAgent_vector ids DBL_MAX a opt_id hopt hv ha,
    CreateAgent_ok ids DBL_MAX a.n opt_id ha.1 hopt hrec, rfl, rfl, rfl, rfl⟩

/-- C23, witness: a particle-swarm agent with `fit = 7` and `pfit = 9`. -/
theorem C23_CopyAgent_resets_fitness_witness :
    ∃ cpy c0, CopyAgent exIds (1000 : ℚ) exPsoAgent 1 = .ok (exPsoAgent, some cpy) ∧
      CreateAgent exIds (1000 : ℚ) exPsoAgent.n 1 = some c0 ∧
      cpy.fit = c0.fit ∧ cpy.pfit = c0.pfit ∧ cpy.fit = 1000 ∧ cpy.pfit = 1000 :=
  C23_CopyAgent_resets_fitness exIds 1000 exPsoAgent 1 exIds_positive (Or.inl rfl)
    ⟨by decide, rfl, ⟨[1, -1], rfl, rfl⟩, ⟨[5, 6], rfl, rfl⟩⟩

/-! ## `GROW`: table indices and node ids -/

theorem rdI_getElem? {β : Type} (xs : List β) (i : Int) (v : β) (h : rdI xs i = .ok v) :
    0 ≤ i ∧ xs[i.toNat]? = some v := by
  unfold rdI at h
  split at h
  · simp at h
  · rename_i hi
    unfold rd at h
    split at h
    · rename_i w hw
      simp only [Except.ok.injEq] at h
      subst h
      exact ⟨by omega, hw⟩
    · simp at h

theorem growLeaf_validIds {α : Type} (rnd : Draws) (s : SearchSpace α) (aux : Int) (k : Nat)
    (hr : rnd.InRange) (htl : (s.terminal.length : Int) = s.n_terminals)
    (hc : "CONST" ∈ s.terminal → 1 ≤ s.n_constants)
    (h0 : 0 ≤ aux) (h1 : aux < s.n_terminals) :
    ∃ t k1, growLeaf rnd s aux k = .ok (t, k1) ∧ t ≠ .null ∧ t.ValidIds s := by
  obtain ⟨name, hname, hmem⟩ := rdI_ok s.terminal aux h0 (by omega)
  have hidx := rdI_getElem? _ _ _ hname
  by_cases hcn : name = "CONST"
  · have hnc : 1 ≤ s.n_constants := hc (hcn ▸ hmem)
    obtain ⟨h2, h3⟩ := hr k 0 (s.n_constants - 1) (by omega)
    refine ⟨CreateNode name (rnd k 0 (s.n_constants - 1)) .CONSTANT, k + 1, ?_, ?_, ?_⟩
    · simp only [growLeaf, hname, hcn, if_true]
    · simp [CreateNode]
    · simp only [CreateNode, Node.ValidIds, and_true]
      exact ⟨h2, by omega⟩
  · refine ⟨CreateNode name aux .TERMINAL, k, ?_, ?_, ?_⟩
    · simp only [growLeaf, hname, hcn, if_false]
    · simp [CreateNode]
    · simp only [CreateNode, Node.ValidIds, and_true]
      exact ⟨h0, h1, hidx.2, hcn⟩

theorem getFUNCTIONid_cases (name : String) :
    getFUNCTIONid name = .error .fatalExit ∨ name ∈ functionNames := by
  unfold getFUNCTIONid
  split_ifs <;> simp_all [functionNames]

theorem attachRight_validIds {α : Type} (s : SearchSpace α) (id : Int) (st : Status)
    (ls : Int) (el : String) (l r tmp : Node) (h : tmp ≠ .null) (hv : tmp.ValidIds s) :
    ∃ tmp1, attachRight (.mk id st ls el l r) tmp = .ok (.mk id st ls el l tmp1) ∧
      tmp1.ValidIds s := by
  cases tmp with
  | null => exact absurd rfl h
  | mk tid tst tls tel tl tr =>
    refine ⟨.mk tid tst 0 tel tl tr, rfl, ?_⟩
    simp only [Node.ValidIds] at hv ⊢
    exact hv

/-- With at least one terminal, tables of the announced sizes, a constant to
draw when `CONST` is a terminal, and draws inside their ranges, `GROW` either
returns a tree whose nodes all carry valid ids, or stops in `getFUNCTIONid` on
an unknown operator name, or exhausts its budget; no table access is out of
bounds. -/
theorem GROW_outcome {α : Type} (rnd : Draws) (s : SearchSpace α) (hr : rnd.InRange)
    (ht : 1 ≤ s.n_terminals) (htl : (s.terminal.length : Int) = s.n_terminals)
    (hfl : (s.function.length : Int) = s.n_functions)
    (hc : "CONST" ∈ s.terminal → 1 ≤ s.n_constants) :
    ∀ (fuel : Nat) (d maxD : Int) (k : Nat),
      (∃ t k1, GROW rnd s fuel d maxD k = .ok (t, k1) ∧ t ≠ .null ∧ t.ValidIds s) ∨
        GROW rnd s fuel d maxD k = .error .fatalExit ∨
        GROW rnd s fuel d maxD k = .error .outOfFuel := by
  have hF0 : 0 ≤ s.n_functions := by omega
  intro fuel
  induction fuel with
  | zero => intro d maxD k; exact Or.inr (Or.inr rfl)
  | succ fuel ih =>
    intro d maxD k
    by_cases heq : d = maxD
    · obtain ⟨h1, h2⟩ := hr k 0 (s.n_terminals - 1) (by omega)
      obtain ⟨t, k1, hg, hnn, hval⟩ :=
        growLeaf_validIds rnd s _ (k + 1) hr htl hc h1 (by omega)
      exact Or.inl ⟨t, k1, by simp only [GROW, heq, if_true, hg], hnn, hval⟩
    · obtain ⟨h1, h2⟩ := hr k 0 (s.n_functions + s.n_terminals - 1) (by omega)
      by_cases hge : rnd k 0 (s.n_functions + s.n_terminals - 1) ≥ s.n_functions
      · obtain ⟨t, k1, hg, hnn, hval⟩ := growLeaf_validIds rnd s
          (rnd k 0 (s.n_functions + s.n_terminals - 1) - s.n_functions) (k + 1)
          hr htl hc (by omega) (by omega)
        exact Or.inl ⟨t, k1, by simp only [GROW, heq, if_false, hge, if_true, hg], hnn, hval⟩
      · obtain ⟨name, hname, -⟩ := rdI_ok s.function
          (rnd k 0 (s.n_functions + s.n_terminals - 1)) h1 (by omega)
        have hidx := rdI_getElem? _ _ _ hname
        rcases getFUNCTIONid_cases name with herr | hknown
        · exact Or.inr (Or.inl (by simp only [GROW, heq, if_false, hge, hname, herr]))
        · obtain ⟨fid, nargs, hfid, hnargs, hcases⟩ := nargs_of_known name hknown
          rcases ih (d + 1) maxD (k + 1) with ⟨t0, k1, hg0, hn0, hv0⟩ | he0 | he0
          · have hleft := attachLeft_ok (rnd k 0 (s.n_functions + s.n_terminals - 1))
              .FUNCTION 1 name .null .null t0 hn0
            rcases hcases with h1a | h2a
            · refine Or.inl ⟨.mk (rnd k 0 (s.n_functions + s.n_terminals - 1)) .FUNCTION 1
                name t0 .null, k1, ?_, by simp, ?_⟩
              · simp only [GROW, heq, if_false, hge, hname, hfid, hnargs, h1a]
                simp only [Int.toNat_one, forLoop, hg0, if_true, CreateNode, hleft]
              · simp only [Node.ValidIds, and_true]
                exact ⟨⟨h1, by omega, hidx.2⟩, hv0⟩
            · rcases ih (d + 1) maxD k1 with ⟨t1, k2, hg1, hn1, hv1⟩ | he1 | he1
              · obtain ⟨t1a, hright, hv1a⟩ :=
                  attachRight_validIds s (rnd k 0 (s.n_functions + s.n_terminals - 1))
                    .FUNCTION 1 name t0 .null t1 hn1 hv1
                refine Or.inl ⟨.mk (rnd k 0 (s.n_functions + s.n_terminals - 1)) .FUNCTION 1
                  name t0 t1a, k2, ?_, by simp, ?_⟩
                · simp only [GROW, heq, if_false, hge, hname, hfid, hnargs, h2a]
                  simp only [show (2 : Int).toNat = 1 + 1 from rfl, forLoop, hg0, if_true,
                    CreateNode, hleft, hg1, zero_add, one_ne_zero, if_false, hright]
                · simp only [Node.ValidIds]
                  exact ⟨⟨h1, by omega, hidx.2⟩, hv0, hv1a⟩
              · refine Or.inr (Or.inl ?_)
                simp only [GROW, heq, if_false, hge, hname, hfid, hnargs, h2a]
                simp only [show (2 : Int).toNat = 1 + 1 from rfl, forLoop, hg0, if_true,
                  CreateNode, hleft, he1]
              · refine Or.inr (Or.inr ?_)
                simp only [GROW, heq, if_false, hge, hname, hfid, hnargs, h2a]
                simp only [show (2 : Int).toNat = 1 + 1 from rfl, forLoop, hg0, if_true,
                  CreateNode, hleft, he1]
          · refine Or.inr (Or.inl ?_)
            rcases hcases with h1a | h2a
            · simp only [GROW, heq, if_false, hge, hname, hfid, hnargs, h1a]
              simp only [Int.toNat_one, forLoop, he0]
            · simp only [GROW, heq, if_false, hge, hname, hfid, hnargs, h2a]
              simp only [show (2 : Int).toNat = 1 + 1 from rfl, forLoop, he0]
          · refine Or.inr (Or.inr ?_)
            rcases hcases with h1a | h2a
            · simp only [GROW, heq, if_false, hge, hname, hfid, hnargs, h1a]
              simp only [Int.toNat_one, forLoop, he0]
            · simp only [GROW, heq, if_false, hge, hname, hfid, hnargs, h2a]
              simp only [show (2 : Int).toNat = 1 + 1 from rfl, forLoop, he0]

/-- C22: for a search space with at least one terminal, symbol tables of the
announced sizes and at least one constant when the reserved name `CONST` is a
terminal, and draws inside their requested ranges, `GROW` never reads a table
out of bounds and never attaches a missing child; every tree it returns carries
valid ids on all its nodes (`TERMINAL`: `0 ≤ id < n_terminals`,
`elem = terminal[id]`, not `CONST`; `CONSTANT`: `0 ≤ id < n_constants`;
`FUNCTION`: `0 ≤ id < n_functions`, `elem = function[id]`); and when the function
names are known operators and `depth ≤ maxDepth`, a budget above
`maxDepth - depth` makes it return such a tree. -/
theorem C22_GROW_valid_ids {α : Type} (rnd : Draws) (s : SearchSpace α)
    (fuel : Nat) (d maxD : Int) (k : Nat) (hr : rnd.InRange)
    (ht : 1 ≤ s.n_terminals) (htl : (s.terminal.length : Int) = s.n_terminals)
    (hfl : (s.function.length : Int) = s.n_functions)
    (hc : "CONST" ∈ s.terminal → 1 ≤ s.n_constants) :
    GROW rnd s fuel d maxD k ≠ .error .outOfBounds ∧
      GROW rnd s fuel d maxD k ≠ .error .nullDeref ∧
      (∀ t k1, GROW rnd s fuel d maxD k = .ok (t, k1) → t.ValidIds s) ∧
      ((∀ name ∈ s.function, name ∈ functionNames) → d ≤ maxD →
        (maxD - d).toNat < fuel →
        ∃ t k1, GROW rnd s fuel d maxD k = .ok (t, k1) ∧ t.ValidIds s) := by
  have hout := GROW_outcome rnd s hr ht htl hfl hc fuel d maxD k
  refine ⟨?_, ?_, ?_, ?_⟩
  · rcases hout with ⟨t, k1, hg, -, -⟩ | he | he <;> simp [*]
  · rcases hout with ⟨t, k1, hg, -, -⟩ | he | he <;> simp [*]
  · intro t k1 h
    rcases hout with ⟨t0, k0, hg, -, hv⟩ | he | he
    · rw [hg] at h
      simp only [Except.ok.injEq, Prod.mk.injEq] at h
      rw [← h.1]
      exact hv
    · rw [he] at h; simp at h
    · rw [he] at h; simp at h
  · intro hknown hd hfuel
    obtain ⟨t, k1, hg, -, -⟩ := GROW_levels rnd s hr ⟨ht, htl, hfl, hknown⟩ fuel d maxD k
      hd hfuel
    rcases hout with ⟨t0, k0, hg0, -, hv⟩ | he | he
    · exact ⟨t0, k0, hg0, hv⟩
    · rw [he] at hg; simp at hg
    · rw [he] at hg; simp at hg

/-- C22, witness: `GROW(s, 0, 2)` over `exTreeSpace` (terminals `x0`, `x1`,
`CONST`; one constant; the operator `SUM`) with every draw at the lower end of
its range. -/
theorem C22_GROW_valid_ids_witness :
    GROW exDrawLow exTreeSpace 3 0 2 0 ≠ .error .outOfBounds ∧
      GROW exDrawLow exTreeSpace 3 0 2 0 ≠ .error .nullDeref ∧
      (∀ t k1, GROW exDrawLow exTreeSpace 3 0 2 0 = .ok (t, k1) → t.ValidIds exTreeSpace) ∧
      ((∀ name ∈ exTreeSpace.function, name ∈ functionNames) → (0 : Int) ≤ 2 →
        ((2 : Int) - 0).toNat < 3 →
        ∃ t k1, GROW exDrawLow exTreeSpace 3 0 2 0 = .ok (t, k1) ∧
          t.ValidIds exTreeSpace) :=
  C22_GROW_valid_ids exDrawLow exTreeSpace 3 0 2 0 exDrawLow_inRange (by decide)
    (by decide) (by decide) (fun _ => by decide)

/-- The tree grown in the witness of C22 is `exGrownTree`; with every draw at
the upper end the reserved terminal `CONST` gives a `CONSTANT` leaf. -/
theorem GROW_examples :
    GROW exDrawLow exTreeSpace 3 0 2 0 = .ok (exGrownTree, 7) ∧
      GROW exDrawHigh exTreeSpace 3 0 2 0 =
        .ok (.mk 0 .CONSTANT 1 "CONST" .null .null, 2) :=
  ⟨rfl, rfl⟩

/-! ## `RunTree`: batched and pointwise evaluation -/

theorem elementwisePrims_elementwise {α : Type} (ops : ScalarOps α) :
    (elementwisePrims ops).Elementwise ops := by
  constructor <;> intro x <;> intros <;>
    simp only [elementwisePrims, elementwise2, elementwise1, Option.some.injEq] <;>
    apply List.take_of_length_le <;>
    simp only [List.length_zipWith, List.length_map] <;> omega

theorem RunTree_terminal_not_some {α : Type} [Zero α] (P : Primitives α)
    (s : SearchSpace α) (id ls : Int) (elem : String) (v : List α) :
    RunTree P s (.mk id .TERMINAL ls elem .null .null) ≠ .ok (some v) := by
  intro h
  cases hk : s.n.toNat with
  | zero => simp [RunTree, hk, forLoop] at h
  | succ k =>
    simp only [RunTree, hk, forLoop] at h
    cases hag : rdAgent s.a id with
    | error e => simp [hag] at h
    | ok ag =>
      cases hx : rd ag.x 0 with
      | error e => simp [hag, hx] at h
      | ok c => simp [hag, hx, wrP] at h

theorem RunTree_constant_some {α : Type} [Zero α] (P : Primitives α)
    (s : SearchSpace α) (id ls : Int) (elem : String) (v : List α)
    (h : RunTree P s (.mk id .CONSTANT ls elem .null .null) = .ok (some v)) :
    ∀ i : Nat, (i : Int) < s.n → ∃ c,
      (if id < 0 then none else s.constant[id.toNat]?) = some c ∧ v[i]? = some c := by
  intro i hi
  have hn : 0 ≤ s.n := by omega
  cases hrd : rdI s.constant id with
  | error e =>
    obtain ⟨k, hk⟩ : ∃ k, s.n.toNat = k + 1 := ⟨s.n.toNat - 1, by omega⟩
    simp [RunTree, hk, forLoop, hrd] at h
  | ok c =>
    obtain ⟨h0, hc⟩ := rdI_getElem? _ _ _ hrd
    have hf := forLoop_fill (fun i out =>
        match rdI s.constant id with
        | .ok c => wrP out i c
        | .error e => .error e) c (by intro i out; simp [hrd])
        (List.replicate s.n.toNat (0 : α)) []
    simp only [List.length_replicate, List.length_nil, List.nil_append] at hf
    simp only [RunTree, calloc, not_lt.mpr hn, if_false] at h
    simp only [reduceCtorEq, or_true, if_true, hf, Except.ok.injEq, Option.some.injEq] at h
    refine ⟨c, by simp [not_lt.mpr h0, hc], ?_⟩
    rw [← h, List.getElem?_eq_getElem (by simp only [List.length_replicate]; omega)]
    simp

theorem binary_of_mem {α : Type} (ops : ScalarOps α) (elem : String)
    (h : elem ∈ ["SUM", "SUB", "MUL", "DIV"]) : ∃ f, ops.binary elem = some f := by
  simp only [List.mem_cons, List.mem_singleton, List.not_mem_nil, or_false] at h
  rcases h with rfl | rfl | rfl | rfl <;> exact ⟨_, rfl⟩

theorem unary_of_mem {α : Type} (ops : ScalarOps α) (elem : String)
    (h : elem ∈ ["EXP", "SQRT", "LOG"]) :
    ops.binary elem = none ∧ ∃ g, ops.unary elem = some g := by
  simp only [List.mem_cons, List.mem_singleton, List.not_mem_nil, or_false] at h
  rcases h with rfl | rfl | rfl <;> exact ⟨rfl, _, rfl⟩

theorem applyFunction_binary {α : Type} (P : Primitives α) (ops : ScalarOps α)
    (hP : P.Elementwise ops) (elem : String) (f : α → α → α)
    (hf : ops.binary elem = some f) (x y : List α) (n : Int)
    (hx : (x.length : Int) = n) (hy : (y.length : Int) = n) :
    applyFunction P elem (some x) (some y) n = some (List.zipWith f x y) := by
  unfold ScalarOps.binary at hf
  unfold applyFunction
  split_ifs at hf ⊢ <;> simp only [Option.some.injEq, reduceCtorEq] at hf <;> subst hf
  · exact hP.sum_eq x y n hx hy
  · exact hP.sub_eq x y n hx hy
  · exact hP.mul_eq x y n hx hy
  · exact hP.div_eq x y n hx hy

theorem applyFunction_unary_left {α : Type} (P : Primitives α) (ops : ScalarOps α)
    (hP : P.Elementwise ops) (elem : String) (g : α → α)
    (hg : ops.unary elem = some g) (x : List α) (y : Option (List α)) (n : Int)
    (hx : (x.length : Int) = n) :
    applyFunction P elem (some x) y n = some (x.map g) := by
  unfold ScalarOps.unary at hg
  split_ifs at hg with h1 h2 h3 <;> simp only [Option.some.injEq, reduceCtorEq] at hg <;>
    subst hg
  · subst h1; simpa [applyFunction] using hP.exp_eq x n hx
  · subst h2; simpa [applyFunction] using hP.sqrt_eq x n hx
  · subst h3; simpa [applyFunction] using hP.log_eq x n hx

theorem applyFunction_unary_right {α : Type} (P : Primitives α) (ops : ScalarOps α)
    (hP : P.Elementwise ops) (elem : String) (g : α → α)
    (hg : ops.unary elem = some g) (y : List α) (n : Int)
    (hy : (y.length : Int) = n) :
    applyFunction P elem none (some y) n = some (y.map g) := by
  unfold ScalarOps.unary at hg
  split_ifs at hg with h1 h2 h3 <;> simp only [Option.some.injEq, reduceCtorEq] at hg <;>
    subst hg
  · subst h1; simpa [applyFunction] using hP.exp_eq y n hy
  · subst h2; simpa [applyFunction] using hP.sqrt_eq y n hy
  · subst h3; simpa [applyFunction] using hP.log_eq y n hy

/-- Batched evaluation of a tree of the stated shape returns a vector of length
`n` whose components are the pointwise values of the expression. -/
theorem RunTree_batched {α : Type} [Zero α] (P : Primitives α) (ops : ScalarOps α)
    (s : SearchSpace α) (hP : P.Elementwise ops) :
    ∀ T : Node, T.Batched P s →
      ∃ out, RunTree P s T = .ok (some out) ∧ (out.length : Int) = s.n ∧
        ∀ i : Nat, (i : Int) < s.n →
          ∃ c, evalScalar ops s i T = some c ∧ out[i]? = some c := by
  intro T
  induction T with
  | null => intro h; simp [Node.Batched] at h
  | mk id st ls el l r ihl ihr =>
    intro hT
    cases st with
    | TERMINAL =>
      simp only [Node.Batched] at hT
      obtain ⟨rfl, rfl, v, hv, -⟩ := hT
      exact absurd hv (RunTree_terminal_not_some P s id ls el v)
    | CONSTANT =>
      simp only [Node.Batched] at hT
      obtain ⟨rfl, rfl, v, hv, hlen⟩ := hT
      refine ⟨v, hv, hlen, ?_⟩
      intro i hi
      obtain ⟨c, hc, hvi⟩ := RunTree_constant_some P s id ls el v hv i hi
      exact ⟨c, by simp only [evalScalar]; exact hc, hvi⟩
    | FUNCTION =>
      simp only [Node.Batched] at hT
      rcases hT with ⟨hel, hl, hr⟩ | ⟨hel, ⟨hl, rfl⟩ | ⟨rfl, hr⟩⟩
      · obtain ⟨f, hf⟩ := binary_of_mem ops el hel
        obtain ⟨x, hx, hxl, hxi⟩ := ihl hl
        obtain ⟨y, hy, hyl, hyi⟩ := ihr hr
        refine ⟨List.zipWith f x y, ?_, ?_, ?_⟩
        · simp [RunTree, hx, hy, applyFunction_binary P ops hP el f hf x y s.n hxl hyl]
        · simp only [List.length_zipWith]; omega
        · intro i hi
          obtain ⟨a, ha, hxa⟩ := hxi i hi
          obtain ⟨b, hb, hyb⟩ := hyi i hi
          refine ⟨f a b, ?_, ?_⟩
          · simp only [evalScalar, hf, ha, hb]
          · simp [List.getElem?_zipWith, hxa, hyb]
      · obtain ⟨hb, g, hg⟩ := unary_of_mem ops el hel
        obtain ⟨x, hx, hxl, hxi⟩ := ihl hl
        refine ⟨x.map g, ?_, ?_, ?_⟩
        · simp [RunTree, hx, applyFunction_unary_left P ops hP el g hg x none s.n hxl]
        · simp only [List.length_map]; exact hxl
        · intro i hi
          obtain ⟨a, ha, hxa⟩ := hxi i hi
          refine ⟨g a, ?_, ?_⟩
          · simp only [evalScalar, hb, hg, ha]
          · simp [hxa]
      · obtain ⟨hb, g, hg⟩ := unary_of_mem ops el hel
        obtain ⟨y, hy, hyl, hyi⟩ := ihr hr
        refine ⟨y.map g, ?_, ?_, ?_⟩
        · simp [RunTree, hy, applyFunction_unary_right P ops hP el g hg y s.n hyl]
        · simp only [List.length_map]; exact hyl
        · intro i hi
          obtain ⟨b, hbv, hyb⟩ := hyi i hi
          refine ⟨g b, ?_, ?_⟩
          · simp only [evalScalar, hb, hg, hbv, Option.map_some']
          · simp [hyb]


/-- C21: when the primitives are the elementwise versions of their scalar
operators, for every tree whose leaves all evaluate to vectors of length `n`
and whose `FUNCTION` nodes are `SUM`, `SUB`, `MUL`, `DIV` over two subtrees or
`EXP`, `SQRT`, `LOG` over exactly one subtree (left or right), `RunTree` returns
a non-`NULL` vector of length `n` whose `i`-th component, for every `i < n`, is
the pointwise value of the expression at component `i`. -/
theorem C21_RunTree_agrees_with_pointwise {α : Type} [Zero α] (P : Primitives α)
    (ops : ScalarOps α) (s : SearchSpace α) (T : Node) (hP : P.Elementwise ops)
    (hT : T.Batched P s) :
    ∃ out, RunTree P s T = .ok (some out) ∧ (out.length : Int) = s.n ∧
      ∀ i : Nat, (i : Int) < s.n →
        ∃ c, evalScalar ops s i T = some c ∧ out[i]? = some c :=
  RunTree_batched P ops s hP T hT

theorem exConstLeaf_batched (ls : Int) :
    Node.Batched (elementwisePrims exOps) exTreeSpace
      (.mk 0 .CONSTANT ls "CONST" .null .null) :=
  ⟨rfl, rfl, [5, 5, 5], rfl, rfl⟩

theorem exConstTree_batched : exConstTree.Batched (elementwisePrims exOps) exTreeSpace :=
  Or.inl ⟨by decide,
    Or.inl ⟨by decide, exConstLeaf_batched 1, exConstLeaf_batched 0⟩,
    Or.inr ⟨by decide, Or.inl
      ⟨Or.inr ⟨by decide, Or.inr ⟨rfl, exConstLeaf_batched 0⟩⟩, rfl⟩⟩⟩

/-- C21, witness: `SUB(MUL(5, 5), SQRT(EXP(5)))` over `n = 3`, the child of `EXP`
placed right and that of `SQRT` placed left. -/
theorem C21_RunTree_agrees_with_pointwise_witness :
    ∃ out, RunTree (elementwisePrims exOps) exTreeSpace exConstTree = .ok (some out) ∧
      (out.length : Int) = exTreeSpace.n ∧
      ∀ i : Nat, (i : Int) < exTreeSpace.n →
        ∃ c, evalScalar exOps exTreeSpace i exConstTree = some c ∧ out[i]? = some c :=
  C21_RunTree_agrees_with_pointwise (elementwisePrims exOps) exOps exTreeSpace exConstTree
    (elementwisePrims_elementwise exOps) exConstTree_batched

/-- The values in the witness of C21: the batched result is `[22, 22, 22]` and
the pointwise value is `22` at every component. -/
theorem RunTree_exConstTree :
    RunTree (elementwisePrims exOps) exTreeSpace exConstTree = .ok (some [22, 22, 22]) ∧
      ∀ i : Nat, evalScalar exOps exTreeSpace i exConstTree = some 22 := by
  constructor
  · simp [RunTree, exConstTree, exTreeSpace, applyFunction, elementwisePrims, elementwise2,
      elementwise1, exOps, forLoop, calloc, rdI, rd, wrP, wr]
    norm_num
  · intro i
    simp [evalScalar, exConstTree, exTreeSpace, ScalarOps.binary, ScalarOps.unary, exOps]
    norm_num

end LibOPT
